import Mathlib

/-!
# FinalProject: a bond trading system built from keyed services and listeners

A shallow embedding of the C++ services of `src/code` and the properties
proved about them.

Conventions of the embedding.

* `double` is the type `ℚ`: arithmetic and comparisons are exact, there is no
  NaN and no rounding. `long` is `Int`: signed overflow is undefined
  behaviour in C++, so the embedding describes the executions without it.
* `std::map` and `std::unordered_map` with `string` keys are association
  lists (`StdMap`). A key is looked up at its first entry; `operator[]`
  inserts a value-initialised entry for a missing key. The iteration order of
  the containers is not modelled (only order-independent folds run over it).
* A service keeps the pointers of its registered listeners as a list of
  handles. A fan-out loop `for (auto l : listeners) l->ProcessAdd(x)` yields
  the list of the calls it makes, in order, each a pair of the listener's
  handle and the argument.
* Reading `v[0]` of an empty vector is undefined behaviour: the functions that
  do so return `none` there. So is reading an object through a reference after
  the object was destroyed: a function that returns a reference returns a
  `Reference`, which records whether its object is still alive, and a caller
  that reads through it gets `none` when it is not. So is the conversion to
  `int`, of 32 bits, of a `double` outside the range of `int`.
* A call of `std::stod` has an `Outcome`: a value, no value (an exception that
  nothing catches), or no description, for the arguments outside the class the
  embedding covers. The functions built on it have an `Outcome` as well.
* The system clock is an input: a method that reads it takes the value read as
  an argument. A file a connector appends to is the list of the records
  appended, without the time stamp that precedes each of them.
* In `TradingSystem` the handles of the listeners that `main` registers are
  resolved: a call of the call list of one service is carried out on the
  service its listener points to.
-/

namespace FinalProject

/-! ## Containers -/

/-- A `std::map<string, V>` (or `std::unordered_map<string, V>`). -/
abbrev StdMap (V : Type) := List (String × V)

/-- The member `find`: the value stored under `k`, if any. -/
def mapFind {V : Type} : StdMap V → String → Option V
  | [], _ => none
  | (k', v) :: rest, k => if k' = k then some v else mapFind rest k

/-- The assignment `m[k] = v`: overwrite the entry of `k`, or insert one. -/
def mapAssign {V : Type} : StdMap V → String → V → StdMap V
  | [], k, v => [(k, v)]
  | (k', v') :: rest, k, v =>
    if k' = k then (k', v) :: rest else (k', v') :: mapAssign rest k v

/-- The read `m[k]`: the value under `k` and the map afterwards; a missing key
is inserted with the value-initialised `V`. -/
def mapIndex {V : Type} [Inhabited V] (m : StdMap V) (k : String) : V × StdMap V :=
  match mapFind m k with
  | some v => (v, m)
  | none => (default, mapAssign m k default)

/-- A pointer to a registered `ServiceListener`. -/
abbrev ListenerId := Nat

/-- The calls of one fan-out loop over `listeners`, all with argument `x`. -/
def fanOut {V : Type} (listeners : List ListenerId) (x : V) : List (ListenerId × V) :=
  listeners.map (fun l => (l, x))

/-! ## products.hpp -/

inductive ProductType where
  | IRSWAP
  | BOND
  deriving DecidableEq, Repr, Inhabited

inductive BondIdType where
  | CUSIP
  | ISIN
  deriving DecidableEq, Repr, Inhabited

/-- The class `Bond` with the members of its base `Product`. (The private
`Bond::productId`, which shadows the base member and is never written, is left
out.) -/
structure Bond where
  productId : String := ""
  productType : ProductType := ProductType.IRSWAP
  bondIdType : BondIdType := BondIdType.CUSIP
  ticker : String := ""
  coupon : ℚ := 0
  maturityDate : String := ""
  deriving DecidableEq, Inhabited

/-- The constructor `Bond(_productId, _bondIdType, _ticker, _coupon, _maturityDate)`. -/
def Bond.new (productId : String) (bondIdType : BondIdType) (ticker : String)
    (coupon : ℚ) (maturityDate : String) : Bond :=
  { productId := productId, productType := ProductType.BOND, bondIdType := bondIdType,
    ticker := ticker, coupon := coupon, maturityDate := maturityDate }

def Bond.GetTicker (b : Bond) : String := b.ticker

/-! ## tools.h -/

/-- The reference table `GetBond`; an unknown ticker gives `Bond()`. -/
def GetBond (ticker : String) : Bond :=
  if ticker = "T2Y" then Bond.new "91282CFX4" BondIdType.CUSIP "T2Y" (45 / 1000) "11/30/2024"
  else if ticker = "T3Y" then Bond.new "91282CFW6" BondIdType.CUSIP "T3Y" (45 / 1000) "11/15/2025"
  else if ticker = "T5Y" then Bond.new "91282CFZ9" BondIdType.CUSIP "T5Y" (3875 / 100000) "11/30/2027"
  else if ticker = "T7Y" then Bond.new "91282CFY2" BondIdType.CUSIP "T7Y" (3875 / 100000) "11/30/2029"
  else if ticker = "T10Y" then Bond.new "91282CFV8" BondIdType.CUSIP "T10Y" (4125 / 100000) "11/15/2032"
  else if ticker = "T20Y" then Bond.new "912810TM0" BondIdType.CUSIP "T20Y" (4 / 100) "11/15/2042"
  else if ticker = "T30Y" then Bond.new "912810TL2" BondIdType.CUSIP "T30Y" (4 / 100) "11/15/2052"
  else default

/-! ## marketdataservice.hpp -/

inductive PricingSide where
  | BID
  | OFFER
  deriving DecidableEq, Repr, Inhabited

/-- The class `Order`: a market data order with price, quantity and side. -/
structure Order where
  price : ℚ := 0
  quantity : Int := 0
  side : PricingSide := PricingSide.BID
  deriving DecidableEq, Inhabited

/-- The class `BidOffer`. -/
structure BidOffer where
  bidOrder : Order
  offerOrder : Order
  deriving DecidableEq, Inhabited

/-- The class `OrderBook<Bond>`. -/
structure OrderBook where
  product : Bond := default
  bidStack : List Order := []
  offerStack : List Order := []
  deriving DecidableEq, Inhabited

/-- One pass of the first loop of `GetBestBidOffer`: the state is the pair of
the locals `bestbid` and `bestbidOrder`. -/
def bestBidStep (st : ℚ × Order) (tmp : Order) : ℚ × Order :=
  let price := tmp.price
  if price ≥ st.1 then (price, tmp) else st

/-- One pass of the second loop of `GetBestBidOffer`: the state is the pair of
the locals `bestoffer` and `bestofferOrder`. -/
def bestOfferStep (st : ℚ × Order) (tmp : Order) : ℚ × Order :=
  let price := tmp.price
  if price ≤ st.1 then (price, tmp) else st

/-- A reference that a function returns (`const V&`): the object it refers to,
and whether that object still exists when the function has returned. -/
structure Reference (V : Type) where
  object : V
  alive : Bool
  deriving DecidableEq

/-- The use a caller makes of a returned reference, such as the copy
`V x = f();`: it reads the object. Reading an object whose lifetime has ended
is undefined: the result is `none`. -/
def Reference.read {V : Type} (r : Reference V) : Option V :=
  if r.alive then some r.object else none

/-- The method `OrderBook::GetBestBidOffer`, of return type `const BidOffer&`.
With an empty stack the read of `bidStack[0]` or `offerStack[0]` is undefined:
the result is `none`. The locals `bestbidOrder` and `bestofferOrder` are
default-initialised (`Order() = default` leaves their members indeterminate);
the first pass of each loop assigns them, the prices being exact rationals (a
NaN price, for which both comparisons are false, has no counterpart in the
embedding), and the embedding starts them as the zero order. The operand of
`return` is the temporary
`BidOffer(bestbidOrder, bestofferOrder)`, which is destroyed when the function
returns: the reference returned refers to an object that no longer exists. -/
def OrderBook.GetBestBidOffer (ob : OrderBook) : Option (Reference BidOffer) :=
  match ob.bidStack, ob.offerStack with
  | b0 :: _, o0 :: _ =>
    let bid := ob.bidStack.foldl bestBidStep (b0.price, default)
    let offer := ob.offerStack.foldl bestOfferStep (o0.price, default)
    some { object := { bidOrder := bid.2, offerOrder := offer.2 }, alive := false }
  | _, _ => none

/-! ## executionservice.hpp: execution orders -/

inductive OrderType where
  | FOK
  | IOC
  | MARKET
  | LIMIT
  | STOP
  deriving DecidableEq, Repr, Inhabited

inductive Market where
  | BROKERTEC
  | ESPEED
  | CME
  deriving DecidableEq, Repr, Inhabited

/-- The conversion of a `double` to `long`: truncation toward zero. -/
def truncToLong (q : ℚ) : Int := Int.tdiv q.num q.den

/-- The class `ExecutionOrder<Bond>`. The two quantities are `double` members.
The member `market` is `none` as long as it holds the indeterminate value the
constructor leaves in it. -/
structure ExecutionOrder where
  product : Bond := default
  side : PricingSide := PricingSide.BID
  orderId : String := ""
  orderType : OrderType := OrderType.FOK
  price : ℚ := 0
  visibleQuantity : ℚ := 0
  hiddenQuantity : ℚ := 0
  parentOrderId : String := ""
  isChildOrder : Bool := false
  market : Option Market := some Market.BROKERTEC
  deriving DecidableEq

/-- The value-initialised `ExecutionOrder()`: every member is zero. -/
instance : Inhabited ExecutionOrder := ⟨{}⟩

/-- The constructor of `ExecutionOrder` with nine arguments; it does not
write `market`. -/
def ExecutionOrder.new (product : Bond) (side : PricingSide) (orderId : String)
    (orderType : OrderType) (price : ℚ) (visibleQuantity : ℚ) (hiddenQuantity : ℚ)
    (parentOrderId : String) (isChildOrder : Bool) : ExecutionOrder :=
  { product := product, side := side, orderId := orderId, orderType := orderType,
    price := price, visibleQuantity := visibleQuantity, hiddenQuantity := hiddenQuantity,
    parentOrderId := parentOrderId, isChildOrder := isChildOrder, market := none }

def ExecutionOrder.GetProduct (e : ExecutionOrder) : Bond := e.product

def ExecutionOrder.GetOrderId (e : ExecutionOrder) : String := e.orderId

def ExecutionOrder.GetOrderType (e : ExecutionOrder) : OrderType := e.orderType

def ExecutionOrder.GetPrice (e : ExecutionOrder) : ℚ := e.price

/-- The method `GetVisibleQuantity`: the `double` member returned as `long`. -/
def ExecutionOrder.GetVisibleQuantity (e : ExecutionOrder) : Int := truncToLong e.visibleQuantity

/-- The method `GetHiddenQuantity`: the `double` member returned as `long`. -/
def ExecutionOrder.GetHiddenQuantity (e : ExecutionOrder) : Int := truncToLong e.hiddenQuantity

def ExecutionOrder.GetParentOrderId (e : ExecutionOrder) : String := e.parentOrderId

def ExecutionOrder.IsChildOrder (e : ExecutionOrder) : Bool := e.isChildOrder

def ExecutionOrder.getPricingSide (e : ExecutionOrder) : PricingSide := e.side

/-! ## algoexecutionservice.h -/

/-- The class `AlgoExecution<Bond>`. It holds a pointer to an execution order
allocated by its constructor: `none` is the null pointer of `AlgoExecution()`,
and the order pointed to is kept by value. -/
structure AlgoExecution where
  executionOrder : Option ExecutionOrder := none
  deriving DecidableEq, Inhabited

/-- The constructor of `AlgoExecution` with nine arguments. The `long`
quantities are converted to the `double` parameters of `ExecutionOrder`. -/
def AlgoExecution.new (product : Bond) (side : PricingSide) (orderId : String)
    (orderType : OrderType) (price : ℚ) (visibleQuantity : Int) (hiddenQuantity : Int)
    (parentOrderId : String) (isChildOrder : Bool) : AlgoExecution :=
  { executionOrder := some (ExecutionOrder.new product side orderId orderType price
      (visibleQuantity : ℚ) (hiddenQuantity : ℚ) parentOrderId isChildOrder) }

def AlgoExecution.GetExecutionOrder (a : AlgoExecution) : Option ExecutionOrder :=
  a.executionOrder

/-- The class `AlgoExecutionService<Bond>`. -/
structure AlgoExecutionService where
  algoExecutions : StdMap AlgoExecution := []
  listeners : List ListenerId := []
  aggresing_spread : ℚ := 1 / 128
  isBid : Bool := true
  deriving DecidableEq

/-- The constructor `AlgoExecutionService()`. -/
def AlgoExecutionService.new : AlgoExecutionService :=
  { algoExecutions := [], listeners := [], aggresing_spread := 1 / 128, isBid := true }

/-- The method `GetData`: `return algoExecutions[key]`. -/
def AlgoExecutionService.GetData (s : AlgoExecutionService) (key : String) :
    AlgoExecution × AlgoExecutionService :=
  let r := mapIndex s.algoExecutions key
  (r.1, { s with algoExecutions := r.2 })

/-- The method `AddListener`. -/
def AlgoExecutionService.AddListener (s : AlgoExecutionService) (l : ListenerId) :
    AlgoExecutionService :=
  { s with listeners := s.listeners ++ [l] }

/-- What one call of `AlgoExecuteOrder` does: the service afterwards, the local
`algoExecution` if the branch that builds it was taken, and the calls made to
the listeners. -/
structure AlgoExecuteResult where
  service : AlgoExecutionService
  generated : Option AlgoExecution
  calls : List (ListenerId × AlgoExecution)
  deriving DecidableEq

/-- The method `AlgoExecuteOrder`. The string `newId` is the value that the
random generator `genID()` returns if it is called. The statement
`BidOffer bidOffer = data.GetBestBidOffer();` copies the object that the
returned reference refers to; the result is `none` when `GetBestBidOffer` or
that read is undefined. The statements after it are kept as the source has
them; there the comparison with the threshold is the exact one of the
embedding, where the source compares rounded `double` values. -/
def AlgoExecutionService.AlgoExecuteOrder (s : AlgoExecutionService) (data : OrderBook)
    (newId : String) : Option AlgoExecuteResult :=
  let product := data.product
  let ticker := product.GetTicker
  match data.GetBestBidOffer with
  | none => none
  | some ref =>
    match ref.read with
    | none => none
    | some bidOffer =>
      let bidOrder := bidOffer.bidOrder
      let offerOrder := bidOffer.offerOrder
      if offerOrder.price - bidOrder.price = s.aggresing_spread then
        let side := if s.isBid then PricingSide.BID else PricingSide.OFFER
        let Q := if s.isBid then bidOrder.quantity else offerOrder.quantity
        let p := if s.isBid then bidOrder.price else offerOrder.price
        let algoExecution :=
          AlgoExecution.new product side newId OrderType.MARKET p Q 0 "" false
        some { service := { s with isBid := !s.isBid,
                                   algoExecutions :=
                                     mapAssign s.algoExecutions ticker algoExecution },
               generated := some algoExecution,
               calls := fanOut s.listeners algoExecution }
      else
        some { service := s, generated := none, calls := [] }

/-- The service after `AlgoExecuteOrder` was called for each update in turn,
with the executions generated on the way, in order. An update is an order book
and the identifier the random generator has in store for it. -/
def AlgoExecutionService.run (s : AlgoExecutionService) :
    List (OrderBook × String) → Option (AlgoExecutionService × List AlgoExecution)
  | [] => some (s, [])
  | u :: rest =>
    match s.AlgoExecuteOrder u.1 u.2 with
    | none => none
    | some r =>
      match AlgoExecutionService.run r.service rest with
      | none => none
      | some (s', gens) => some (s', r.generated.toList ++ gens)

/-- The side of the order an execution wraps. -/
def AlgoExecution.side (a : AlgoExecution) : Option PricingSide :=
  a.executionOrder.map (fun e => e.getPricingSide)

/-! ## tradebookingservice.hpp: trades -/

inductive Side where
  | BUY
  | SELL
  deriving DecidableEq, Repr, Inhabited

structure Trade where
  product : Bond := default
  tradeId : String := ""
  price : ℚ := 0
  book : String := ""
  quantity : Int := 0
  side : Side := Side.BUY
  deriving DecidableEq, Inhabited

/-- The class `TradeBookingService<Bond>`: the trades by trade id and the
registered listeners. -/
structure TradeBookingService where
  trades : StdMap Trade := []
  listeners : List ListenerId := []
  deriving DecidableEq

/-- The method `GetData`: `return trades[key]`. -/
def TradeBookingService.GetData (s : TradeBookingService) (key : String) :
    Trade × TradeBookingService :=
  let r := mapIndex s.trades key
  (r.1, { s with trades := r.2 })

/-- The method `AddListener`. -/
def TradeBookingService.AddListener (s : TradeBookingService) (l : ListenerId) :
    TradeBookingService :=
  { s with listeners := s.listeners ++ [l] }

/-- The method `BookTrade`: the service afterwards and the calls made to the
listeners. -/
def TradeBookingService.BookTrade (s : TradeBookingService) (trade : Trade) :
    TradeBookingService × List (ListenerId × Trade) :=
  ({ s with trades := mapAssign s.trades trade.tradeId trade }, fanOut s.listeners trade)

/-- The class `TBListener<Bond>`: the counter `cnt`. The service `TBS` it
points to is passed to its methods. -/
structure TBListener where
  cnt : Int := 0
  deriving DecidableEq

/-- The constructor of `TBListener`: `cnt(0)`. -/
def TBListener.new : TBListener := { cnt := 0 }

/-- The local `_trade` that `TBListener::ProcessAdd` builds from `data` when
the counter is `cnt`. -/
def TBListener.buildTrade (cnt : Int) (data : ExecutionOrder) : Trade :=
  let _product := data.GetProduct
  let _side :=
    match data.getPricingSide with
    | PricingSide.BID => Side.SELL
    | PricingSide.OFFER => Side.BUY
  let _book :=
    match Int.tmod cnt 3 with
    | 0 => "TRSY1"
    | 1 => "TRSY2"
    | 2 => "TRSY3"
    | _ => ""
  let Q := data.GetVisibleQuantity + data.GetHiddenQuantity
  { product := _product, tradeId := data.GetOrderId, price := data.GetPrice,
    book := _book, quantity := Q, side := _side }

/-- What one call of `TBListener::ProcessAdd` does: the listener and its
service afterwards, the trade passed to `BookTrade`, and the calls `BookTrade`
made to the listeners of the service. -/
structure TBProcessResult where
  listener : TBListener
  service : TradeBookingService
  booked : Trade
  calls : List (ListenerId × Trade)
  deriving DecidableEq

/-- The method `TBListener::ProcessAdd`. -/
def TBListener.ProcessAdd (l : TBListener) (tbs : TradeBookingService)
    (data : ExecutionOrder) : TBProcessResult :=
  let _trade := TBListener.buildTrade l.cnt data
  let r := tbs.BookTrade _trade
  { listener := { l with cnt := l.cnt + 1 }, service := r.1, booked := _trade, calls := r.2 }

/-- The class `Position<Bond>`: a product and the quantity held in each book. -/
structure Position where
  product : Bond := default
  positions : StdMap Int := []
  deriving DecidableEq, Inhabited

/-- The constructor `Position(const T&)`. -/
def Position.new (product : Bond) : Position :=
  { product := product, positions := [] }

/-- The method `GetPosition`: `return positions[book]`. The first component is
the value returned, the second the position afterwards. -/
def Position.GetPosition (p : Position) (book : String) : Int × Position :=
  let r := mapIndex p.positions book
  (r.1, { p with positions := r.2 })

/-- The method `GetAggregatePosition`: the sum over the entries of `positions`. -/
def Position.GetAggregatePosition (p : Position) : Int :=
  p.positions.foldl (fun sum e => sum + e.2) 0

/-- The method `AddPosition`: `positions[book] += pos`. -/
def Position.AddPosition (p : Position) (book : String) (pos : Int) : Position :=
  let r := mapIndex p.positions book
  { p with positions := mapAssign r.2 book (r.1 + pos) }

/-- The class `PositionService<Bond>`: the positions by ticker and the
registered listeners. -/
structure PositionService where
  positions : StdMap Position := []
  listeners : List ListenerId := []
  deriving DecidableEq

/-- The constructor `PositionService()`. -/
def PositionService.new : PositionService := { positions := [], listeners := [] }

/-- The method `GetData`: `return positions[key]`. -/
def PositionService.GetData (s : PositionService) (key : String) :
    Position × PositionService :=
  let r := mapIndex s.positions key
  (r.1, { s with positions := r.2 })

/-- The method `AddListener`. -/
def PositionService.AddListener (s : PositionService) (l : ListenerId) : PositionService :=
  { s with listeners := s.listeners ++ [l] }

/-- The method `AddTrade`: the service afterwards and the calls made to the
listeners. -/
def PositionService.AddTrade (s : PositionService) (trade : Trade) :
    PositionService × List (ListenerId × Position) :=
  let ticker := trade.product.GetTicker
  let book := trade.book
  let positions1 :=
    match mapFind s.positions ticker with
    | none => mapAssign s.positions ticker (Position.new (GetBond ticker))
    | some _ => s.positions
  let r := mapIndex positions1 ticker
  let positions2 :=
    match trade.side with
    | Side.BUY => mapAssign r.2 ticker (r.1.AddPosition book trade.quantity)
    | Side.SELL => mapAssign r.2 ticker (r.1.AddPosition book (-trade.quantity))
  let r2 := mapIndex positions2 ticker
  ({ s with positions := r2.2 }, fanOut s.listeners r2.1)

/-- The service after `AddTrade` was called with each trade of `trades` in turn. -/
def PositionService.addTrades (s : PositionService) (trades : List Trade) : PositionService :=
  trades.foldl (fun st t => (st.AddTrade t).1) s

/-- The signed quantity of a trade: `+quantity` for BUY, `-quantity` for SELL. -/
def signedQuantity (t : Trade) : Int :=
  match t.side with
  | Side.BUY => t.quantity
  | Side.SELL => -t.quantity

/-! ## pricingservice.hpp: prices -/

/-- The class `Price<Bond>`: a mid price and the bid/offer spread around it. -/
structure Price where
  product : Bond := default
  mid : ℚ := 0
  bidOfferSpread : ℚ := 0
  deriving DecidableEq, Inhabited

def Price.GetProduct (p : Price) : Bond := p.product

def Price.GetMid (p : Price) : ℚ := p.mid

def Price.GetBidOfferSpread (p : Price) : ℚ := p.bidOfferSpread

/-! ## streamingservice.hpp: price streams -/

/-- The class `PriceStreamOrder`. -/
structure PriceStreamOrder where
  price : ℚ := 0
  visibleQuantity : Int := 0
  hiddenQuantity : Int := 0
  side : PricingSide := PricingSide.BID
  deriving DecidableEq, Inhabited

def PriceStreamOrder.GetPrice (o : PriceStreamOrder) : ℚ := o.price

def PriceStreamOrder.GetVisibleQuantity (o : PriceStreamOrder) : Int := o.visibleQuantity

def PriceStreamOrder.GetHiddenQuantity (o : PriceStreamOrder) : Int := o.hiddenQuantity

/-- The class `PriceStream<Bond>`: a two-way market on a product. -/
structure PriceStream where
  product : Bond := default
  bidOrder : PriceStreamOrder := default
  offerOrder : PriceStreamOrder := default
  deriving DecidableEq, Inhabited

def PriceStream.GetProduct (ps : PriceStream) : Bond := ps.product

def PriceStream.GetBidOrder (ps : PriceStream) : PriceStreamOrder := ps.bidOrder

def PriceStream.GetOfferOrder (ps : PriceStream) : PriceStreamOrder := ps.offerOrder

/-! ## algostreamingservice.h -/

/-- The class `AlgoStream<Bond>`. It holds a pointer to a price stream:
`none` is the null pointer of `AlgoStream()`, and the stream pointed to is kept
by value. -/
structure AlgoStream where
  priceStream : Option PriceStream := none
  deriving DecidableEq, Inhabited

def AlgoStream.GetPriceStream (a : AlgoStream) : Option PriceStream := a.priceStream

/-- The class `AlgoStreamingService<Bond>`. -/
structure AlgoStreamingService where
  algoStreams : StdMap AlgoStream := []
  listeners : List ListenerId := []
  VisibleS1M : Bool := true
  deriving DecidableEq

/-- The constructor `AlgoStreamingService()`: `VisibleS1M(true)`. -/
def AlgoStreamingService.new : AlgoStreamingService :=
  { algoStreams := [], listeners := [], VisibleS1M := true }

/-- The method `GetData`: `return algoStreams[key]`. -/
def AlgoStreamingService.GetData (s : AlgoStreamingService) (key : String) :
    AlgoStream × AlgoStreamingService :=
  let r := mapIndex s.algoStreams key
  (r.1, { s with algoStreams := r.2 })

/-- The method `OnMessage`: store `data` under the ticker of the stream it
points to. Dereferencing the null pointer is undefined: the result is `none`. -/
def AlgoStreamingService.OnMessage (s : AlgoStreamingService) (data : AlgoStream) :
    Option AlgoStreamingService :=
  match data.GetPriceStream with
  | none => none
  | some ps => some { s with algoStreams := mapAssign s.algoStreams ps.GetProduct.GetTicker data }

/-- The method `AddListener`. -/
def AlgoStreamingService.AddListener (s : AlgoStreamingService) (l : ListenerId) :
    AlgoStreamingService :=
  { s with listeners := s.listeners ++ [l] }

/-- What one call of `PublishPrice` does: the service afterwards, the local
`_algoStream`, and the calls made to the listeners. -/
structure PublishPriceResult where
  service : AlgoStreamingService
  generated : AlgoStream
  calls : List (ListenerId × AlgoStream)
  deriving DecidableEq

/-- The method `AlgoStreamingService::PublishPrice`. In `VisibleS1M + 1` the
`bool` is promoted to the integer 1 or 0. -/
def AlgoStreamingService.PublishPrice (s : AlgoStreamingService) (price : Price) :
    Option PublishPriceResult :=
  let mid := price.GetMid
  let Spread := price.GetBidOfferSpread
  let bid := mid - Spread / 2
  let offer := mid + Spread / 2
  let visibleQuantity : Int := ((if s.VisibleS1M then 1 else 0) + 1) * 10000000
  let hiddenQuantity : Int := visibleQuantity * 2
  let s1 := { s with VisibleS1M := !s.VisibleS1M }
  let _bidOrder : PriceStreamOrder :=
    { price := bid, visibleQuantity := visibleQuantity, hiddenQuantity := hiddenQuantity,
      side := PricingSide.BID }
  let _offerOrder : PriceStreamOrder :=
    { price := offer, visibleQuantity := visibleQuantity, hiddenQuantity := hiddenQuantity,
      side := PricingSide.OFFER }
  let _algoStream : AlgoStream :=
    { priceStream := some { product := price.GetProduct, bidOrder := _bidOrder,
                            offerOrder := _offerOrder } }
  match s1.OnMessage _algoStream with
  | none => none
  | some s2 =>
    some { service := s2, generated := _algoStream, calls := fanOut s2.listeners _algoStream }

/-- The service after `PublishPrice` was called for each price in turn, with
the streams generated on the way, in order. -/
def AlgoStreamingService.publishAll (s : AlgoStreamingService) :
    List Price → Option (AlgoStreamingService × List AlgoStream)
  | [] => some (s, [])
  | p :: rest =>
    match s.PublishPrice p with
    | none => none
    | some r =>
      match AlgoStreamingService.publishAll r.service rest with
      | none => none
      | some (s', gens) => some (s', r.generated :: gens)

/-- The visible quantity of the bid order of the stream `a` points to. -/
def AlgoStream.bidVisible (a : AlgoStream) : Option Int :=
  a.priceStream.map (fun ps => ps.GetBidOrder.GetVisibleQuantity)

/-- The visible quantity of the offer order of the stream `a` points to. -/
def AlgoStream.offerVisible (a : AlgoStream) : Option Int :=
  a.priceStream.map (fun ps => ps.GetOfferOrder.GetVisibleQuantity)

/-! ## executionservice.hpp: the service -/

/-- The method `setMarket`. -/
def ExecutionOrder.setMarket (e : ExecutionOrder) (m : Market) : ExecutionOrder :=
  { e with market := some m }

/-- The class `ExecutionService<Bond>`: the execution orders by ticker and the
registered listeners. -/
structure ExecutionService where
  executionOrders : StdMap ExecutionOrder := []
  listeners : List ListenerId := []
  deriving DecidableEq

/-- The constructor `ExecutionService()`. -/
def ExecutionService.new : ExecutionService := { executionOrders := [], listeners := [] }

/-- The method `GetData`: `return executionOrders[key]`. -/
def ExecutionService.GetData (s : ExecutionService) (key : String) :
    ExecutionOrder × ExecutionService :=
  let r := mapIndex s.executionOrders key
  (r.1, { s with executionOrders := r.2 })

/-- The method `OnMessage`: store the order under the ticker of its product. -/
def ExecutionService.OnMessage (s : ExecutionService) (data : ExecutionOrder) :
    ExecutionService :=
  { s with executionOrders := mapAssign s.executionOrders data.GetProduct.GetTicker data }

/-- The method `AddListener`. -/
def ExecutionService.AddListener (s : ExecutionService) (l : ListenerId) : ExecutionService :=
  { s with listeners := s.listeners ++ [l] }

/-- What one call of `ExecuteOrder` does: the service afterwards, the order
passed by reference as the call leaves it, and the calls made to the
listeners. -/
structure ExecuteOrderResult where
  service : ExecutionService
  order : ExecutionOrder
  calls : List (ListenerId × ExecutionOrder)
  deriving DecidableEq

/-- The method `ExecutionService::ExecuteOrder`. -/
def ExecutionService.ExecuteOrder (s : ExecutionService) (order : ExecutionOrder)
    (market : Market) : ExecuteOrderResult :=
  let order1 := order.setMarket market
  let s1 := s.OnMessage order1
  { service := s1, order := order1, calls := fanOut s1.listeners order1 }

/-- The method `EListener::ProcessAdd` of the listener of the service `es`.
Dereferencing the null pointer of an `AlgoExecution()` is undefined: the result
is `none`. -/
def EListener.ProcessAdd (es : ExecutionService) (data : AlgoExecution) :
    Option ExecuteOrderResult :=
  match data.GetExecutionOrder with
  | none => none
  | some executionOrder => some (es.ExecuteOrder executionOrder Market.CME)

/-! ## tools.h: risk reference data -/

/-- The reference table `GetBucket`: the name of the bucket of a ticker,
followed by the tickers of the bucket; an unknown ticker gives `Belly`. -/
def GetBucket (ticker : String) : List String :=
  if ticker = "T2Y" then ["FrontEnd", "T2Y", "T3Y"]
  else if ticker = "T3Y" then ["FrontEnd", "T2Y", "T3Y"]
  else if ticker = "T5Y" then ["Belly", "T5Y", "T7Y", "T10Y"]
  else if ticker = "T7Y" then ["Belly", "T5Y", "T7Y", "T10Y"]
  else if ticker = "T10Y" then ["Belly", "T5Y", "T7Y", "T10Y"]
  else if ticker = "T20Y" then ["LongEnd", "T20Y", "T30Y"]
  else if ticker = "T30Y" then ["LongEnd", "T20Y", "T30Y"]
  else ["Belly", "T5Y", "T7Y", "T10Y"]

/-- The reference table `GetPV01`: the PV01 of one unit of a ticker; an unknown
ticker gives 1. -/
def GetPV01 (ticker : String) : ℚ :=
  if ticker = "T2Y" then 1879 / 100000
  else if ticker = "T3Y" then 2761 / 100000
  else if ticker = "T5Y" then 4526 / 100000
  else if ticker = "T7Y" then 6170 / 100000
  else if ticker = "T10Y" then 8598 / 100000
  else if ticker = "T20Y" then 14420 / 100000
  else if ticker = "T30Y" then 19917 / 100000
  else 1

/-! ## riskservice.hpp -/

/-- The class `PV01<T>`. The member `bucket_pv01` is `none` as long as it holds
the indeterminate value the constructor leaves in it. -/
structure PV01 (T : Type) where
  product : T
  pv01 : ℚ := 0
  quantity : Int := 0
  bucket_pv01 : Option ℚ := some 0
  bucket_name : String := ""
  deriving DecidableEq

/-- The constructor `PV01(_product, _pv01, _quantity)`; it does not write
`bucket_pv01`. -/
def PV01.new {T : Type} (product : T) (pv01 : ℚ) (quantity : Int) : PV01 T :=
  { product := product, pv01 := pv01, quantity := quantity, bucket_pv01 := none,
    bucket_name := "" }

def PV01.GetProduct {T : Type} (v : PV01 T) : T := v.product

def PV01.GetPV01 {T : Type} (v : PV01 T) : ℚ := v.pv01

def PV01.GetQuantity {T : Type} (v : PV01 T) : Int := v.quantity

def PV01.GetBucketPV01 {T : Type} (v : PV01 T) : Option ℚ := v.bucket_pv01

def PV01.GetBucketName {T : Type} (v : PV01 T) : String := v.bucket_name

def PV01.SetBucketPV01 {T : Type} (v : PV01 T) (x : ℚ) : PV01 T :=
  { v with bucket_pv01 := some x }

def PV01.SetBucketName {T : Type} (v : PV01 T) (n : String) : PV01 T :=
  { v with bucket_name := n }

/-- The class `BucketedSector<Bond>`. -/
structure BucketedSector where
  products : List Bond := []
  name : String := ""
  deriving DecidableEq

def BucketedSector.GetProducts (b : BucketedSector) : List Bond := b.products

def BucketedSector.GetName (b : BucketedSector) : String := b.name

/-- The class `RiskService<Bond>`: the PV01 by ticker and the registered
listeners. -/
structure RiskService where
  pv01s : StdMap ℚ := []
  listeners : List ListenerId := []
  deriving DecidableEq

/-- The constructor `RiskService()`. -/
def RiskService.new : RiskService := { pv01s := [], listeners := [] }

/-- The method `GetData`: a new `PV01(GetBond(key), pv01s[key], 1)`. -/
def RiskService.GetData (s : RiskService) (key : String) : PV01 Bond × RiskService :=
  let r := mapIndex s.pv01s key
  (PV01.new (GetBond key) r.1 1, { s with pv01s := r.2 })

/-- The method `AddListener`. -/
def RiskService.AddListener (s : RiskService) (l : ListenerId) : RiskService :=
  { s with listeners := s.listeners ++ [l] }

/-- One pass of a loop `acc += pv01s[key]`: the state is the pair of the
accumulator and the map. -/
def addStoredPV01 (st : ℚ × StdMap ℚ) (key : String) : ℚ × StdMap ℚ :=
  let r := mapIndex st.2 key
  (st.1 + r.1, r.2)

/-- What one call of `RiskService::AddPosition` does: the service afterwards,
the local `pv01`, and the calls made to the listeners. -/
structure AddPositionResult where
  service : RiskService
  emitted : PV01 Bond
  calls : List (ListenerId × PV01 Bond)
  deriving DecidableEq

/-- The method `RiskService::AddPosition`. The loop runs over `bucket[1]`,
`bucket[2]`, ... -/
def RiskService.AddPosition (s : RiskService) (position : Position) : AddPositionResult :=
  let ticker := position.product.GetTicker
  let quantity := position.GetAggregatePosition
  let pv01s1 := mapAssign s.pv01s ticker (GetPV01 ticker * quantity)
  let bucket := GetBucket ticker
  let loop := (bucket.drop 1).foldl addStoredPV01 (0, pv01s1)
  let bucket_pv01 := loop.1
  let r := mapIndex loop.2 ticker
  let pv01 := ((PV01.new position.product r.1 quantity).SetBucketName
    (bucket.getD 0 "")).SetBucketPV01 bucket_pv01
  { service := { s with pv01s := r.2 }, emitted := pv01, calls := fanOut s.listeners pv01 }

/-- The service after `AddPosition` was called with each position in turn, and
the records built on the way, in order. -/
def RiskService.addPositions (s : RiskService) (positions : List Position) :
    RiskService × List (PV01 Bond) :=
  positions.foldl
    (fun st p => ((st.1.AddPosition p).service, st.2 ++ [(st.1.AddPosition p).emitted]))
    (s, [])

/-- The aggregate position of the most recent of `positions` whose product has
ticker `m`; 0 if there is none. -/
def lastAggregate (positions : List Position) (m : String) : Int :=
  positions.foldl
    (fun acc p => if p.product.GetTicker = m then p.GetAggregatePosition else acc) 0

/-- The PV01 stored under `key`, a key never written counting 0. -/
def RiskService.storedPV01 (s : RiskService) (key : String) : ℚ :=
  (mapFind s.pv01s key).getD 0

/-! ## inquiryservice.hpp -/

inductive InquiryState where
  | RECEIVED
  | QUOTED
  | DONE
  | REJECTED
  | CUSTOMER_REJECTED
  deriving DecidableEq, Repr, Inhabited

/-- The class `Inquiry<Bond>`. -/
structure Inquiry where
  inquiryId : String := ""
  product : Bond := default
  side : Side := Side.BUY
  quantity : Int := 0
  price : ℚ := 0
  state : InquiryState := InquiryState.RECEIVED
  deriving DecidableEq, Inhabited

def Inquiry.GetInquiryId (q : Inquiry) : String := q.inquiryId

def Inquiry.GetProduct (q : Inquiry) : Bond := q.product

def Inquiry.GetSide (q : Inquiry) : Side := q.side

def Inquiry.GetQuantity (q : Inquiry) : Int := q.quantity

def Inquiry.GetPrice (q : Inquiry) : ℚ := q.price

def Inquiry.GetState (q : Inquiry) : InquiryState := q.state

def Inquiry.setState (q : Inquiry) (s : InquiryState) : Inquiry := { q with state := s }

def Inquiry.setPrice (q : Inquiry) (p : ℚ) : Inquiry := { q with price := p }

/-- The class `InquiryService<Bond>`: the inquiries by inquiry id and the
registered listeners. -/
structure InquiryService where
  inquiries : StdMap Inquiry := []
  listeners : List ListenerId := []
  deriving DecidableEq

/-- The constructor `InquiryService()`. -/
def InquiryService.new : InquiryService := { inquiries := [], listeners := [] }

/-- The method `GetData`: `return inquiries[key]`. -/
def InquiryService.GetData (s : InquiryService) (key : String) : Inquiry × InquiryService :=
  let r := mapIndex s.inquiries key
  (r.1, { s with inquiries := r.2 })

/-- The method `AddListener`. -/
def InquiryService.AddListener (s : InquiryService) (l : ListenerId) : InquiryService :=
  { s with listeners := s.listeners ++ [l] }

/-- The object an argument of type `Inquiry<T>&` refers to: the object of the
caller of the service, which lives outside it, or the element `inquiries[key]`
of the service's own map. -/
inductive InquiryRef where
  | caller
  | stored (key : String)
  deriving DecidableEq

/-- The memory an ingestion works on: the service, the object of the caller,
and the calls made to the listeners so far (each with the value of its argument
at the time of the call). -/
structure InquiryWorld where
  service : InquiryService
  caller : Inquiry
  calls : List (ListenerId × Inquiry) := []
  deriving DecidableEq

/-- The object a reference refers to. -/
def InquiryWorld.read (w : InquiryWorld) : InquiryRef → Inquiry
  | InquiryRef.caller => w.caller
  | InquiryRef.stored key => (mapIndex w.service.inquiries key).1

/-- A write through a reference. -/
def InquiryWorld.write (w : InquiryWorld) (r : InquiryRef) (v : Inquiry) : InquiryWorld :=
  match r with
  | InquiryRef.caller => { w with caller := v }
  | InquiryRef.stored key =>
    { w with service := { w.service with inquiries := mapAssign w.service.inquiries key v } }

/-- The method `IQConnector::Publish`: `data.setState(QUOTED)`, then
`IQS->OnMessage(data)`. The parameter `onMessage` is the method `OnMessage` of
the service the connector points to. -/
def IQConnector.Publish (onMessage : InquiryWorld → InquiryRef → Option InquiryWorld)
    (w : InquiryWorld) (data : InquiryRef) : Option InquiryWorld :=
  let w1 := w.write data ((w.read data).setState InquiryState.QUOTED)
  onMessage w1 data

/-- The method `InquiryService::SendQuote`: `inquiries[inquiryId].setPrice(price)`,
then `connector->Publish(inquiries[inquiryId])`. The parameter `onMessage` is
the method `OnMessage` that the connector calls back. -/
def InquiryService.SendQuote (onMessage : InquiryWorld → InquiryRef → Option InquiryWorld)
    (w : InquiryWorld) (inquiryId : String) (price : ℚ) : Option InquiryWorld :=
  let r := mapIndex w.service.inquiries inquiryId
  let w1 : InquiryWorld :=
    { w with service :=
        { w.service with inquiries := mapAssign r.2 inquiryId (r.1.setPrice price) } }
  IQConnector.Publish onMessage w1 (InquiryRef.stored inquiryId)

/-- The method `InquiryService::OnMessage`, called with `data` referring to an
object of the memory `w`. The first argument bounds the depth of the nested
calls of `OnMessage` (through `SendQuote` and `Publish`): the result is `none`
when the bound is reached. -/
def InquiryService.OnMessage : Nat → InquiryWorld → InquiryRef → Option InquiryWorld
  | 0, _, _ => none
  | fuel + 1, w, data =>
    let state := (w.read data).GetState
    let inquiryId := (w.read data).GetInquiryId
    let w1 : InquiryWorld :=
      { w with service :=
          { w.service with
              inquiries := mapAssign w.service.inquiries inquiryId (w.read data) } }
    match state with
    | InquiryState.RECEIVED =>
      InquiryService.SendQuote (InquiryService.OnMessage fuel) w1 inquiryId 100
    | InquiryState.QUOTED =>
      let w2 := w1.write data ((w1.read data).setState InquiryState.DONE)
      some { w2 with calls := w2.calls ++ fanOut w2.service.listeners (w2.read data) }
    | _ => some w1

/-- The method `InquiryService::RejectInquiry`:
`inquiries[inquiryId].setState(REJECTED)`. -/
def InquiryService.RejectInquiry (s : InquiryService) (inquiryId : String) : InquiryService :=
  let r := mapIndex s.inquiries inquiryId
  { s with inquiries := mapAssign r.2 inquiryId (r.1.setState InquiryState.REJECTED) }

/-- A call `OnMessage(q)` from outside the service, as the connector's
`Consume` makes it: `q` is an object of the caller. -/
def InquiryService.ingest (fuel : Nat) (s : InquiryService) (q : Inquiry) :
    Option InquiryWorld :=
  InquiryService.OnMessage fuel { service := s, caller := q, calls := [] } InquiryRef.caller

/-- A call `SendQuote(inquiryId, price)` from outside the service; `fuel`
bounds the depth of the calls of `OnMessage` it leads to. -/
def InquiryService.sendQuote (fuel : Nat) (s : InquiryService) (inquiryId : String)
    (price : ℚ) : Option InquiryWorld :=
  InquiryService.SendQuote (InquiryService.OnMessage fuel)
    { service := s, caller := default, calls := [] } inquiryId price

/-! ## The remaining services and the bodies of `OnMessage` -/

/-- The class `PricingService<Bond>`: the prices by ticker and the registered
listeners. -/
structure PricingService where
  listeners : List ListenerId := []
  prices : StdMap Price := []
  deriving DecidableEq

/-- The constructor `PricingService()`. -/
def PricingService.new : PricingService := { listeners := [], prices := [] }

/-- The method `GetData`: `return prices[key]`. -/
def PricingService.GetData (s : PricingService) (key : String) : Price × PricingService :=
  let r := mapIndex s.prices key
  (r.1, { s with prices := r.2 })

/-- The method `PricingService::OnMessage`: store the price under its ticker,
then call every listener with it. -/
def PricingService.OnMessage (s : PricingService) (p : Price) :
    PricingService × List (ListenerId × Price) :=
  ({ s with prices := mapAssign s.prices p.GetProduct.GetTicker p }, fanOut s.listeners p)

/-- The method `AddListener`. -/
def PricingService.AddListener (s : PricingService) (l : ListenerId) : PricingService :=
  { s with listeners := s.listeners ++ [l] }

/-- The class `MarketDataService<Bond>`. -/
structure MarketDataService where
  orderBooks : StdMap OrderBook := []
  listeners : List ListenerId := []
  bookDepth : Int := 5
  deriving DecidableEq

/-- The constructor `MarketDataService()`: `bookDepth(5)`. -/
def MarketDataService.new : MarketDataService :=
  { orderBooks := [], listeners := [], bookDepth := 5 }

/-- The method `GetData`: `return orderBooks[key]`. -/
def MarketDataService.GetData (s : MarketDataService) (key : String) :
    OrderBook × MarketDataService :=
  let r := mapIndex s.orderBooks key
  (r.1, { s with orderBooks := r.2 })

/-- The method `MarketDataService::OnMessage`: store the book under its ticker,
then call every listener with it. -/
def MarketDataService.OnMessage (s : MarketDataService) (data : OrderBook) :
    MarketDataService × List (ListenerId × OrderBook) :=
  ({ s with orderBooks := mapAssign s.orderBooks data.product.GetTicker data },
    fanOut s.listeners data)

/-- The method `AddListener`. -/
def MarketDataService.AddListener (s : MarketDataService) (l : ListenerId) :
    MarketDataService :=
  { s with listeners := s.listeners ++ [l] }

/-- The class `StreamingService<Bond>`. -/
structure StreamingService where
  priceStreams : StdMap PriceStream := []
  listeners : List ListenerId := []
  deriving DecidableEq

/-- The constructor `StreamingService()`. -/
def StreamingService.new : StreamingService := { priceStreams := [], listeners := [] }

/-- The method `GetData`: `return priceStreams[key]`. -/
def StreamingService.GetData (s : StreamingService) (key : String) :
    PriceStream × StreamingService :=
  let r := mapIndex s.priceStreams key
  (r.1, { s with priceStreams := r.2 })

/-- The method `StreamingService::OnMessage`: store the stream under its
ticker. -/
def StreamingService.OnMessage (s : StreamingService) (data : PriceStream) : StreamingService :=
  { s with priceStreams := mapAssign s.priceStreams data.GetProduct.GetTicker data }

/-- The method `AddListener`. -/
def StreamingService.AddListener (s : StreamingService) (l : ListenerId) : StreamingService :=
  { s with listeners := s.listeners ++ [l] }

/-- The method `StreamingService::PublishPrice`: `OnMessage`, then a call to
every listener. -/
def StreamingService.PublishPrice (s : StreamingService) (priceStream : PriceStream) :
    StreamingService × List (ListenerId × PriceStream) :=
  let s1 := s.OnMessage priceStream
  (s1, fanOut s1.listeners priceStream)

/-- The method `StreamingListener::ProcessAdd` of the listener of the service
`ss`. Dereferencing the null pointer of an `AlgoStream()` is undefined: the
result is `none`. -/
def StreamingListener.ProcessAdd (ss : StreamingService) (data : AlgoStream) :
    Option (StreamingService × List (ListenerId × PriceStream)) :=
  match data.GetPriceStream with
  | none => none
  | some _priceStream => some (ss.PublishPrice _priceStream)

/-- The constructor `TradeBookingService()`. -/
def TradeBookingService.new : TradeBookingService := { trades := [], listeners := [] }

/-- The method `TradeBookingService::OnMessage`: store the trade under its id,
then call every listener with it. -/
def TradeBookingService.OnMessage (s : TradeBookingService) (data : Trade) :
    TradeBookingService × List (ListenerId × Trade) :=
  ({ s with trades := mapAssign s.trades data.tradeId data }, fanOut s.listeners data)

/-- The method `PositionService::OnMessage`: the body is empty. -/
def PositionService.OnMessage (s : PositionService) (_data : Position) : PositionService := s

/-- The method `AlgoExecutionService::OnMessage`: the body is empty. -/
def AlgoExecutionService.OnMessage (s : AlgoExecutionService) (_data : AlgoExecution) :
    AlgoExecutionService := s

/-- The method `RiskService::OnMessage`: the body is empty. -/
def RiskService.OnMessage (s : RiskService) (_data : PV01 Bond) : RiskService := s

/-- The value most recently ingested under the key `k`, when the values `vs`
were ingested in turn and `key` gives the key of a value; `none` if no value of
`vs` has the key `k`. -/
def lastWithKey {V : Type} (key : V → String) (vs : List V) (k : String) : Option V :=
  vs.foldl (fun acc v => if key v = k then some v else acc) none

/-! ## tools.h: the handle notation of prices

A `std::string` is the list of its characters. -/

/-- The member `find` of `std::string` for one character: the index of its
first occurrence, `none` for `npos`. -/
def strFind : List Char → Char → Option Nat
  | [], _ => none
  | x :: xs, c => if x = c then some 0 else (strFind xs c).map (fun i => i + 1)

/-- The member `substr(pos, count)` of `std::string`; it throws when `pos` is
beyond the end, which is `none`. -/
def substr (s : List Char) (pos count : Nat) : Option (List Char) :=
  if pos > s.length then none else some ((s.drop pos).take count)

/-- The value of a string of decimal digits read from the left, starting from
`acc`; `none` if a character is not a decimal digit. -/
def digitsValue : Nat → List Char → Option Nat
  | acc, [] => some acc
  | acc, c :: cs =>
    if c.isDigit then digitsValue (acc * 10 + (c.toNat - '0'.toNat)) cs else none

/-- What a call gives: the value it returns; no value, because the call throws
an exception that nothing catches or because its behaviour is undefined; or
nothing that the embedding describes, for a call of a library function on an
argument outside the class of arguments the embedding covers. -/
inductive Outcome (α : Type) where
  | value (a : α)
  | noValue
  | undescribed
  deriving DecidableEq

/-- The value of the decimal digits a string starts with, read from the left
starting from `acc`. -/
def leadingDigitsValue : Nat → List Char → Nat
  | acc, [] => acc
  | acc, c :: cs =>
    if c.isDigit then leadingDigitsValue (acc * 10 + (c.toNat - '0'.toNat)) cs else acc

/-- The characters for which `isspace` holds in the C locale: the space and
the characters 9 to 13. -/
def isSpace (c : Char) : Bool :=
  c = ' ' || (9 ≤ c.toNat && c.toNat ≤ 13)

/-- The function `std::stod`, which converts the longest prefix of the string
that is a number and throws when there is none or when the number is beyond
the range of `double`. The embedding covers these arguments.

* The empty string, and a string whose first character is neither white space,
  a sign, a digit, a point nor one of `i`, `I`, `n`, `N`: nothing can be
  converted, `std::invalid_argument` is thrown.
* A string that starts with decimal digits of value `v`, followed by nothing
  or by a character other than a point, `e`, `E`, `x` and `X`: the number
  converted is `v`. It is returned as it is when `v ≤ 2 ^ 53`, since it is then
  a `double`; `std::out_of_range` is thrown when `2 ^ 1024 ≤ v`; in between the
  function rounds, which the embedding does not describe.

Every other argument (white space or a sign in front, a fraction, an exponent,
a hexadecimal number, an infinity or a NaN) is not described. -/
def stod (s : List Char) : Outcome ℚ :=
  match s with
  | [] => Outcome.noValue
  | c :: _ =>
    if c.isDigit then
      let v := leadingDigitsValue 0 s
      let converted : Outcome ℚ :=
        if v ≤ 2 ^ 53 then Outcome.value (v : ℚ)
        else if 2 ^ 1024 ≤ v then Outcome.noValue
        else Outcome.undescribed
      match s.dropWhile Char.isDigit with
      | [] => converted
      | t :: _ => if t ∈ ['.', 'e', 'E', 'x', 'X'] then Outcome.undescribed else converted
    else if isSpace c || c ∈ ['+', '-', '.', 'i', 'I', 'n', 'N'] then Outcome.undescribed
    else Outcome.noValue

/-- The function `std::to_string` on an `int`. -/
def to_string (z : Int) : List Char :=
  if z < 0 then '-' :: Nat.toDigits 10 z.natAbs else Nat.toDigits 10 z.toNat

/-- The function `PriceSTD`: from the handle notation to the number. The `int`
`sep` is -1 when there is no `-`, and `substr(0, sep)` then takes the whole
string. There is no value when `substr` throws. The three calls of `stod` are
operands of one expression and are evaluated in an order the language does not
fix: there is no value when one of them throws, and otherwise the call is
described only if the three are. -/
def PriceSTD (stringPrice : String) : Outcome ℚ :=
  let s := stringPrice.data
  let sep : Int :=
    match strFind s '-' with
    | some i => (i : Int)
    | none => -1
  match substr s 0 (if sep < 0 then s.length else sep.toNat),
      substr s (sep + 1).toNat 2, substr s (sep + 3).toNat 1 with
  | some Price100, some Price32, some Price8 =>
    let Price8' := if Price8 = ['+'] then ['4'] else Price8
    match stod Price100, stod Price32, stod Price8' with
    | Outcome.value a, Outcome.value b, Outcome.value c =>
      Outcome.value (a + b / 32 + c / 256)
    | Outcome.noValue, _, _ => Outcome.noValue
    | _, Outcome.noValue, _ => Outcome.noValue
    | _, _, Outcome.noValue => Outcome.noValue
    | _, _, _ => Outcome.undescribed
  | _, _, _ => Outcome.noValue

/-- The function `PriceDTS`: from the number to the handle notation. The
initialisation `int Price100 = floor(doublePrice)` converts a `double` to an
`int` of 32 bits, which is undefined when the value is not in the range of
`int`: the result is `none` then. -/
def PriceDTS (doublePrice : ℚ) : Option String :=
  if ⌊doublePrice⌋ < -(2 : Int) ^ 31 ∨ (2 : Int) ^ 31 ≤ ⌊doublePrice⌋ then none
  else
    let Price100 : Int := ⌊doublePrice⌋
    let Price256 : Int := ⌊(doublePrice - Price100) * 256⌋
    let Price32 : Int := Int.tdiv Price256 8
    let Price8 : Int := Int.tmod Price256 8
    let stringPrice100 := to_string Price100
    let stringPrice32 := to_string Price32
    let stringPrice8 := to_string Price8
    let stringPrice32 := if Price32 < 10 then '0' :: stringPrice32 else stringPrice32
    let stringPrice8 := if Price8 = 4 then ['+'] else stringPrice8
    some (String.mk (stringPrice100 ++ ['-'] ++ stringPrice32 ++ stringPrice8))

/-! ## historicaldataservice.hpp -/

/-- The class `HistoricalDataService<V>`. The member `written` holds the
records appended to the file `file_name`, in order; the time stamp that
precedes each record in the file comes from the wall clock and is left out. -/
structure HistoricalDataService (V : Type) where
  Datas : StdMap V := []
  listeners : List ListenerId := []
  file_name : String := ""
  written : List V := []

/-- The constructor `HistoricalDataService(string _file)`. -/
def HistoricalDataService.new {V : Type} (_file : String) : HistoricalDataService V :=
  { Datas := [], listeners := [], file_name := _file, written := [] }

/-- The method `GetData`: `return Datas[key]`. -/
def HistoricalDataService.GetData {V : Type} [Inhabited V] (hs : HistoricalDataService V)
    (key : String) : V × HistoricalDataService V :=
  let r := mapIndex hs.Datas key
  (r.1, { hs with Datas := r.2 })

/-- The method `OnMessage`: `Datas[data.GetProduct().GetTicker()] = data`. The
function `ticker` is `data.GetProduct().GetTicker()` for the type `V` of the
records. -/
def HistoricalDataService.OnMessage {V : Type} (ticker : V → String)
    (hs : HistoricalDataService V) (data : V) : HistoricalDataService V :=
  { hs with Datas := mapAssign hs.Datas (ticker data) data }

/-- The method `AddListener`. -/
def HistoricalDataService.AddListener {V : Type} (hs : HistoricalDataService V)
    (l : ListenerId) : HistoricalDataService V :=
  { hs with listeners := hs.listeners ++ [l] }

/-- The method `HistoricalDataConnector::Publish`: append the record to the
file of the service. -/
def HistoricalDataConnector.Publish {V : Type} (hs : HistoricalDataService V) (data : V) :
    HistoricalDataService V :=
  { hs with written := hs.written ++ [data] }

/-- The method `PersistData`: `connector->Publish(data)`. -/
def HistoricalDataService.PersistData {V : Type} (hs : HistoricalDataService V)
    (_persistKey : String) (data : V) : HistoricalDataService V :=
  HistoricalDataConnector.Publish hs data

/-! ## main.cpp: the services behind the market data feed -/

/-- The listener that `AES.GetListener()` returns. -/
def listenerAES : ListenerId := 1

/-- The listener that `ES.GetListener()` returns. -/
def listenerES : ListenerId := 2

/-- The listener that `HDSE.GetListener()` returns. -/
def listenerHDSE : ListenerId := 3

/-- The listener that `TBS.GetListener()` returns. -/
def listenerTBS : ListenerId := 4

/-- The listener that `POSS.GetListener()` returns. -/
def listenerPOSS : ListenerId := 5

/-- The listener that `HDSPOS.GetListener()` returns. -/
def listenerHDSPOS : ListenerId := 6

/-- The listener that `RS.GetListener()` returns. -/
def listenerRS : ListenerId := 7

/-- The listener that `HDSRISK.GetListener()` returns. -/
def listenerHDSRISK : ListenerId := 8

/-- The objects of `main` that an order book of the market data feed reaches:
the services, and the listener `TBL` of `TBS`, which has a counter. -/
structure TradingSystem where
  MDS : MarketDataService
  AES : AlgoExecutionService
  ES : ExecutionService
  HDSE : HistoricalDataService ExecutionOrder
  TBL : TBListener
  TBS : TradeBookingService
  POSS : PositionService
  HDSPOS : HistoricalDataService Position
  RS : RiskService
  HDSRISK : HistoricalDataService (PV01 Bond)

/-- The services as `main` constructs them and registers their listeners. -/
def TradingSystem.wired : TradingSystem :=
  { MDS := MarketDataService.new.AddListener listenerAES,
    AES := AlgoExecutionService.new.AddListener listenerES,
    ES := (ExecutionService.new.AddListener listenerHDSE).AddListener listenerTBS,
    HDSE := HistoricalDataService.new "executions.txt",
    TBL := TBListener.new,
    TBS := TradeBookingService.new.AddListener listenerPOSS,
    POSS := (PositionService.new.AddListener listenerHDSPOS).AddListener listenerRS,
    HDSPOS := HistoricalDataService.new "positions.txt",
    RS := RiskService.new.AddListener listenerHDSRISK,
    HDSRISK := HistoricalDataService.new "risk.txt" }

/-- A call `l->ProcessAdd(pv01)` that `RiskService::AddPosition` makes. -/
def TradingSystem.processPV01 (sys : TradingSystem) (call : ListenerId × PV01 Bond) :
    TradingSystem :=
  if call.1 = listenerHDSRISK then
    { sys with HDSRISK := sys.HDSRISK.PersistData call.2.GetProduct.GetTicker call.2 }
  else sys

/-- A call `l->ProcessAdd(position)` that `PositionService::AddTrade` makes:
`HistoricalDataListener::ProcessAdd` or `RiskListener::ProcessAdd`. -/
def TradingSystem.processPosition (sys : TradingSystem) (call : ListenerId × Position) :
    TradingSystem :=
  if call.1 = listenerHDSPOS then
    { sys with HDSPOS := sys.HDSPOS.PersistData call.2.product.GetTicker call.2 }
  else if call.1 = listenerRS then
    let r := sys.RS.AddPosition call.2
    r.calls.foldl TradingSystem.processPV01 { sys with RS := r.service }
  else sys

/-- A call `l->ProcessAdd(trade)` that `TradeBookingService::BookTrade` makes:
`PositionListener::ProcessAdd`. -/
def TradingSystem.processTrade (sys : TradingSystem) (call : ListenerId × Trade) :
    TradingSystem :=
  if call.1 = listenerPOSS then
    let r := sys.POSS.AddTrade call.2
    r.2.foldl TradingSystem.processPosition { sys with POSS := r.1 }
  else sys

/-- A call `l->ProcessAdd(order)` that `ExecutionService::ExecuteOrder` makes:
`HistoricalDataListener::ProcessAdd` or `TBListener::ProcessAdd`. -/
def TradingSystem.processExecutionOrder (sys : TradingSystem)
    (call : ListenerId × ExecutionOrder) : TradingSystem :=
  if call.1 = listenerHDSE then
    { sys with HDSE := sys.HDSE.PersistData call.2.GetProduct.GetTicker call.2 }
  else if call.1 = listenerTBS then
    let r := sys.TBL.ProcessAdd sys.TBS call.2
    r.calls.foldl TradingSystem.processTrade { sys with TBL := r.listener, TBS := r.service }
  else sys

/-- A call `l->ProcessAdd(algoExecution)` that `AlgoExecuteOrder` makes:
`EListener::ProcessAdd`. The order that `ExecuteOrder` wrote the market to is
the one the execution stored in `AES` under the ticker points to, so the stored
execution sees the write. -/
def TradingSystem.processAlgoExecution (sys : TradingSystem)
    (call : ListenerId × AlgoExecution) : Option TradingSystem :=
  if call.1 = listenerES then
    match EListener.ProcessAdd sys.ES call.2 with
    | none => none
    | some r =>
      let AES1 : AlgoExecutionService :=
        { sys.AES with
            algoExecutions := mapAssign sys.AES.algoExecutions r.order.GetProduct.GetTicker
              { executionOrder := some r.order } }
      some (r.calls.foldl TradingSystem.processExecutionOrder
        { sys with ES := r.service, AES := AES1 })
  else some sys

/-- A call `l->ProcessAdd(orderBook)` that `MarketDataService::OnMessage`
makes: `AEListener::ProcessAdd`. The string `newId` is the value the random
generator returns if `AlgoExecuteOrder` asks for one. -/
def TradingSystem.processOrderBook (sys : TradingSystem) (newId : String)
    (call : ListenerId × OrderBook) : Option TradingSystem :=
  if call.1 = listenerAES then
    match sys.AES.AlgoExecuteOrder call.2 newId with
    | none => none
    | some r => r.calls.foldlM TradingSystem.processAlgoExecution { sys with AES := r.service }
  else some sys

/-- The call `MDS->OnMessage(orderBook)` of the market data connector, with
everything it sets off. -/
def TradingSystem.ingestOrderBook (sys : TradingSystem) (data : OrderBook) (newId : String) :
    Option TradingSystem :=
  let r := sys.MDS.OnMessage data
  r.2.foldlM (TradingSystem.processOrderBook · newId) { sys with MDS := r.1 }

/-! ## guiservice.h -/

/-- The class `GUIConnector<Bond>`: the counter `cnt`, and in `written` the
records appended to the file `gui.txt`, in order; the time stamp that precedes
each record in the file comes from the wall clock and is left out. -/
structure GUIConnector where
  cnt : Int := 0
  written : List Price := []
  deriving DecidableEq

/-- The constructor of `GUIConnector`: `cnt(0)`. -/
def GUIConnector.new : GUIConnector := { cnt := 0, written := [] }

/-- The method `GUIConnector::Publish`: nothing if `cnt >= 100`, else append
the record and increment `cnt`. -/
def GUIConnector.Publish (c : GUIConnector) (data : Price) : GUIConnector :=
  if c.cnt ≥ 100 then c
  else { c with written := c.written ++ [data], cnt := c.cnt + 1 }

/-- The class `GUIService<Bond>`, with the connector it owns. -/
structure GUIService where
  prices : StdMap Price := []
  listeners : List ListenerId := []
  connector : GUIConnector := GUIConnector.new
  throttle : Int := 0
  deriving DecidableEq

/-- The constructor `GUIService(int _throttle)`. -/
def GUIService.new (_throttle : Int) : GUIService :=
  { prices := [], listeners := [], connector := GUIConnector.new, throttle := _throttle }

/-- The method `GetData`: `return prices[key]`. -/
def GUIService.GetData (s : GUIService) (key : String) : Price × GUIService :=
  let r := mapIndex s.prices key
  (r.1, { s with prices := r.2 })

/-- The method `GUIService::OnMessage`: store the price under its ticker, then
`connector->Publish(data)`. -/
def GUIService.OnMessage (s : GUIService) (data : Price) : GUIService :=
  { s with prices := mapAssign s.prices data.GetProduct.GetTicker data,
           connector := s.connector.Publish data }

/-- The method `AddListener`. -/
def GUIService.AddListener (s : GUIService) (l : ListenerId) : GUIService :=
  { s with listeners := s.listeners ++ [l] }

def GUIService.GetThrottle (s : GUIService) : Int := s.throttle

/-- The service after `OnMessage` was called with each price in turn. -/
def GUIService.onMessages (s : GUIService) (prices : List Price) : GUIService :=
  prices.foldl GUIService.OnMessage s

/-- The class `GUIListener<Bond>`: the member `time`. The service `GUIS` it
points to is passed to its methods. -/
structure GUIListener where
  time : Int := 0
  deriving DecidableEq

/-- The constructor of `GUIListener`: `time(0)`. -/
def GUIListener.new : GUIListener := { time := 0 }

/-- What one call of `GUIListener::ProcessAdd` does: the listener and its
service afterwards, and whether `GUIS->OnMessage(data)` was called. -/
structure GUIProcessResult where
  listener : GUIListener
  service : GUIService
  forwarded : Bool
  deriving DecidableEq

/-- The method `GUIListener::ProcessAdd`. The number `now` is the value the
system clock returns, in milliseconds. -/
def GUIListener.ProcessAdd (l : GUIListener) (guis : GUIService) (data : Price) (now : Int) :
    GUIProcessResult :=
  let _throttle := guis.GetThrottle
  if now - l.time ≥ _throttle then
    { listener := { l with time := now }, service := guis.OnMessage data, forwarded := true }
  else
    { listener := l, service := guis, forwarded := false }

/-- The calls of `ProcessAdd` for each update in turn, an update being a price
and the value of the clock at its call: the listener and the service at the
end, and the updates that were passed to `OnMessage`, in order. -/
def GUIListener.processAll (l : GUIListener) (guis : GUIService) :
    List (Price × Int) → GUIListener × GUIService × List (Price × Int)
  | [] => (l, guis, [])
  | u :: rest =>
    let r := l.ProcessAdd guis u.1 u.2
    let t := GUIListener.processAll r.listener r.service rest
    (t.1, t.2.1, (if r.forwarded then [u] else []) ++ t.2.2)

/-! ## pricingservice.hpp: the connector of the price feed -/

/-- The local `_price` that one pass of the loop of `PSConnector::Consume`
builds from the blocks of a line. Reading a block the line does not have is
undefined, and a call of `PriceSTD` that throws ends the program: there is no
value then. -/
def PSConnector.buildPrice (blocks : List String) : Outcome Price :=
  match blocks[0]?, blocks[1]?, blocks[2]? with
  | some block0, some block1, some block2 =>
    match PriceSTD block1 with
    | Outcome.value _bidPrice =>
      match PriceSTD block2 with
      | Outcome.value _offerPrice =>
        let _midPrice := (_bidPrice + _offerPrice) / 2
        let _spread := _offerPrice - _bidPrice
        Outcome.value { product := GetBond block0, mid := _midPrice, bidOfferSpread := _spread }
      | Outcome.noValue => Outcome.noValue
      | Outcome.undescribed => Outcome.undescribed
    | Outcome.noValue => Outcome.noValue
    | Outcome.undescribed => Outcome.undescribed
  | _, _, _ => Outcome.noValue

/-- One pass of the loop of `PSConnector::Consume`, on the blocks of a line:
`ps->OnMessage(_price)`. -/
def PSConnector.consumeLine (ps : PricingService) (blocks : List String) :
    Outcome (PricingService × List (ListenerId × Price)) :=
  match PSConnector.buildPrice blocks with
  | Outcome.value _price => Outcome.value (ps.OnMessage _price)
  | Outcome.noValue => Outcome.noValue
  | Outcome.undescribed => Outcome.undescribed

/-! ## Concrete inputs -/

/-- An order book with three levels on each side and no tie. -/
def ladderBook : OrderBook :=
  { product := GetBond "T2Y",
    bidStack := [{ price := 99, quantity := 1000000, side := PricingSide.BID },
                 { price := 99 + 1 / 2, quantity := 2000000, side := PricingSide.BID },
                 { price := 98, quantity := 3000000, side := PricingSide.BID }],
    offerStack := [{ price := 100, quantity := 1000000, side := PricingSide.OFFER },
                   { price := 99 + 65 / 128, quantity := 2000000, side := PricingSide.OFFER },
                   { price := 101, quantity := 3000000, side := PricingSide.OFFER }] }

/-- An order book in which two bids share the best price 100 and two offers
share the best price 101. -/
def tieBook : OrderBook :=
  { product := GetBond "T2Y",
    bidStack := [{ price := 100, quantity := 1, side := PricingSide.BID },
                 { price := 100, quantity := 2, side := PricingSide.BID },
                 { price := 99, quantity := 5, side := PricingSide.BID }],
    offerStack := [{ price := 101, quantity := 3, side := PricingSide.OFFER },
                   { price := 101, quantity := 4, side := PricingSide.OFFER },
                   { price := 102, quantity := 6, side := PricingSide.OFFER }] }

/-- A price for T2Y with mid 100 and spread 1/128. -/
def samplePrice : Price :=
  { product := GetBond "T2Y", mid := 100, bidOfferSpread := 1 / 128 }

/-- A price for T30Y with mid 99 + 1/2 and spread 1/64. -/
def samplePrice30 : Price :=
  { product := GetBond "T30Y", mid := 99 + 1 / 2, bidOfferSpread := 1 / 64 }

/-- An execution as `AlgoExecuteOrder` builds it: a BID market order on T2Y. -/
def sampleExecution : AlgoExecution :=
  AlgoExecution.new (GetBond "T2Y") PricingSide.BID "A1" OrderType.MARKET (99 + 1 / 2)
    2000000 0 "" false

/-- A position of 1000 in T2Y, held in one book. -/
def positionT2Y : Position :=
  { product := GetBond "T2Y", positions := [("TRSY1", 1000)] }

/-- A position of 1500 in T3Y, held in two books. -/
def positionT3Y : Position :=
  { product := GetBond "T3Y", positions := [("TRSY1", 2000), ("TRSY2", -500)] }

/-- A customer inquiry on T2Y in state RECEIVED. -/
def sampleInquiry : Inquiry :=
  { inquiryId := "I1", product := GetBond "T2Y", side := Side.SELL, quantity := 1000000,
    price := 99, state := InquiryState.RECEIVED }

/-- A customer inquiry on T2Y in state QUOTED. -/
def sampleQuoted : Inquiry :=
  { inquiryId := "I2", product := GetBond "T2Y", side := Side.BUY, quantity := 2000000,
    price := 99 + 1 / 2, state := InquiryState.QUOTED }

/-- An inquiry service that holds `sampleInquiry` after its cascade: under
"I1", with price 100 and state DONE. -/
def doneService : InquiryService :=
  { inquiries := [("I1", { sampleInquiry with price := 100, state := InquiryState.DONE })],
    listeners := [] }

/-- The stream that `PublishPrice` builds from `samplePrice` on a fresh
service. -/
def sampleStream : PriceStream :=
  { product := GetBond "T2Y",
    bidOrder := { price := 100 - 1 / 256, visibleQuantity := 20000000,
                  hiddenQuantity := 40000000, side := PricingSide.BID },
    offerOrder := { price := 100 + 1 / 256, visibleQuantity := 20000000,
                    hiddenQuantity := 40000000, side := PricingSide.OFFER } }

/-- A trade of 1,000,000 T2Y bought in book TRSY1. -/
def sampleTrade : Trade :=
  { product := GetBond "T2Y", tradeId := "TR1", price := 99 + 1 / 2, book := "TRSY1",
    quantity := 1000000, side := Side.BUY }

/-- A trade of 1,000,000 bought in book TRSY1, whose product carries the ticker
T1Y; the reference table has no such ticker. -/
def unknownTrade : Trade :=
  { product := Bond.new "912797XX1" BondIdType.CUSIP "T1Y" (45 / 1000) "11/30/2023",
    tradeId := "TR9", price := 99, book := "TRSY1", quantity := 1000000, side := Side.BUY }

/-! ## Lemmas on the containers -/

theorem mapFind_mapAssign {V : Type} (m : StdMap V) (k k' : String) (v : V) :
    mapFind (mapAssign m k v) k' = if k = k' then some v else mapFind m k' := by
  induction m with
  | nil => simp [mapAssign, mapFind]
  | cons e rest ih =>
    obtain ⟨k0, v0⟩ := e
    by_cases h0 : k0 = k
    · subst h0
      by_cases h1 : k0 = k' <;> simp [mapAssign, mapFind, h1]
    · by_cases h1 : k0 = k'
      · subst h1
        have h2 : ¬ k = k0 := fun h => h0 h.symm
        simp [mapAssign, mapFind, h0, h2]
      · simp [mapAssign, mapFind, h0, h1, ih]

theorem mapIndex_fst {V : Type} [Inhabited V] (m : StdMap V) (k : String) :
    (mapIndex m k).1 = (mapFind m k).getD default := by
  unfold mapIndex
  cases h : mapFind m k <;> simp

theorem mapFind_mapIndex_snd {V : Type} [Inhabited V] (m : StdMap V) (k k' : String) :
    mapFind (mapIndex m k).2 k' =
      if k = k' then some ((mapFind m k).getD default) else mapFind m k' := by
  unfold mapIndex
  cases h : mapFind m k with
  | none => simp [mapFind_mapAssign]
  | some v =>
    by_cases hk : k = k'
    · subst hk
      simp [h]
    · simp [hk]

theorem foldl_add_snd (l : StdMap Int) (a : Int) :
    l.foldl (fun sum e => sum + e.2) a = a + l.foldl (fun sum e => sum + e.2) 0 := by
  induction l generalizing a with
  | nil => simp
  | cons e rest ih =>
    simp only [List.foldl_cons]
    rw [ih (a + e.2), ih (0 + e.2)]
    ring

theorem foldl_mapAssign (m : StdMap Int) (k : String) (v : Int) :
    (mapAssign m k v).foldl (fun sum e => sum + e.2) 0 =
      m.foldl (fun sum e => sum + e.2) 0 + v - (mapFind m k).getD 0 := by
  induction m with
  | nil => simp [mapAssign, mapFind]
  | cons e rest ih =>
    obtain ⟨k0, v0⟩ := e
    by_cases h0 : k0 = k
    · simp only [mapAssign, mapFind, h0, if_true, List.foldl_cons, Option.getD_some]
      rw [foldl_add_snd rest (0 + v), foldl_add_snd rest (0 + v0)]
      ring
    · simp only [mapAssign, mapFind, h0, if_false, List.foldl_cons]
      rw [foldl_add_snd (mapAssign rest k v) (0 + v0), foldl_add_snd rest (0 + v0), ih]
      ring

/-! ## Lemmas on positions -/

theorem AddPosition_aggregate (p : Position) (book : String) (pos : Int) :
    (p.AddPosition book pos).GetAggregatePosition = p.GetAggregatePosition + pos := by
  simp only [Position.AddPosition, Position.GetAggregatePosition, foldl_mapAssign,
    mapFind_mapIndex_snd, mapIndex_fst, if_true, Option.getD_some]
  unfold mapIndex
  cases h : mapFind p.positions book with
  | none =>
    simp only [foldl_mapAssign, h, Option.getD_none]
    show _ + (0 + pos) - 0 = _
    have : (default : Int) = 0 := rfl
    rw [this]
    ring
  | some v =>
    simp only [Option.getD_some]
    ring

theorem GetPosition_fst (p : Position) (book : String) :
    (p.GetPosition book).1 = (mapFind p.positions book).getD 0 := by
  simp only [Position.GetPosition, mapIndex_fst]
  rfl

theorem GetPosition_AddPosition (p : Position) (book book' : String) (pos : Int) :
    ((p.AddPosition book pos).GetPosition book').1 =
      (p.GetPosition book').1 + if book = book' then pos else 0 := by
  simp only [GetPosition_fst, Position.AddPosition, mapFind_mapAssign, mapFind_mapIndex_snd,
    mapIndex_fst, if_true, Option.getD_some]
  have hd : (default : Int) = 0 := rfl
  by_cases h : book = book'
  · subst h
    simp [hd]
  · simp [h]

/-- The position that `AddTrade` updates: the stored one, or the one it
creates from the reference data. -/
theorem mapFind_AddTrade (s : PositionService) (tr : Trade) (t : String) :
    mapFind (s.AddTrade tr).1.positions t =
      if tr.product.GetTicker = t then
        some (((mapFind s.positions tr.product.GetTicker).getD
          (Position.new (GetBond tr.product.GetTicker))).AddPosition tr.book (signedQuantity tr))
      else mapFind s.positions t := by
  unfold PositionService.AddTrade signedQuantity
  by_cases ht : tr.product.GetTicker = t
  · subst ht
    cases hf : mapFind s.positions tr.product.GetTicker <;> cases hs : tr.side <;>
      simp [mapFind_mapIndex_snd, mapFind_mapAssign, mapIndex_fst, hf]
  · cases hf : mapFind s.positions tr.product.GetTicker <;> cases hs : tr.side <;>
      simp [mapFind_mapIndex_snd, mapFind_mapAssign, mapIndex_fst, hf, ht]

theorem GetData_AddTrade_aggregate (s : PositionService) (tr : Trade) (t : String) :
    ((s.AddTrade tr).1.GetData t).1.GetAggregatePosition =
      (s.GetData t).1.GetAggregatePosition +
        if tr.product.GetTicker = t then signedQuantity tr else 0 := by
  simp only [PositionService.GetData, mapIndex_fst, mapFind_AddTrade]
  by_cases ht : tr.product.GetTicker = t
  · subst ht
    simp only [if_true, Option.getD_some, AddPosition_aggregate]
    cases hf : mapFind s.positions tr.product.GetTicker <;> rfl
  · simp [ht]

theorem GetData_AddTrade_position (s : PositionService) (tr : Trade) (t b : String) :
    (((s.AddTrade tr).1.GetData t).1.GetPosition b).1 =
      ((s.GetData t).1.GetPosition b).1 +
        if tr.product.GetTicker = t ∧ tr.book = b then signedQuantity tr else 0 := by
  simp only [PositionService.GetData, mapIndex_fst, mapFind_AddTrade]
  by_cases ht : tr.product.GetTicker = t
  · subst ht
    simp only [if_true, Option.getD_some, GetPosition_AddPosition, true_and]
    cases hf : mapFind s.positions tr.product.GetTicker <;> rfl
  · simp [ht]

theorem addTrades_cons (s : PositionService) (tr : Trade) (rest : List Trade) :
    s.addTrades (tr :: rest) = (s.AddTrade tr).1.addTrades rest := rfl

theorem addTrades_aggregate (s : PositionService) (trades : List Trade) (t : String) :
    ((s.addTrades trades).GetData t).1.GetAggregatePosition =
      (s.GetData t).1.GetAggregatePosition +
        ((trades.filter (fun tr => tr.product.GetTicker = t)).map signedQuantity).sum := by
  induction trades generalizing s with
  | nil => simp [PositionService.addTrades]
  | cons tr rest ih =>
    rw [addTrades_cons, ih, GetData_AddTrade_aggregate]
    by_cases ht : tr.product.GetTicker = t
    · simp [ht, List.filter_cons]
      ring
    · simp [ht, List.filter_cons]

theorem addTrades_position (s : PositionService) (trades : List Trade) (t b : String) :
    (((s.addTrades trades).GetData t).1.GetPosition b).1 =
      ((s.GetData t).1.GetPosition b).1 +
        ((trades.filter (fun tr => tr.product.GetTicker = t ∧ tr.book = b)).map
          signedQuantity).sum := by
  induction trades generalizing s with
  | nil => simp [PositionService.addTrades]
  | cons tr rest ih =>
    rw [addTrades_cons, ih, GetData_AddTrade_position]
    by_cases ht : tr.product.GetTicker = t ∧ tr.book = b
    · simp [ht, List.filter_cons]
      ring
    · simp [ht, List.filter_cons]

/-! ## Lemmas on trade booking -/

theorem bestBidStep_inv (l seen : List Order) (st : ℚ × Order)
    (hmem : st.2 ∈ seen) (hp : st.2.price = st.1) (hub : ∀ x ∈ seen, x.price ≤ st.1) :
    (l.foldl bestBidStep st).2 ∈ seen ++ l ∧
      (l.foldl bestBidStep st).2.price = (l.foldl bestBidStep st).1 ∧
      ∀ x ∈ seen ++ l, x.price ≤ (l.foldl bestBidStep st).1 := by
  induction l generalizing seen st with
  | nil => simpa using ⟨hmem, hp, hub⟩
  | cons tmp rest ih =>
    have hstep : (bestBidStep st tmp).2 ∈ seen ++ [tmp] ∧
        (bestBidStep st tmp).2.price = (bestBidStep st tmp).1 ∧
        ∀ x ∈ seen ++ [tmp], x.price ≤ (bestBidStep st tmp).1 := by
      unfold bestBidStep
      by_cases hge : tmp.price ≥ st.1
      · simp only [hge, if_true]
        refine ⟨by simp, trivial, ?_⟩
        intro x hx
        rcases List.mem_append.1 hx with h | h
        · exact le_trans (hub x h) hge
        · simp only [List.mem_singleton] at h
          rw [h]
      · simp only [hge, if_false]
        refine ⟨List.mem_append_left _ hmem, hp, ?_⟩
        intro x hx
        rcases List.mem_append.1 hx with h | h
        · exact hub x h
        · simp only [List.mem_singleton] at h
          rw [h]
          exact le_of_lt (not_le.1 hge)
    have := ih (seen ++ [tmp]) (bestBidStep st tmp) hstep.1 hstep.2.1 hstep.2.2
    simpa [List.append_assoc] using this

theorem bestOfferStep_inv (l seen : List Order) (st : ℚ × Order)
    (hmem : st.2 ∈ seen) (hp : st.2.price = st.1) (hlb : ∀ x ∈ seen, st.1 ≤ x.price) :
    (l.foldl bestOfferStep st).2 ∈ seen ++ l ∧
      (l.foldl bestOfferStep st).2.price = (l.foldl bestOfferStep st).1 ∧
      ∀ x ∈ seen ++ l, (l.foldl bestOfferStep st).1 ≤ x.price := by
  induction l generalizing seen st with
  | nil => simpa using ⟨hmem, hp, hlb⟩
  | cons tmp rest ih =>
    have hstep : (bestOfferStep st tmp).2 ∈ seen ++ [tmp] ∧
        (bestOfferStep st tmp).2.price = (bestOfferStep st tmp).1 ∧
        ∀ x ∈ seen ++ [tmp], (bestOfferStep st tmp).1 ≤ x.price := by
      unfold bestOfferStep
      by_cases hle : tmp.price ≤ st.1
      · simp only [hle, if_true]
        refine ⟨by simp, trivial, ?_⟩
        intro x hx
        rcases List.mem_append.1 hx with h | h
        · exact le_trans hle (hlb x h)
        · simp only [List.mem_singleton] at h
          rw [h]
      · simp only [hle, if_false]
        refine ⟨List.mem_append_left _ hmem, hp, ?_⟩
        intro x hx
        rcases List.mem_append.1 hx with h | h
        · exact hlb x h
        · simp only [List.mem_singleton] at h
          rw [h]
          exact le_of_lt (not_le.1 hle)
    have := ih (seen ++ [tmp]) (bestOfferStep st tmp) hstep.1 hstep.2.1 hstep.2.2
    simpa [List.append_assoc] using this

theorem bestBidStep_head (b0 d : Order) : bestBidStep (b0.price, d) b0 = (b0.price, b0) := by
  simp [bestBidStep]

theorem bestOfferStep_head (o0 d : Order) : bestOfferStep (o0.price, d) o0 = (o0.price, o0) := by
  simp [bestOfferStep]

/-- The reference `GetBestBidOffer` returns on non-empty stacks: the object is
built from the orders the two loops end on, and it no longer exists. -/
theorem GetBestBidOffer_cons (p : Bond) (b0 o0 : Order) (bs os : List Order) :
    OrderBook.GetBestBidOffer { product := p, bidStack := b0 :: bs, offerStack := o0 :: os } =
      some { object := { bidOrder := (bs.foldl bestBidStep (b0.price, b0)).2,
                         offerOrder := (os.foldl bestOfferStep (o0.price, o0)).2 },
             alive := false } := by
  simp [OrderBook.GetBestBidOffer, List.foldl_cons, bestBidStep_head, bestOfferStep_head]

/-- Whatever the order book, the reference `GetBestBidOffer` returns is not to
a live object. -/
theorem GetBestBidOffer_alive (ob : OrderBook) (r : Reference BidOffer)
    (h : ob.GetBestBidOffer = some r) : r.alive = false := by
  obtain ⟨p, bs, os⟩ := ob
  cases bs with
  | nil => simp [OrderBook.GetBestBidOffer] at h
  | cons b0 bs =>
    cases os with
    | nil => simp [OrderBook.GetBestBidOffer] at h
    | cons o0 os =>
      rw [GetBestBidOffer_cons] at h
      simp only [Option.some.injEq] at h
      rw [← h]

/-- No caller of `GetBestBidOffer` reads a `BidOffer`: the call is undefined
(empty stack) or the read through the returned reference is. -/
theorem GetBestBidOffer_read (ob : OrderBook) :
    ob.GetBestBidOffer.bind Reference.read = none := by
  cases h : ob.GetBestBidOffer with
  | none => rfl
  | some r => simp [Reference.read, GetBestBidOffer_alive ob r h]

theorem bestBidStep_foldl_lt (l : List Order) (st : ℚ × Order)
    (h : ∀ x ∈ l, x.price < st.1) : l.foldl bestBidStep st = st := by
  induction l with
  | nil => rfl
  | cons tmp rest ih =>
    have h1 : ¬ tmp.price ≥ st.1 := not_le.2 (h tmp (by simp))
    simp only [List.foldl_cons, bestBidStep, h1, if_false]
    exact ih (fun x hx => h x (by simp [hx]))

theorem bestOfferStep_foldl_gt (l : List Order) (st : ℚ × Order)
    (h : ∀ x ∈ l, st.1 < x.price) : l.foldl bestOfferStep st = st := by
  induction l with
  | nil => rfl
  | cons tmp rest ih =>
    have h1 : ¬ tmp.price ≤ st.1 := not_le.2 (h tmp (by simp))
    simp only [List.foldl_cons, bestOfferStep, h1, if_false]
    exact ih (fun x hx => h x (by simp [hx]))

theorem bestBidStep_foldl_le (l : List Order) (st : ℚ × Order) (M : ℚ)
    (h0 : st.1 ≤ M) (h : ∀ x ∈ l, x.price ≤ M) : (l.foldl bestBidStep st).1 ≤ M := by
  induction l generalizing st with
  | nil => exact h0
  | cons tmp rest ih =>
    simp only [List.foldl_cons]
    apply ih
    · unfold bestBidStep
      by_cases hge : tmp.price ≥ st.1
      · simp only [hge, if_true]
        exact h tmp (by simp)
      · simp only [hge, if_false]
        exact h0
    · exact fun x hx => h x (by simp [hx])

theorem bestOfferStep_foldl_ge (l : List Order) (st : ℚ × Order) (M : ℚ)
    (h0 : M ≤ st.1) (h : ∀ x ∈ l, M ≤ x.price) : M ≤ (l.foldl bestOfferStep st).1 := by
  induction l generalizing st with
  | nil => exact h0
  | cons tmp rest ih =>
    simp only [List.foldl_cons]
    apply ih
    · unfold bestOfferStep
      by_cases hle : tmp.price ≤ st.1
      · simp only [hle, if_true]
        exact h tmp (by simp)
      · simp only [hle, if_false]
        exact h0
    · exact fun x hx => h x (by simp [hx])

/-- The bid loop ends on the last order of maximal price. -/
theorem bestBid_last (pre post : List Order) (o : Order) (st : ℚ × Order)
    (h0 : st.1 ≤ o.price) (hpre : ∀ x ∈ pre, x.price ≤ o.price)
    (hpost : ∀ x ∈ post, x.price < o.price) :
    (pre ++ o :: post).foldl bestBidStep st = (o.price, o) := by
  have h1 : (pre.foldl bestBidStep st).1 ≤ o.price := bestBidStep_foldl_le pre st _ h0 hpre
  have h2 : bestBidStep (pre.foldl bestBidStep st) o = (o.price, o) := by
    simp [bestBidStep, h1]
  rw [List.foldl_append, List.foldl_cons, h2]
  exact bestBidStep_foldl_lt post _ hpost

/-- The offer loop ends on the last order of minimal price. -/
theorem bestOffer_last (pre post : List Order) (o : Order) (st : ℚ × Order)
    (h0 : o.price ≤ st.1) (hpre : ∀ x ∈ pre, o.price ≤ x.price)
    (hpost : ∀ x ∈ post, o.price < x.price) :
    (pre ++ o :: post).foldl bestOfferStep st = (o.price, o) := by
  have h1 : o.price ≤ (pre.foldl bestOfferStep st).1 := bestOfferStep_foldl_ge pre st _ h0 hpre
  have h2 : bestOfferStep (pre.foldl bestOfferStep st) o = (o.price, o) := by
    simp [bestOfferStep, h1]
  rw [List.foldl_append, List.foldl_cons, h2]
  exact bestOfferStep_foldl_gt post _ hpost

/-! ## Lemmas on algorithmic execution -/

theorem truncToLong_intCast (z : Int) : truncToLong (z : ℚ) = z := by
  simp [truncToLong]

/-- No call of `AlgoExecuteOrder` is defined: its first statement reads the
object of the reference `GetBestBidOffer` returns. -/
theorem AlgoExecuteOrder_undefined (s : AlgoExecutionService) (data : OrderBook)
    (newId : String) : s.AlgoExecuteOrder data newId = none := by
  have h := GetBestBidOffer_read data
  unfold AlgoExecutionService.AlgoExecuteOrder
  cases hg : data.GetBestBidOffer with
  | none => rfl
  | some r =>
    rw [hg] at h
    simp only [Option.some_bind] at h
    simp only [h]

theorem run_cons (s : AlgoExecutionService) (u : OrderBook × String)
    (rest : List (OrderBook × String)) : s.run (u :: rest) = none := by
  simp only [AlgoExecutionService.run, AlgoExecuteOrder_undefined]

theorem ladderBook_best :
    ladderBook.GetBestBidOffer =
      some { object :=
               { bidOrder :=
                   { price := 99 + 1 / 2, quantity := 2000000, side := PricingSide.BID },
                 offerOrder :=
                   { price := 99 + 65 / 128, quantity := 2000000, side := PricingSide.OFFER } },
             alive := false } := by
  simp [ladderBook, OrderBook.GetBestBidOffer, bestBidStep, bestOfferStep]
  norm_num

theorem tieBook_best :
    tieBook.GetBestBidOffer =
      some { object :=
               { bidOrder := { price := 100, quantity := 2, side := PricingSide.BID },
                 offerOrder := { price := 101, quantity := 4, side := PricingSide.OFFER } },
             alive := false } := by
  simp [tieBook, OrderBook.GetBestBidOffer, bestBidStep, bestOfferStep]
  norm_num

/-! ## Lemmas on algorithmic streaming -/

theorem PublishPrice_eq (s : AlgoStreamingService) (p : Price) :
    s.PublishPrice p =
      some { service :=
               { s with VisibleS1M := !s.VisibleS1M,
                        algoStreams := mapAssign s.algoStreams p.product.GetTicker
                          { priceStream := some
                              { product := p.product,
                                bidOrder :=
                                  { price := p.mid - p.bidOfferSpread / 2,
                                    visibleQuantity := ((if s.VisibleS1M then 1 else 0) + 1) * 10000000,
                                    hiddenQuantity :=
                                      ((if s.VisibleS1M then 1 else 0) + 1) * 10000000 * 2,
                                    side := PricingSide.BID },
                                offerOrder :=
                                  { price := p.mid + p.bidOfferSpread / 2,
                                    visibleQuantity := ((if s.VisibleS1M then 1 else 0) + 1) * 10000000,
                                    hiddenQuantity :=
                                      ((if s.VisibleS1M then 1 else 0) + 1) * 10000000 * 2,
                                    side := PricingSide.OFFER } } } },
             generated :=
               { priceStream := some
                   { product := p.product,
                     bidOrder :=
                       { price := p.mid - p.bidOfferSpread / 2,
                         visibleQuantity := ((if s.VisibleS1M then 1 else 0) + 1) * 10000000,
                         hiddenQuantity := ((if s.VisibleS1M then 1 else 0) + 1) * 10000000 * 2,
                         side := PricingSide.BID },
                     offerOrder :=
                       { price := p.mid + p.bidOfferSpread / 2,
                         visibleQuantity := ((if s.VisibleS1M then 1 else 0) + 1) * 10000000,
                         hiddenQuantity := ((if s.VisibleS1M then 1 else 0) + 1) * 10000000 * 2,
                         side := PricingSide.OFFER } } },
             calls := fanOut s.listeners
               { priceStream := some
                   { product := p.product,
                     bidOrder :=
                       { price := p.mid - p.bidOfferSpread / 2,
                         visibleQuantity := ((if s.VisibleS1M then 1 else 0) + 1) * 10000000,
                         hiddenQuantity := ((if s.VisibleS1M then 1 else 0) + 1) * 10000000 * 2,
                         side := PricingSide.BID },
                     offerOrder :=
                       { price := p.mid + p.bidOfferSpread / 2,
                         visibleQuantity := ((if s.VisibleS1M then 1 else 0) + 1) * 10000000,
                         hiddenQuantity := ((if s.VisibleS1M then 1 else 0) + 1) * 10000000 * 2,
                         side := PricingSide.OFFER } } } } := rfl

/-- One call of `PublishPrice`: it returns, flips the toggle, and the visible
quantity of both orders is 20,000,000 if the toggle was true and 10,000,000 if
it was false. -/
theorem PublishPrice_visible (s : AlgoStreamingService) (p : Price) :
    ∃ r, s.PublishPrice p = some r ∧ r.service.VisibleS1M = (!s.VisibleS1M) ∧
      r.generated.bidVisible = some (if s.VisibleS1M then 20000000 else 10000000) ∧
      r.generated.offerVisible = some (if s.VisibleS1M then 20000000 else 10000000) := by
  refine ⟨_, PublishPrice_eq s p, rfl, ?_, ?_⟩ <;>
    cases hb : s.VisibleS1M <;>
    simp [AlgoStream.bidVisible, AlgoStream.offerVisible, PriceStream.GetBidOrder,
      PriceStream.GetOfferOrder, PriceStreamOrder.GetVisibleQuantity]

theorem publishAll_visible (s : AlgoStreamingService) (prices : List Price) :
    ∃ s' gens, s.publishAll prices = some (s', gens) ∧ gens.length = prices.length ∧
      (∀ g ∈ gens, (g.bidVisible = some 10000000 ∨ g.bidVisible = some 20000000) ∧
        g.offerVisible = g.bidVisible) ∧
      List.Chain' (fun a b => a.bidVisible ≠ b.bidVisible) gens ∧
      (∀ g ∈ gens.head?,
        g.bidVisible = some (if s.VisibleS1M then 20000000 else 10000000)) := by
  induction prices generalizing s with
  | nil => exact ⟨s, [], rfl, rfl, by simp, by simp, by simp⟩
  | cons p rest ih =>
    obtain ⟨r, hstep, hflip, hbid, hoffer⟩ := PublishPrice_visible s p
    obtain ⟨s', gens, hrun, hlen, hall, hchain, hhead⟩ := ih r.service
    refine ⟨s', r.generated :: gens, ?_, by simp [hlen], ?_, ?_, ?_⟩
    · simp only [AlgoStreamingService.publishAll, hstep, hrun]
    · intro g hg
      rcases List.mem_cons.1 hg with h | h
      · subst h
        refine ⟨?_, by rw [hbid, hoffer]⟩
        cases hb : s.VisibleS1M <;> simp [hbid, hb]
      · exact hall g h
    · rw [List.chain'_cons']
      refine ⟨?_, hchain⟩
      intro y hy
      rw [hbid, hhead y hy, hflip]
      cases hb : s.VisibleS1M <;> simp
    · intro g hg
      simp only [List.head?_cons, Option.mem_def, Option.some.injEq] at hg
      rw [← hg, hbid]

/-! ## Lemmas on risk -/

theorem getD_mapIndex_snd (m : StdMap ℚ) (k k' : String) :
    (mapFind (mapIndex m k).2 k').getD 0 = (mapFind m k').getD 0 := by
  rw [mapFind_mapIndex_snd]
  by_cases h : k = k'
  · subst h
    simp only [if_true, Option.getD_some]
    rfl
  · simp only [h, if_false]

theorem addStoredPV01_foldl (names : List String) (st : ℚ × StdMap ℚ) :
    (names.foldl addStoredPV01 st).1 =
        st.1 + (names.map (fun n => (mapFind st.2 n).getD 0)).sum ∧
      ∀ k, (mapFind (names.foldl addStoredPV01 st).2 k).getD 0 = (mapFind st.2 k).getD 0 := by
  induction names generalizing st with
  | nil => simp
  | cons n rest ih =>
    obtain ⟨h1, h2⟩ := ih (addStoredPV01 st n)
    simp only [List.foldl_cons, List.map_cons, List.sum_cons]
    refine ⟨?_, ?_⟩
    · rw [h1]
      simp only [addStoredPV01, getD_mapIndex_snd, mapIndex_fst]
      have hd : (default : ℚ) = 0 := rfl
      rw [hd]
      ring
    · intro k
      rw [h2 k]
      simp only [addStoredPV01, getD_mapIndex_snd]

theorem AddPosition_stored (s : RiskService) (p : Position) (k : String) :
    (s.AddPosition p).service.storedPV01 k =
      if p.product.GetTicker = k then GetPV01 k * p.GetAggregatePosition
      else s.storedPV01 k := by
  simp only [RiskService.AddPosition, RiskService.storedPV01, getD_mapIndex_snd,
    (addStoredPV01_foldl _ _).2, mapFind_mapAssign]
  by_cases h : p.product.GetTicker = k
  · subst h
    simp
  · simp [h]

theorem AddPosition_emitted (s : RiskService) (p : Position) :
    (s.AddPosition p).emitted =
      { product := p.product,
        pv01 := GetPV01 p.product.GetTicker * p.GetAggregatePosition,
        quantity := p.GetAggregatePosition,
        bucket_pv01 := some (((GetBucket p.product.GetTicker).drop 1).map
          (fun m => (s.AddPosition p).service.storedPV01 m)).sum,
        bucket_name := (GetBucket p.product.GetTicker).getD 0 "" } := by
  have hs : ∀ m, (s.AddPosition p).service.storedPV01 m =
      (mapFind (mapAssign s.pv01s p.product.GetTicker
        (GetPV01 p.product.GetTicker * p.GetAggregatePosition)) m).getD 0 := by
    intro m
    simp only [RiskService.AddPosition, RiskService.storedPV01, getD_mapIndex_snd,
      (addStoredPV01_foldl _ _).2]
  have hd : (default : ℚ) = 0 := rfl
  simp only [hs]
  simp only [RiskService.AddPosition, PV01.new, PV01.SetBucketName, PV01.SetBucketPV01,
    (addStoredPV01_foldl _ _).1, mapIndex_fst, hd, (addStoredPV01_foldl _ _).2,
    mapFind_mapAssign, if_true, Option.getD_some, zero_add]

theorem addPositions_snoc (s : RiskService) (ps : List Position) (p : Position) :
    s.addPositions (ps ++ [p]) =
      (((s.addPositions ps).1.AddPosition p).service,
        (s.addPositions ps).2 ++ [((s.addPositions ps).1.AddPosition p).emitted]) := by
  simp [RiskService.addPositions, List.foldl_append]

theorem lastAggregate_snoc (ps : List Position) (p : Position) (m : String) :
    lastAggregate (ps ++ [p]) m =
      if p.product.GetTicker = m then p.GetAggregatePosition else lastAggregate ps m := by
  simp [lastAggregate, List.foldl_append]

theorem addPositions_stored (ls : List ListenerId) (ps : List Position) (m : String) :
    (({ RiskService.new with listeners := ls }).addPositions ps).1.storedPV01 m =
      GetPV01 m * lastAggregate ps m := by
  induction ps using List.reverseRecOn with
  | nil => simp [RiskService.addPositions, RiskService.storedPV01, RiskService.new, mapFind,
      lastAggregate]
  | append_singleton ps p ih =>
    rw [addPositions_snoc, lastAggregate_snoc]
    simp only [AddPosition_stored, ih]
    by_cases h : p.product.GetTicker = m <;> simp [h]

/-! ## Lemmas on inquiries -/

/-- The nested call of `OnMessage` that `Publish` makes on the element stored
under `k`, once that element is in state QUOTED and carries the id `k`. -/
theorem OnMessage_stored_quoted (fuel : Nat) (w : InquiryWorld) (k : String) (v : Inquiry)
    (hv : mapFind w.service.inquiries k = some v) (hs : v.state = InquiryState.QUOTED)
    (hid : v.inquiryId = k) :
    InquiryService.OnMessage (fuel + 1) w (InquiryRef.stored k) =
      some { w with
        service := { w.service with
          inquiries := mapAssign (mapAssign w.service.inquiries k v) k
            { v with state := InquiryState.DONE } },
        calls := w.calls ++ fanOut w.service.listeners { v with state := InquiryState.DONE } } := by
  simp [InquiryService.OnMessage, InquiryWorld.read, InquiryWorld.write, mapIndex_fst, hv,
    Inquiry.GetState, hs, Inquiry.GetInquiryId, hid, mapFind_mapAssign, Inquiry.setState]

/-- The ingestion of an inquiry in state RECEIVED, from outside the service:
with depth 2 or more it returns, the caller's object is untouched, the map has
the inquiry under its id with price 100 and state DONE, and each listener was
called once with that value. -/
theorem ingest_received (fuel : Nat) (s : InquiryService) (q : Inquiry)
    (h : q.GetState = InquiryState.RECEIVED) :
    ∃ w, InquiryService.ingest (fuel + 2) s q = some w ∧
      mapFind w.service.inquiries q.GetInquiryId =
        some { q with price := 100, state := InquiryState.DONE } ∧
      w.calls = fanOut s.listeners { q with price := 100, state := InquiryState.DONE } ∧
      w.service.listeners = s.listeners ∧
      w.caller = q := by
  have hstep : InquiryService.ingest (fuel + 2) s q =
      InquiryService.OnMessage (fuel + 1)
        { service :=
            { s with
                inquiries :=
                  mapAssign
                    (mapAssign
                      (mapIndex (mapAssign s.inquiries q.inquiryId q) q.inquiryId).2
                      q.inquiryId { q with price := 100 })
                    q.inquiryId { q with price := 100, state := InquiryState.QUOTED } },
          caller := q, calls := [] } (InquiryRef.stored q.inquiryId) := by
    simp only [Inquiry.GetState] at h
    simp [InquiryService.ingest, InquiryService.OnMessage, InquiryWorld.read, h,
      Inquiry.GetState, Inquiry.GetInquiryId, InquiryService.SendQuote, IQConnector.Publish,
      InquiryWorld.write, mapIndex_fst, mapFind_mapAssign, Inquiry.setPrice, Inquiry.setState]
  rw [hstep, OnMessage_stored_quoted fuel _ q.inquiryId
    { q with price := 100, state := InquiryState.QUOTED } (by simp [mapFind_mapAssign]) rfl rfl]
  refine ⟨_, rfl, ?_, ?_, rfl, rfl⟩
  · simp [mapFind_mapAssign, Inquiry.GetInquiryId]
  · simp

/-- The ingestion of an inquiry in state QUOTED, from outside the service. -/
theorem ingest_quoted (fuel : Nat) (s : InquiryService) (q : Inquiry)
    (h : q.GetState = InquiryState.QUOTED) :
    InquiryService.ingest (fuel + 1) s q =
      some { service := { s with inquiries := mapAssign s.inquiries q.GetInquiryId q },
             caller := { q with state := InquiryState.DONE },
             calls := fanOut s.listeners { q with state := InquiryState.DONE } } := by
  obtain ⟨id, prod, side, qty, price, st⟩ := q
  simp only [Inquiry.GetState] at h
  subst h
  rfl

/-! ## Lemmas on the inquiry map -/

/-- The ingestion of an inquiry in state DONE, REJECTED or CUSTOMER_REJECTED,
from outside the service: it is stored and nothing else happens. -/
theorem ingest_other (fuel : Nat) (s : InquiryService) (q : Inquiry)
    (h1 : q.GetState ≠ InquiryState.RECEIVED) (h2 : q.GetState ≠ InquiryState.QUOTED) :
    InquiryService.ingest (fuel + 1) s q =
      some { service := { s with inquiries := mapAssign s.inquiries q.GetInquiryId q },
             caller := q, calls := [] } := by
  obtain ⟨id, prod, side, qty, price, st⟩ := q
  simp only [Inquiry.GetState] at h1 h2
  cases st
  · exact absurd rfl h1
  · exact absurd rfl h2
  · rfl
  · rfl
  · rfl

/-- The ingestion of an inquiry in state RECEIVED leaves the other keys of the
map as they were. -/
theorem ingest_received_frame (fuel : Nat) (s : InquiryService) (q : Inquiry)
    (h : q.GetState = InquiryState.RECEIVED) :
    ∃ w, InquiryService.ingest (fuel + 2) s q = some w ∧
      ∀ k, mapFind w.service.inquiries k =
        if q.GetInquiryId = k then some { q with price := 100, state := InquiryState.DONE }
        else mapFind s.inquiries k := by
  have hstep : InquiryService.ingest (fuel + 2) s q =
      InquiryService.OnMessage (fuel + 1)
        { service :=
            { s with
                inquiries :=
                  mapAssign
                    (mapAssign
                      (mapIndex (mapAssign s.inquiries q.inquiryId q) q.inquiryId).2
                      q.inquiryId { q with price := 100 })
                    q.inquiryId { q with price := 100, state := InquiryState.QUOTED } },
          caller := q, calls := [] } (InquiryRef.stored q.inquiryId) := by
    simp only [Inquiry.GetState] at h
    simp [InquiryService.ingest, InquiryService.OnMessage, InquiryWorld.read, h,
      Inquiry.GetState, Inquiry.GetInquiryId, InquiryService.SendQuote, IQConnector.Publish,
      InquiryWorld.write, mapIndex_fst, mapFind_mapAssign, Inquiry.setPrice, Inquiry.setState]
  rw [hstep, OnMessage_stored_quoted fuel _ q.inquiryId
    { q with price := 100, state := InquiryState.QUOTED } (by simp [mapFind_mapAssign]) rfl rfl]
  refine ⟨_, rfl, ?_⟩
  intro k
  by_cases hk : q.inquiryId = k
  · simp [mapFind_mapAssign, Inquiry.GetInquiryId, hk]
  · simp [mapFind_mapAssign, mapFind_mapIndex_snd, Inquiry.GetInquiryId, hk]

/-- What an ingestion from outside does, for every state of the incoming
inquiry `q`: it returns; the map holds, under `q`'s id, `q` with price 100 and
state DONE if `q` was RECEIVED and `q` itself otherwise; the other keys and the
listeners are as before; and the calls depend on `q` and the listeners only. -/
theorem ingest_outcome (fuel : Nat) (s : InquiryService) (q : Inquiry) :
    ∃ w, InquiryService.ingest (fuel + 2) s q = some w ∧
      (∀ k, mapFind w.service.inquiries k =
        if q.GetInquiryId = k then
          some (match q.GetState with
            | InquiryState.RECEIVED => { q with price := 100, state := InquiryState.DONE }
            | _ => q)
        else mapFind s.inquiries k) ∧
      w.calls =
        (match q.GetState with
          | InquiryState.RECEIVED =>
            fanOut s.listeners { q with price := 100, state := InquiryState.DONE }
          | InquiryState.QUOTED => fanOut s.listeners { q with state := InquiryState.DONE }
          | _ => []) ∧
      w.service.listeners = s.listeners := by
  cases hst : q.GetState with
  | RECEIVED =>
    obtain ⟨w, hw, hframe⟩ := ingest_received_frame fuel s q hst
    obtain ⟨w', hw', _, hcalls, hls, _⟩ := ingest_received fuel s q hst
    rw [hw] at hw'
    cases hw'
    exact ⟨w, hw, hframe, hcalls, hls⟩
  | QUOTED =>
    refine ⟨_, ingest_quoted (fuel + 1) s q hst, ?_, rfl, rfl⟩
    intro k
    simp only [mapFind_mapAssign]
  | DONE =>
    refine ⟨_, ingest_other (fuel + 1) s q (by simp [hst]) (by simp [hst]), ?_, rfl, rfl⟩
    intro k
    simp only [mapFind_mapAssign]
  | REJECTED =>
    refine ⟨_, ingest_other (fuel + 1) s q (by simp [hst]) (by simp [hst]), ?_, rfl, rfl⟩
    intro k
    simp only [mapFind_mapAssign]
  | CUSTOMER_REJECTED =>
    refine ⟨_, ingest_other (fuel + 1) s q (by simp [hst]) (by simp [hst]), ?_, rfl, rfl⟩
    intro k
    simp only [mapFind_mapAssign]

theorem mapFind_RejectInquiry (s : InquiryService) (id k : String) :
    mapFind (s.RejectInquiry id).inquiries k =
      if id = k then some { (s.GetData id).1 with state := InquiryState.REJECTED }
      else mapFind s.inquiries k := by
  by_cases hk : id = k
  · simp [InquiryService.RejectInquiry, InquiryService.GetData, mapFind_mapAssign, hk,
      Inquiry.setState]
  · simp [InquiryService.RejectInquiry, mapFind_mapAssign, mapFind_mapIndex_snd, hk]

/-- A call of `SendQuote` from outside, for an id whose stored inquiry carries
that id: the inquiry ends with the new price and state DONE, and each listener
is called with it. -/
theorem sendQuote_own_id (fuel : Nat) (s : InquiryService) (id : String) (d : Inquiry)
    (p : ℚ) (hd : mapFind s.inquiries id = some d) (hid : d.inquiryId = id) :
    ∃ w, InquiryService.sendQuote (fuel + 1) s id p = some w ∧
      mapFind w.service.inquiries id =
        some { d with price := p, state := InquiryState.DONE } ∧
      w.calls = fanOut s.listeners { d with price := p, state := InquiryState.DONE } := by
  have hstep : InquiryService.sendQuote (fuel + 1) s id p =
      InquiryService.OnMessage (fuel + 1)
        { service :=
            { s with
                inquiries :=
                  mapAssign (mapAssign (mapIndex s.inquiries id).2 id { d with price := p })
                    id { d with price := p, state := InquiryState.QUOTED } },
          caller := default, calls := [] } (InquiryRef.stored id) := by
    simp [InquiryService.sendQuote, InquiryService.SendQuote, IQConnector.Publish,
      InquiryWorld.write, InquiryWorld.read, mapIndex_fst, mapFind_mapAssign, hd,
      Inquiry.setPrice, Inquiry.setState]
  rw [hstep, OnMessage_stored_quoted fuel _ id
    { d with price := p, state := InquiryState.QUOTED } (by simp [mapFind_mapAssign]) rfl hid]
  refine ⟨_, rfl, ?_, ?_⟩
  · simp [mapFind_mapAssign]
  · simp

/-! ## Lemmas on the service framework -/

theorem AddTrade_calls (s : PositionService) (tr : Trade) :
    (s.AddTrade tr).2 =
      fanOut s.listeners (((s.AddTrade tr).1.GetData tr.product.GetTicker).1) := by
  have h := mapFind_AddTrade s tr tr.product.GetTicker
  simp only [if_true] at h
  simp only [PositionService.GetData, mapIndex_fst, h, Option.getD_some]
  unfold PositionService.AddTrade signedQuantity
  cases hf : mapFind s.positions tr.product.GetTicker <;> cases hs : tr.side <;>
    simp [mapFind_mapIndex_snd, mapFind_mapAssign, mapIndex_fst, hf]

/-! ## Lemmas on last write wins -/

theorem lastWithKey_snoc {V : Type} (key : V → String) (vs : List V) (v : V) (k : String) :
    lastWithKey key (vs ++ [v]) k = if key v = k then some v else lastWithKey key vs k := by
  simp [lastWithKey, List.foldl_append]

/-- Last write wins: after the values `vs` were assigned in turn, each under
its key, the map holds under `k` the last of them with key `k`, and what it
held before if there is none. -/
theorem mapFind_foldl_mapAssign {V : Type} (key : V → String) (vs : List V) (m : StdMap V)
    (k : String) :
    mapFind (vs.foldl (fun acc v => mapAssign acc (key v) v) m) k =
      (match lastWithKey key vs k with
        | some v => some v
        | none => mapFind m k) := by
  induction vs using List.reverseRecOn with
  | nil => simp [lastWithKey]
  | append_singleton vs v ih =>
    rw [List.foldl_append, lastWithKey_snoc]
    simp only [List.foldl_cons, List.foldl_nil, mapFind_mapAssign]
    by_cases h : key v = k
    · simp [h]
    · simp only [h, if_false]
      exact ih

theorem foldl_store {S V : Type} (step : S → V → S) (get : S → StdMap V) (key : V → String)
    (h : ∀ s v, get (step s v) = mapAssign (get s) (key v) v) (s : S) (vs : List V) :
    get (vs.foldl step s) = vs.foldl (fun acc v => mapAssign acc (key v) v) (get s) := by
  induction vs generalizing s with
  | nil => rfl
  | cons v rest ih => simp only [List.foldl_cons, ih, h]

/-- Reading a key of a map built from the empty map by assignments: the last
value assigned under the key, or the value-initialised one. -/
theorem mapIndex_foldl_store {S V : Type} [Inhabited V] (step : S → V → S)
    (get : S → StdMap V) (key : V → String)
    (h : ∀ s v, get (step s v) = mapAssign (get s) (key v) v) (s : S) (hs : get s = [])
    (vs : List V) (k : String) :
    (mapIndex (get (vs.foldl step s)) k).1 = (lastWithKey key vs k).getD default := by
  rw [mapIndex_fst, foldl_store step get key h, mapFind_foldl_mapAssign, hs]
  cases lastWithKey key vs k <;> simp [mapFind]

/-! ## Lemmas on the handle notation -/

theorem digitChar_spec (m : Nat) (h : m < 10) :
    (Nat.digitChar m).isDigit = true ∧ (Nat.digitChar m).toNat - '0'.toNat = m ∧
      Nat.digitChar m ≠ '-' := by
  interval_cases m <;> decide

theorem digitsValue_append (acc : Nat) (l1 l2 : List Char) :
    digitsValue acc (l1 ++ l2) = (digitsValue acc l1).bind (fun a => digitsValue a l2) := by
  induction l1 generalizing acc with
  | nil => simp [digitsValue]
  | cons c cs ih =>
    by_cases hc : c.isDigit
    · simp [digitsValue, hc, ih]
    · simp [digitsValue, hc]

/-- The digits that `toDigitsCore` puts in front of `ds`, when the fuel
suffices: they are not empty, none is `-`, and read back they give `n`. -/
theorem toDigitsCore_spec (fuel n : Nat) (ds : List Char) (h : n < fuel) :
    ∃ l, Nat.toDigitsCore 10 fuel n ds = l ++ ds ∧ l ≠ [] ∧ (∀ c ∈ l, c ≠ '-') ∧
      ∀ acc, digitsValue acc l = some (acc * 10 ^ l.length + n) := by
  induction fuel generalizing n ds with
  | zero => omega
  | succ fuel ih =>
    have hd := digitChar_spec (n % 10) (Nat.mod_lt _ (by omega))
    by_cases h0 : n / 10 = 0
    · refine ⟨[Nat.digitChar (n % 10)], ?_, by simp, ?_, ?_⟩
      · simp [Nat.toDigitsCore, h0]
      · intro c hc
        simp only [List.mem_singleton] at hc
        rw [hc]
        exact hd.2.2
      · intro acc
        have hn : n % 10 = n := by omega
        rw [hn] at hd
        simp only [digitsValue, hn, hd.1, if_true, List.length_singleton, pow_one,
          Option.some.injEq]
        rw [hd.2.1]
    · obtain ⟨l, hl, hne, hminus, hval⟩ :=
        ih (n / 10) (Nat.digitChar (n % 10) :: ds) (by omega)
      refine ⟨l ++ [Nat.digitChar (n % 10)], ?_, by simp, ?_, ?_⟩
      · simp [Nat.toDigitsCore, h0, hl]
      · intro c hc
        rcases List.mem_append.1 hc with hc | hc
        · exact hminus c hc
        · simp only [List.mem_singleton] at hc
          rw [hc]
          exact hd.2.2
      · intro acc
        rw [digitsValue_append, hval]
        simp only [Option.some_bind, digitsValue, hd.1, if_true, hd.2.1, List.length_append,
          List.length_singleton, Option.some.injEq]
        have hn : n = 10 * (n / 10) + n % 10 := (Nat.div_add_mod n 10).symm
        rw [pow_succ]
        nlinarith [hn]

theorem toDigits_spec (n : Nat) :
    Nat.toDigits 10 n ≠ [] ∧ (∀ c ∈ Nat.toDigits 10 n, c ≠ '-') ∧
      digitsValue 0 (Nat.toDigits 10 n) = some n := by
  obtain ⟨l, hl, hne, hminus, hval⟩ := toDigitsCore_spec (n + 1) n [] (by omega)
  have : Nat.toDigits 10 n = l := by simp [Nat.toDigits, hl]
  rw [this]
  exact ⟨hne, hminus, by simpa using hval 0⟩

/-- On a string made of decimal digits only, the digits the string starts with
are all of it. -/
theorem leadingDigitsValue_of_digitsValue (l : List Char) (acc v : Nat)
    (h : digitsValue acc l = some v) :
    leadingDigitsValue acc l = v ∧ l.dropWhile Char.isDigit = [] := by
  induction l generalizing acc with
  | nil =>
    simp only [digitsValue, Option.some.injEq] at h
    exact ⟨h, rfl⟩
  | cons c cs ih =>
    by_cases hc : c.isDigit = true
    · simp only [digitsValue, hc, if_true] at h
      obtain ⟨h1, h2⟩ := ih _ h
      exact ⟨by simp only [leadingDigitsValue, hc, if_true, h1],
        by simp only [List.dropWhile_cons, hc, if_true, h2]⟩
    · simp [digitsValue, hc] at h

/-- The function `std::stod` on a non-empty string of decimal digits whose
value is at most `2 ^ 53`. -/
theorem stod_of_digitsValue (s : List Char) (v : Nat) (hne : s ≠ [])
    (h : digitsValue 0 s = some v) (hv : v ≤ 2 ^ 53) : stod s = Outcome.value (v : ℚ) := by
  cases s with
  | nil => exact absurd rfl hne
  | cons c cs =>
    have hc : c.isDigit = true := by
      by_contra hc
      simp [digitsValue, hc] at h
    obtain ⟨h1, h2⟩ := leadingDigitsValue_of_digitsValue _ _ _ h
    simp only [stod, hc, if_true, h1, h2, hv]

theorem strFind_append (l r : List Char) (c : Char) (h : ∀ x ∈ l, x ≠ c) :
    strFind (l ++ c :: r) c = some l.length := by
  induction l with
  | nil => simp [strFind]
  | cons x xs ih =>
    have hx : x ≠ c := h x (by simp)
    have ih' := ih (fun y hy => h y (by simp [hy]))
    simp [strFind, hx, ih']

/-- The three fields that `PriceSTD` cuts out of a string made of a part `ns`
without `-`, a `-`, two characters and one character. -/
theorem PriceSTD_fields (ns mid last : List Char) (hminus : ∀ x ∈ ns, x ≠ '-')
    (hmid : mid.length = 2) (hlast : last.length = 1) :
    PriceSTD (String.mk (ns ++ ['-'] ++ mid ++ last)) =
      (match stod ns, stod mid, stod (if last = ['+'] then ['4'] else last) with
        | Outcome.value a, Outcome.value b, Outcome.value c =>
          Outcome.value (a + b / 32 + c / 256)
        | Outcome.noValue, _, _ => Outcome.noValue
        | _, Outcome.noValue, _ => Outcome.noValue
        | _, _, Outcome.noValue => Outcome.noValue
        | _, _, _ => Outcome.undescribed) := by
  have hfind : strFind (ns ++ ['-'] ++ mid ++ last) '-' = some ns.length := by
    have := strFind_append ns (mid ++ last) '-' hminus
    simpa [List.append_assoc] using this
  have h1 : substr (ns ++ ['-'] ++ mid ++ last) 0 ns.length = some ns := by
    simp [substr, List.append_assoc]
  have h2 : substr (ns ++ ['-'] ++ mid ++ last) (ns.length + 1) 2 = some mid := by
    have hd : List.drop (ns.length + 1) (ns ++ ['-'] ++ mid ++ last) = mid ++ last := by
      have : ns ++ ['-'] ++ mid ++ last = (ns ++ ['-']) ++ (mid ++ last) := by
        simp [List.append_assoc]
      rw [this, List.drop_append_of_le_length (by simp)]
      simp
    have hlen : ¬ (ns.length + 1 > (ns ++ ['-'] ++ mid ++ last).length) := by
      simp only [List.length_append, List.length_singleton, hmid, hlast]
      omega
    simp only [substr, hd, hlen, if_false]
    rw [List.take_append_of_le_length (by omega), List.take_of_length_le (by omega)]
  have h3 : substr (ns ++ ['-'] ++ mid ++ last) (ns.length + 3) 1 = some last := by
    have hd : List.drop (ns.length + 3) (ns ++ ['-'] ++ mid ++ last) = last := by
      have : ns ++ ['-'] ++ mid ++ last = (ns ++ ['-'] ++ mid) ++ last := rfl
      rw [this, List.drop_append_of_le_length (by simp [hmid])]
      have hl : (ns ++ ['-'] ++ mid).length = ns.length + 3 := by simp [hmid]
      rw [← hl, List.drop_length]
      simp
    have hlen : ¬ (ns.length + 3 > (ns ++ ['-'] ++ mid ++ last).length) := by
      simp only [List.length_append, List.length_singleton, hmid, hlast]
      omega
    simp only [substr, hd, hlen, if_false]
    rw [List.take_of_length_le (by omega)]
  have e1 : ((ns.length : Int) + 1).toNat = ns.length + 1 := by omega
  have e3 : ((ns.length : Int) + 3).toNat = ns.length + 3 := by omega
  have e0 : ¬ ((ns.length : Int) < 0) := by omega
  simp only [PriceSTD, hfind, e0, if_false, Int.toNat_ofNat, e1, e3, h1, h2, h3]

theorem isDigit_ne_minus (c : Char) (h : c.isDigit = true) : c ≠ '-' := by
  intro hc
  subst hc
  exact absurd h (by decide)

theorem digitsValue_isSome (l : List Char) (acc : Nat) (h : ∀ c ∈ l, c.isDigit = true) :
    ∃ v, digitsValue acc l = some v := by
  induction l generalizing acc with
  | nil => exact ⟨acc, rfl⟩
  | cons c cs ih =>
    have hc : c.isDigit = true := h c (by simp)
    obtain ⟨v, hv⟩ := ih (acc * 10 + (c.toNat - '0'.toNat)) (fun x hx => h x (by simp [hx]))
    exact ⟨v, by simp only [digitsValue, hc, if_true]; exact hv⟩

theorem to_string_natCast (m : Nat) : to_string (m : Int) = Nat.toDigits 10 m := by
  have h : ¬ ((m : Int) < 0) := by omega
  simp [to_string, h]

theorem floor_whole (n k : Nat) (hk : k < 256) : ⌊(n : ℚ) + (k : ℚ) / 256⌋ = (n : Int) := by
  rw [Int.floor_eq_iff]
  have hk' : (k : ℚ) < 256 := by exact_mod_cast hk
  have hk0 : (0 : ℚ) ≤ (k : ℚ) := by exact_mod_cast Nat.zero_le k
  constructor
  · push_cast
    have : (0 : ℚ) ≤ (k : ℚ) / 256 := by positivity
    linarith
  · push_cast
    have : (k : ℚ) / 256 < 1 := by
      rw [div_lt_one (by norm_num)]
      exact hk'
    linarith

theorem floor_fraction (n k : Nat) :
    ⌊((n : ℚ) + (k : ℚ) / 256 - ((n : Int) : ℚ)) * 256⌋ = (k : Int) := by
  have : ((n : ℚ) + (k : ℚ) / 256 - ((n : Int) : ℚ)) * 256 = ((k : Int) : ℚ) := by
    push_cast
    ring
  rw [this, Int.floor_intCast]

/-- The string that `PriceDTS` builds for `n + k/256`, when `n` is in the range
of `int`. -/
theorem PriceDTS_eq (n k : Nat) (hn : n < 2 ^ 31) (hk : k < 256) :
    PriceDTS ((n : ℚ) + (k : ℚ) / 256) =
      some (String.mk (Nat.toDigits 10 n ++ ['-'] ++
        (if k / 8 < 10 then '0' :: Nat.toDigits 10 (k / 8) else Nat.toDigits 10 (k / 8)) ++
        (if k % 8 = 4 then ['+'] else Nat.toDigits 10 (k % 8)))) := by
  have hdiv : Int.tdiv (k : Int) 8 = ((k / 8 : Nat) : Int) := by
    rw [Int.tdiv_eq_ediv (by omega) (by omega)]
    omega
  have hmod : Int.tmod (k : Int) 8 = ((k % 8 : Nat) : Int) := by
    rw [Int.tmod_eq_emod (by omega) (by omega)]
    omega
  have c1 : (((k / 8 : Nat) : Int) < 10) ↔ (k / 8 < 10) := by omega
  have c2 : (((k % 8 : Nat) : Int) = 4) ↔ (k % 8 = 4) := by omega
  have hrange : ¬ ((n : Int) < -(2 : Int) ^ 31 ∨ (2 : Int) ^ 31 ≤ (n : Int)) := by
    have h31 : (2 : Int) ^ 31 = 2147483648 := by norm_num
    have h31' : (2 : Nat) ^ 31 = 2147483648 := by norm_num
    rw [h31]
    rw [h31'] at hn
    omega
  simp only [PriceDTS, floor_whole n k hk, hrange, if_false, floor_fraction, hdiv, hmod,
    to_string_natCast, c1, c2]

/-- The number `PriceDTS` has no string for: its whole part is beyond the range
of `int`. -/
theorem PriceDTS_overflow (n k : Nat) (hn : 2 ^ 31 ≤ n) (hk : k < 256) :
    PriceDTS ((n : ℚ) + (k : ℚ) / 256) = none := by
  have hrange : ((n : Int) < -(2 : Int) ^ 31 ∨ (2 : Int) ^ 31 ≤ (n : Int)) := by
    right
    exact_mod_cast hn
  simp only [PriceDTS, floor_whole n k hk, hrange, if_true]

theorem pad_spec :
    ∀ a : Fin 32,
      (if a.val < 10 then '0' :: Nat.toDigits 10 a.val else Nat.toDigits 10 a.val).length = 2 ∧
      digitsValue 0
        (if a.val < 10 then '0' :: Nat.toDigits 10 a.val else Nat.toDigits 10 a.val) =
        some a.val := by
  decide

theorem last_spec :
    ∀ b : Fin 8,
      (if b.val = 4 then ['+'] else Nat.toDigits 10 b.val).length = 1 ∧
      (if (if b.val = 4 then ['+'] else Nat.toDigits 10 b.val) = ['+'] then ['4']
        else (if b.val = 4 then ['+'] else Nat.toDigits 10 b.val)).length = 1 ∧
      digitsValue 0
        (if (if b.val = 4 then ['+'] else Nat.toDigits 10 b.val) = ['+'] then ['4']
          else (if b.val = 4 then ['+'] else Nat.toDigits 10 b.val)) = some b.val := by
  decide

theorem ne_nil_of_length_eq {l : List Char} {m : Nat} (h : l.length = m + 1) : l ≠ [] := by
  intro e
  rw [e] at h
  simp at h

theorem le_two_pow_53 {m b : Nat} (h : m < b) (hb : b ≤ 2 ^ 53) : m ≤ 2 ^ 53 := by omega

/-- What `PriceSTD` reads in the string `PriceDTS` builds for `n + k/256`. -/
theorem PriceSTD_PriceDTS (n k : Nat) (hn : n < 2 ^ 31) (hk : k < 256) :
    ∃ s, PriceDTS ((n : ℚ) + (k : ℚ) / 256) = some s ∧
      PriceSTD s = Outcome.value ((n : ℚ) + (k : ℚ) / 256) := by
  obtain ⟨hne, hminus, hval⟩ := toDigits_spec n
  have hp := pad_spec ⟨k / 8, by omega⟩
  have hl := last_spec ⟨k % 8, Nat.mod_lt _ (by omega)⟩
  refine ⟨_, PriceDTS_eq n k hn hk, ?_⟩
  rw [PriceSTD_fields _ _ _ hminus hp.1 hl.1,
    stod_of_digitsValue _ n hne hval (le_two_pow_53 hn (by norm_num)),
    stod_of_digitsValue _ (k / 8) (ne_nil_of_length_eq hp.1) hp.2
      (le_two_pow_53 (show k / 8 < 32 by omega) (by norm_num)),
    stod_of_digitsValue _ (k % 8) (ne_nil_of_length_eq hl.2.1) hl.2.2
      (le_two_pow_53 (show k % 8 < 8 by omega) (by norm_num))]
  simp only [Outcome.value.injEq]
  have hk8 : (k : ℚ) = 8 * ((k / 8 : Nat) : ℚ) + ((k % 8 : Nat) : ℚ) := by
    exact_mod_cast (Nat.div_add_mod k 8).symm
  rw [hk8]
  ring

theorem getLast?_append_singleton (l : List Char) (x : Char) :
    (l ++ [x]).getLast? = some x := by
  induction l with
  | nil => rfl
  | cons a as ih =>
    cases has : as ++ [x] with
    | nil => simp at has
    | cons b bs =>
      rw [List.cons_append, has, List.getLast?_cons_cons, ← has, ih]

/-! ## Lemmas on the cascade behind the market data feed -/

/-- The calls that `RiskService::AddPosition` makes touch the risk history
only. -/
theorem foldl_processPV01_frame (calls : List (ListenerId × PV01 Bond)) (sys : TradingSystem) :
    (calls.foldl TradingSystem.processPV01 sys).ES = sys.ES ∧
      (calls.foldl TradingSystem.processPV01 sys).HDSE = sys.HDSE ∧
      (calls.foldl TradingSystem.processPV01 sys).TBS = sys.TBS ∧
      (calls.foldl TradingSystem.processPV01 sys).POSS = sys.POSS := by
  induction calls generalizing sys with
  | nil => exact ⟨rfl, rfl, rfl, rfl⟩
  | cons c rest ih =>
    simp only [List.foldl_cons]
    obtain ⟨h1, h2, h3, h4⟩ := ih (sys.processPV01 c)
    rw [h1, h2, h3, h4]
    unfold TradingSystem.processPV01
    split <;> exact ⟨rfl, rfl, rfl, rfl⟩

/-- The calls that `PositionService::AddTrade` makes leave the execution
service, its history, the trade booking service and the position service as
they are. -/
theorem foldl_processPosition_frame (calls : List (ListenerId × Position))
    (sys : TradingSystem) :
    (calls.foldl TradingSystem.processPosition sys).ES = sys.ES ∧
      (calls.foldl TradingSystem.processPosition sys).HDSE = sys.HDSE ∧
      (calls.foldl TradingSystem.processPosition sys).TBS = sys.TBS ∧
      (calls.foldl TradingSystem.processPosition sys).POSS = sys.POSS := by
  induction calls generalizing sys with
  | nil => exact ⟨rfl, rfl, rfl, rfl⟩
  | cons c rest ih =>
    simp only [List.foldl_cons]
    obtain ⟨h1, h2, h3, h4⟩ := ih (sys.processPosition c)
    rw [h1, h2, h3, h4]
    unfold TradingSystem.processPosition
    split
    · exact ⟨rfl, rfl, rfl, rfl⟩
    · split
      · exact foldl_processPV01_frame _ _
      · exact ⟨rfl, rfl, rfl, rfl⟩

/-! ## Lemmas on the GUI service -/

theorem OnMessage_throttle (s : GUIService) (p : Price) :
    (s.OnMessage p).throttle = s.throttle := rfl

theorem processAll_forward (l : GUIListener) (guis : GUIService) (u : Price × Int)
    (rest : List (Price × Int)) (h : u.2 - l.time ≥ guis.throttle) :
    l.processAll guis (u :: rest) =
      ((GUIListener.processAll { time := u.2 } (guis.OnMessage u.1) rest).1,
       (GUIListener.processAll { time := u.2 } (guis.OnMessage u.1) rest).2.1,
       u :: (GUIListener.processAll { time := u.2 } (guis.OnMessage u.1) rest).2.2) := by
  simp [GUIListener.processAll, GUIListener.ProcessAdd, GUIService.GetThrottle, h]

theorem processAll_drop (l : GUIListener) (guis : GUIService) (u : Price × Int)
    (rest : List (Price × Int)) (h : ¬ u.2 - l.time ≥ guis.throttle) :
    l.processAll guis (u :: rest) = l.processAll guis rest := by
  simp [GUIListener.processAll, GUIListener.ProcessAdd, GUIService.GetThrottle, h]

/-- What a run of `ProcessAdd` leaves: the throttle is the one of the start,
the first update passed on is at least the throttle after the listener's time,
two updates passed on one after the other are at least the throttle apart, and
the listener's time is the clock value of the last update passed on. -/
theorem processAll_spec (updates : List (Price × Int)) (l : GUIListener) (guis : GUIService) :
    (l.processAll guis updates).2.1.throttle = guis.throttle ∧
      (∀ u ∈ (l.processAll guis updates).2.2.head?, u.2 - l.time ≥ guis.throttle) ∧
      List.Chain' (fun a b : Price × Int => b.2 - a.2 ≥ guis.throttle)
        (l.processAll guis updates).2.2 ∧
      (l.processAll guis updates).1.time =
        (((l.processAll guis updates).2.2.getLast?).map (fun u => u.2)).getD l.time := by
  induction updates generalizing l guis with
  | nil => simp [GUIListener.processAll]
  | cons u rest ih =>
    by_cases h : u.2 - l.time ≥ guis.throttle
    · obtain ⟨h1, h2, h3, h4⟩ := ih { time := u.2 } (guis.OnMessage u.1)
      rw [processAll_forward l guis u rest h]
      rw [OnMessage_throttle] at h1 h2 h3
      refine ⟨h1, ?_, ?_, ?_⟩
      · intro v hv
        simp only [List.head?_cons, Option.mem_def, Option.some.injEq] at hv
        rw [← hv]
        exact h
      · rw [List.chain'_cons']
        exact ⟨h2, h3⟩
      · show (GUIListener.processAll { time := u.2 } (guis.OnMessage u.1) rest).1.time = _
        rw [h4]
        cases (GUIListener.processAll { time := u.2 } (guis.OnMessage u.1) rest).2.2 with
        | nil => rfl
        | cons a as =>
          obtain ⟨x, hx⟩ : ∃ x, (a :: as).getLast? = some x :=
            ⟨_, List.getLast?_eq_getLast _ (List.cons_ne_nil _ _)⟩
          simp [List.getLast?_cons_cons, hx]
    · rw [processAll_drop l guis u rest h]
      exact ih l guis

/-- The connector after `OnMessage` was called with each price in turn, from a
counter `n` of at most 100: the records written are those of the start and the
first `100 - n` prices, and the counter has grown by their number. -/
theorem onMessages_connector (prices : List Price) (s : GUIService) (n : Nat)
    (hn : s.connector.cnt = (n : Int)) (hle : n ≤ 100) :
    (s.onMessages prices).connector.written = s.connector.written ++ prices.take (100 - n) ∧
      (s.onMessages prices).connector.cnt = ((min (n + prices.length) 100 : Nat) : Int) := by
  induction prices generalizing s n with
  | nil =>
    simp only [GUIService.onMessages, List.foldl_nil, List.take_nil, List.append_nil,
      List.length_nil, Nat.add_zero, hn, true_and]
    rw [Nat.min_eq_left hle]
  | cons p rest ih =>
    have hstep : s.onMessages (p :: rest) = (s.OnMessage p).onMessages rest := rfl
    rw [hstep]
    by_cases hfull : n = 100
    · have hpub : (s.OnMessage p).connector = s.connector := by
        simp [GUIService.OnMessage, GUIConnector.Publish, hn, hfull]
      obtain ⟨h1, h2⟩ := ih (s.OnMessage p) n (by rw [hpub, hn]) hle
      rw [h1, h2, hpub]
      subst hfull
      simp
    · have hlt : n < 100 := by omega
      have hpub : (s.OnMessage p).connector =
          { cnt := ((n + 1 : Nat) : Int), written := s.connector.written ++ [p] } := by
        have : ¬ ((n : Int) ≥ 100) := by omega
        simp [GUIService.OnMessage, GUIConnector.Publish, hn, this]
      obtain ⟨h1, h2⟩ := ih (s.OnMessage p) (n + 1) (by rw [hpub]) (by omega)
      rw [h1, h2, hpub]
      have h100 : 100 - n = (100 - (n + 1)) + 1 := by omega
      refine ⟨?_, ?_⟩
      · rw [h100, List.take_succ_cons]
        simp
      · simp only [List.length_cons]
        congr 2
        omega

/-! ## Lemmas on the product of a position -/

/-- The ticker of the bond the reference table gives for `t`: `t` itself for
the seven tickers of the table, the empty ticker of `Bond()` otherwise. -/
theorem GetBond_ticker (t : String) :
    (GetBond t).GetTicker =
      if t ∈ ["T2Y", "T3Y", "T5Y", "T7Y", "T10Y", "T20Y", "T30Y"] then t else "" := by
  unfold GetBond
  split_ifs with h1 h2 h3 h4 h5 h6 h7 h8 <;> first
    | (subst_vars; rfl)
    | (exfalso; simp_all)

/-- Every position in the map of a service that only `AddTrade` has written
carries the bond the reference table gives for its key. -/
theorem AddTrade_product (s : PositionService) (tr : Trade)
    (hinv : ∀ k p, mapFind s.positions k = some p → p.product = GetBond k) :
    ∀ k p, mapFind (s.AddTrade tr).1.positions k = some p → p.product = GetBond k := by
  intro k p hp
  rw [mapFind_AddTrade] at hp
  by_cases ht : tr.product.GetTicker = k
  · subst ht
    simp only [if_true, Option.some.injEq] at hp
    rw [← hp]
    cases hf : mapFind s.positions tr.product.GetTicker with
    | none => rfl
    | some q => exact hinv _ q hf
  · simp only [ht, if_false] at hp
    exact hinv k p hp

theorem addTrades_product (trades : List Trade) (s : PositionService)
    (hinv : ∀ k p, mapFind s.positions k = some p → p.product = GetBond k) :
    ∀ k p, mapFind (s.addTrades trades).positions k = some p → p.product = GetBond k := by
  induction trades generalizing s with
  | nil => exact hinv
  | cons tr rest ih => exact ih _ (AddTrade_product s tr hinv)

theorem AddTrade_listeners (s : PositionService) (tr : Trade) :
    (s.AddTrade tr).1.listeners = s.listeners := rfl

theorem addTrades_listeners (trades : List Trade) (s : PositionService) :
    (s.addTrades trades).listeners = s.listeners := by
  induction trades generalizing s with
  | nil => rfl
  | cons tr rest ih => rw [addTrades_cons, ih, AddTrade_listeners]

/-! ## Lemmas on the depth of the inquiry cascade -/

/-- An ingestion in state RECEIVED makes one nested call of `OnMessage`, on the
element stored under the inquiry's id, which is then in state QUOTED and has
price 100; the result of the ingestion is the result of that call. -/
theorem OnMessage_received_step (n : Nat) (w : InquiryWorld) (data : InquiryRef)
    (h : (w.read data).GetState = InquiryState.RECEIVED) :
    InquiryService.OnMessage (n + 1) w data =
      InquiryService.OnMessage n
        { w with service :=
            { w.service with
                inquiries :=
                  mapAssign
                    (mapAssign
                      (mapIndex (mapAssign w.service.inquiries (w.read data).inquiryId
                        (w.read data)) (w.read data).inquiryId).2
                      (w.read data).inquiryId { w.read data with price := 100 })
                    (w.read data).inquiryId
                    { w.read data with price := 100, state := InquiryState.QUOTED } } }
        (InquiryRef.stored (w.read data).inquiryId) := by
  simp only [Inquiry.GetState] at h
  generalize hv : w.read data = v at h
  simp only [InquiryService.OnMessage, Inquiry.GetState, Inquiry.GetInquiryId, hv, h,
    InquiryService.SendQuote, IQConnector.Publish]
  simp [InquiryWorld.write, InquiryWorld.read, mapIndex_fst, mapFind_mapAssign,
    Inquiry.setPrice, Inquiry.setState, h]

/-- An ingestion in a state other than RECEIVED returns without a nested call:
depth 1 is enough. -/
theorem OnMessage_not_received (n : Nat) (w : InquiryWorld) (data : InquiryRef)
    (h : (w.read data).GetState ≠ InquiryState.RECEIVED) :
    (InquiryService.OnMessage (n + 1) w data).isSome = true ∧
      InquiryService.OnMessage (n + 1) w data = InquiryService.OnMessage 1 w data := by
  simp only [Inquiry.GetState] at h
  generalize hv : w.read data = v at h
  cases hst : v.state with
  | RECEIVED => exact absurd hst h
  | QUOTED => simp only [InquiryService.OnMessage, Inquiry.GetState, hv, hst]; simp
  | DONE => simp only [InquiryService.OnMessage, Inquiry.GetState, hv, hst]; simp
  | REJECTED => simp only [InquiryService.OnMessage, Inquiry.GetState, hv, hst]; simp
  | CUSTOMER_REJECTED => simp only [InquiryService.OnMessage, Inquiry.GetState, hv, hst]; simp

/-- Depth 2 is enough for every ingestion, and more depth changes nothing. -/
theorem OnMessage_depth_two (n : Nat) (w : InquiryWorld) (data : InquiryRef) :
    (InquiryService.OnMessage (n + 2) w data).isSome = true ∧
      InquiryService.OnMessage (n + 2) w data = InquiryService.OnMessage 2 w data := by
  by_cases h : (w.read data).GetState = InquiryState.RECEIVED
  · rw [OnMessage_received_step (n + 1) w data h, OnMessage_received_step 1 w data h]
    have hq : ∀ m, InquiryService.OnMessage (m + 1)
        { w with service :=
            { w.service with
                inquiries :=
                  mapAssign
                    (mapAssign
                      (mapIndex (mapAssign w.service.inquiries (w.read data).inquiryId
                        (w.read data)) (w.read data).inquiryId).2
                      (w.read data).inquiryId { w.read data with price := 100 })
                    (w.read data).inquiryId
                    { w.read data with price := 100, state := InquiryState.QUOTED } } }
        (InquiryRef.stored (w.read data).inquiryId) = _ := fun m =>
      OnMessage_stored_quoted m _ (w.read data).inquiryId
        { w.read data with price := 100, state := InquiryState.QUOTED }
        (by simp [mapFind_mapAssign]) rfl rfl
    rw [hq n, hq 0]
    simp
  · have h1 := OnMessage_not_received (n + 1) w data h
    have h2 := OnMessage_not_received 1 w data h
    exact ⟨h1.1, h1.2.trans h2.2.symm⟩

/-! ## Lemmas on the price feed -/

theorem PriceSTD_sample_bid : PriceSTD "99-160" = Outcome.value (99 + 1 / 2) := by
  have hs : ("99-160" : String) = String.mk (['9', '9'] ++ ['-'] ++ ['1', '6'] ++ ['0']) := by
    decide
  rw [hs, PriceSTD_fields ['9', '9'] ['1', '6'] ['0'] (by decide) rfl rfl,
    stod_of_digitsValue ['9', '9'] 99 (by simp) (by decide) (by norm_num),
    stod_of_digitsValue ['1', '6'] 16 (by simp) (by decide) (by norm_num),
    stod_of_digitsValue _ 0 (by simp) (by decide) (by norm_num)]
  simp only [Outcome.value.injEq]
  norm_num

theorem PriceSTD_sample_offer : PriceSTD "99-162" = Outcome.value (99 + 65 / 128) := by
  have hs : ("99-162" : String) = String.mk (['9', '9'] ++ ['-'] ++ ['1', '6'] ++ ['2']) := by
    decide
  rw [hs, PriceSTD_fields ['9', '9'] ['1', '6'] ['2'] (by decide) rfl rfl,
    stod_of_digitsValue ['9', '9'] 99 (by simp) (by decide) (by norm_num),
    stod_of_digitsValue ['1', '6'] 16 (by simp) (by decide) (by norm_num),
    stod_of_digitsValue _ 2 (by simp) (by decide) (by norm_num)]
  simp only [Outcome.value.injEq]
  norm_num

/-! ## Lemmas on canonical handles -/

/-- With enough fuel `toDigitsCore` puts the digits of `n` in front of `ds`. -/
theorem toDigitsCore_eq (n : Nat) :
    ∀ fuel ds, n < fuel → Nat.toDigitsCore 10 fuel n ds = Nat.toDigits 10 n ++ ds := by
  induction n using Nat.strong_induction_on with
  | _ n ih =>
    intro fuel ds h
    obtain ⟨f, rfl⟩ : ∃ f, fuel = f + 1 := ⟨fuel - 1, by omega⟩
    by_cases h0 : n / 10 = 0
    · simp [Nat.toDigits, Nat.toDigitsCore, h0]
    · have hlt : n / 10 < n := by omega
      have e1 := ih (n / 10) hlt f (Nat.digitChar (n % 10) :: ds) (by omega)
      have e2 := ih (n / 10) hlt n [Nat.digitChar (n % 10)] hlt
      simp only [Nat.toDigits, Nat.toDigitsCore, h0, if_false] at e1 e2 ⊢
      rw [e1, e2]
      simp

/-- The digits of `n`: the digits of `n / 10` followed by the last digit, or
the last digit alone when `n < 10`. -/
theorem toDigits_step (n : Nat) :
    Nat.toDigits 10 n =
      if n / 10 = 0 then [Nat.digitChar (n % 10)]
      else Nat.toDigits 10 (n / 10) ++ [Nat.digitChar (n % 10)] := by
  by_cases h0 : n / 10 = 0
  · simp [Nat.toDigits, Nat.toDigitsCore, h0]
  · have e := toDigitsCore_eq (n / 10) n [Nat.digitChar (n % 10)] (by omega)
    simp only [h0, if_false]
    rw [← e]
    simp [Nat.toDigits, Nat.toDigitsCore, h0]

/-- A decimal digit is the character of its value. -/
theorem isDigit_digitChar (c : Char) (h : c.isDigit = true) :
    c.toNat - '0'.toNat < 10 ∧ Nat.digitChar (c.toNat - '0'.toNat) = c := by
  have hr : 48 ≤ c.toNat ∧ c.toNat ≤ 57 := by
    simp only [Char.isDigit, Bool.and_eq_true, decide_eq_true_eq] at h
    exact ⟨h.1, h.2⟩
  have hc : c = Char.ofNat c.toNat := (Char.ofNat_toNat c).symm
  generalize c.toNat = m at hr hc
  obtain ⟨h1, h2⟩ := hr
  subst hc
  interval_cases m <;> decide

/-- The value of a string of digits with one more digit at the end. -/
theorem digitsValue_snoc (l : List Char) (c : Char) (v : Nat) (hv : digitsValue 0 l = some v)
    (hc : c.isDigit = true) :
    digitsValue 0 (l ++ [c]) = some (v * 10 + (c.toNat - '0'.toNat)) := by
  rw [digitsValue_append, hv]
  simp [digitsValue, hc]

/-- The digits of `n` are decimal digits, and the first is `0` for `n = 0`
only. -/
theorem toDigits_canonical (n : Nat) :
    (∀ c ∈ Nat.toDigits 10 n, c.isDigit = true) ∧
      ((Nat.toDigits 10 n).head? = some '0' → Nat.toDigits 10 n = ['0']) := by
  induction n using Nat.strong_induction_on with
  | _ n ih =>
    have hd := digitChar_spec (n % 10) (Nat.mod_lt _ (by omega))
    rw [toDigits_step]
    by_cases h0 : n / 10 = 0
    · simp only [h0, if_true, List.mem_singleton, forall_eq, List.head?_cons,
        Option.some.injEq]
      exact ⟨hd.1, fun h => by rw [h]⟩
    · simp only [h0, if_false]
      obtain ⟨hdig, hlead⟩ := ih (n / 10) (by omega)
      obtain ⟨hne, _, hval⟩ := toDigits_spec (n / 10)
      refine ⟨?_, ?_⟩
      · intro c hc
        rcases List.mem_append.1 hc with hc | hc
        · exact hdig c hc
        · simp only [List.mem_singleton] at hc
          rw [hc]
          exact hd.1
      · intro hhead
        exfalso
        rw [List.head?_append_of_ne_nil _ hne] at hhead
        have hz := hlead hhead
        rw [hz] at hval
        have : digitsValue 0 ['0'] = some 0 := by decide
        rw [this] at hval
        simp only [Option.some.injEq] at hval
        exact h0 hval.symm

/-- A non-empty string of decimal digits without a leading zero is the string
of the digits of its value. -/
theorem toDigits_digitsValue (ns : List Char) :
    ns ≠ [] → (∀ c ∈ ns, c.isDigit = true) → (ns.head? = some '0' → ns = ['0']) →
      ∃ N, digitsValue 0 ns = some N ∧ Nat.toDigits 10 N = ns := by
  induction ns using List.reverseRecOn with
  | nil => intro h; exact absurd rfl h
  | append_singleton l c ih =>
    intro _ hdig hlead
    have hc : c.isDigit = true := hdig c (by simp)
    obtain ⟨hlt, hchar⟩ := isDigit_digitChar c hc
    by_cases hl : l = []
    · subst hl
      refine ⟨c.toNat - '0'.toNat, by simp [digitsValue, hc], ?_⟩
      rw [toDigits_step]
      have h0 : (c.toNat - '0'.toNat) / 10 = 0 := by omega
      have hm : (c.toNat - '0'.toNat) % 10 = c.toNat - '0'.toNat := by omega
      simp only [h0, if_true, hm, hchar, List.nil_append]
    · have hlead' : l.head? = some '0' → l = ['0'] := by
        intro hh
        have := hlead (by rw [List.head?_append_of_ne_nil _ hl]; exact hh)
        have hlen := congrArg List.length this
        simp only [List.length_append, List.length_singleton] at hlen
        have : l.length = 0 := by omega
        exact absurd (List.length_eq_zero.1 this) hl
      obtain ⟨v, hv, hvd⟩ := ih hl (fun x hx => hdig x (by simp [hx])) hlead'
      have hvpos : v ≠ 0 := by
        intro hv0
        rw [hv0] at hvd
        have hz : Nat.toDigits 10 0 = ['0'] := by decide
        rw [hz] at hvd
        have := hlead (by rw [← hvd]; rfl)
        have hlen := congrArg List.length this
        rw [← hvd] at hlen
        simp at hlen
      refine ⟨v * 10 + (c.toNat - '0'.toNat), digitsValue_snoc l c v hv hc, ?_⟩
      rw [toDigits_step]
      have h0 : (v * 10 + (c.toNat - '0'.toNat)) / 10 = v := by omega
      have hm : (v * 10 + (c.toNat - '0'.toNat)) % 10 = c.toNat - '0'.toNat := by omega
      simp only [h0, hvpos, if_false, hm, hchar, hvd]

/-- The two characters `PriceDTS` prints for a number of 32nds. -/
theorem pad_digits :
    ∀ a : Fin 32,
      (if a.val < 10 then '0' :: Nat.toDigits 10 a.val else Nat.toDigits 10 a.val) =
        [Nat.digitChar (a.val / 10), Nat.digitChar (a.val % 10)] := by
  decide

/-- The character `PriceDTS` prints for a number of 256ths. -/
theorem last_digit :
    ∀ b : Fin 8,
      (if b.val = 4 then ['+'] else Nat.toDigits 10 b.val) =
        [if b.val = 4 then '+' else Nat.digitChar b.val] ∧
      (if b.val = 4 then '+' else Nat.digitChar b.val) ∈
        ['0', '1', '2', '3', '+', '5', '6', '7'] := by
  decide

/-- The value of a last character of a canonical handle, and the character
`PriceDTS` prints for that value. -/
theorem last_char_value (d : Char) (hd : d ∈ ['0', '1', '2', '3', '+', '5', '6', '7']) :
    (if d = '+' then 4 else d.toNat - '0'.toNat) < 8 ∧
      digitsValue 0 (if [d] = ['+'] then ['4'] else [d]) =
        some (if d = '+' then 4 else d.toNat - '0'.toNat) ∧
      (if (if d = '+' then 4 else d.toNat - '0'.toNat) = 4 then ['+']
        else Nat.toDigits 10 (if d = '+' then 4 else d.toNat - '0'.toNat)) = [d] := by
  simp only [List.mem_cons, List.mem_singleton, List.not_mem_nil, or_false] at hd
  rcases hd with h | h | h | h | h | h | h | h <;> subst h <;> decide

theorem digitsValue_isDigit (l : List Char) (acc v : Nat) (h : digitsValue acc l = some v) :
    ∀ c ∈ l, c.isDigit = true := by
  induction l generalizing acc with
  | nil => intro c hc; simp at hc
  | cons x xs ih =>
    by_cases hx : x.isDigit = true
    · simp only [digitsValue, hx, if_true] at h
      intro c hc
      rcases List.mem_cons.1 hc with hc | hc
      · rw [hc]; exact hx
      · exact ih _ h c hc
    · simp [digitsValue, hx] at h

/-- C1: on a fresh position service (with any listeners registered), after any
sequence of trades was passed to `AddTrade`, the aggregate position that
`GetData` returns for a ticker is the sum of the signed quantities (BUY `+`,
SELL `-`) of the trades of that ticker, over all books. -/
theorem aggregate_position_is_sum_of_signed_trades (ls : List ListenerId)
    (trades : List Trade) (t : String) :
    ((({ PositionService.new with listeners := ls }).addTrades trades).GetData
        t).1.GetAggregatePosition =
      ((trades.filter (fun tr => tr.product.GetTicker = t)).map signedQuantity).sum := by
  rw [addTrades_aggregate]
  simp [PositionService.GetData, PositionService.new, mapIndex, mapFind,
    Position.GetAggregatePosition]
  rfl

/-- C2: the quantity of book `b` under ticker `t` after a sequence of trades is
the quantity before plus the sum of the signed quantities of the trades with
ticker `t` and book `b` (nothing resets or overwrites a total); one
`AddPosition` adds its delta to the book it names and leaves the other books;
and from a fresh service the quantity is the sum alone. -/
theorem book_position_is_running_sum :
    (∀ (s : PositionService) (trades : List Trade) (t b : String),
      (((s.addTrades trades).GetData t).1.GetPosition b).1 =
        ((s.GetData t).1.GetPosition b).1 +
          ((trades.filter (fun tr => tr.product.GetTicker = t ∧ tr.book = b)).map
            signedQuantity).sum) ∧
    (∀ (p : Position) (book book' : String) (pos : Int),
      ((p.AddPosition book pos).GetPosition book').1 =
        (p.GetPosition book').1 + if book = book' then pos else 0) ∧
    (∀ (ls : List ListenerId) (trades : List Trade) (t b : String),
      (((({ PositionService.new with listeners := ls }).addTrades trades).GetData
          t).1.GetPosition b).1 =
        ((trades.filter (fun tr => tr.product.GetTicker = t ∧ tr.book = b)).map
          signedQuantity).sum) := by
  refine ⟨addTrades_position, GetPosition_AddPosition, ?_⟩
  intro ls trades t b
  rw [addTrades_position]
  simp [PositionService.GetData, PositionService.new, mapIndex, mapFind,
    Position.GetPosition]

/-! ## TradeBooking: round-robin books and the trade built from an execution -/

/-- C4: the trade that `ProcessAdd` hands to `BookTrade` has side SELL for a
BID execution and BUY for an OFFER one, quantity visible plus hidden, the
order id as trade id, and the product and price of the execution; `BookTrade`
is called with it on the listener's service, and `GetData` of the order id
returns it afterwards. -/
theorem processAdd_books_the_opposite_trade (l : TBListener) (tbs : TradeBookingService)
    (e : ExecutionOrder) :
    (l.ProcessAdd tbs e).booked.side =
        (match e.getPricingSide with
          | PricingSide.BID => Side.SELL
          | PricingSide.OFFER => Side.BUY) ∧
      (l.ProcessAdd tbs e).booked.quantity = e.GetVisibleQuantity + e.GetHiddenQuantity ∧
      (l.ProcessAdd tbs e).booked.tradeId = e.GetOrderId ∧
      (l.ProcessAdd tbs e).booked.product = e.GetProduct ∧
      (l.ProcessAdd tbs e).booked.price = e.GetPrice ∧
      ((l.ProcessAdd tbs e).service, (l.ProcessAdd tbs e).calls) =
        tbs.BookTrade (l.ProcessAdd tbs e).booked ∧
      ((l.ProcessAdd tbs e).service.GetData e.GetOrderId).1 = (l.ProcessAdd tbs e).booked := by
  refine ⟨rfl, rfl, rfl, rfl, rfl, rfl, ?_⟩
  simp [TBListener.ProcessAdd, TradeBookingService.BookTrade, TradeBookingService.GetData,
    mapIndex_fst, mapFind_mapAssign, TBListener.buildTrade]

/-! ## AlgoExecution: every call reads a destroyed object -/

/-- C5, the code: no run of one update or more returns, from a fresh service
with any listeners. The first statement of `AlgoExecuteOrder` copies the
`BidOffer` behind the reference that `GetBestBidOffer` returns, which was
destroyed when that method returned; the read is undefined, so no firing is
ever observed and no side alternates. So it is for two updates with
`ladderBook`, whose spread is the threshold. -/
theorem algo_execution_run_is_undefined (ls : List ListenerId) (u : OrderBook × String)
    (rest : List (OrderBook × String)) :
    ({ AlgoExecutionService.new with listeners := ls }).run (u :: rest) = none ∧
      AlgoExecutionService.new.run [(ladderBook, "A1"), (ladderBook, "A2")] = none :=
  ⟨run_cons _ u rest, run_cons _ _ _⟩

/-- C6, the code: `AlgoExecuteOrder` is undefined for every service and every
order book, so it notifies no listener once and stores nothing. The book
`ladderBook` has non-empty stacks and the object `GetBestBidOffer` builds for
it has offer price minus bid price 1/128, but the reference returned is to an
object that no longer exists, and the call on a service with two listeners is
undefined. -/
theorem algo_execution_never_gets_to_the_threshold (s : AlgoExecutionService)
    (data : OrderBook) (newId : String) :
    s.AlgoExecuteOrder data newId = none ∧
      ladderBook.GetBestBidOffer.map
        (fun r => (r.object.offerOrder.price - r.object.bidOrder.price, r.alive)) =
        some (1 / 128, false) ∧
      ({ AlgoExecutionService.new with listeners := [3, 5] }).AlgoExecuteOrder
        ladderBook "A1" = none := by
  refine ⟨AlgoExecuteOrder_undefined s data newId, ?_, AlgoExecuteOrder_undefined _ _ _⟩
  rw [ladderBook_best]
  simp only [Option.map_some', Option.some.injEq, Prod.mk.injEq, and_true]
  norm_num

/-- C7, the code: for `tieBook`, whose best offer 101 is 1 above its best bid
100, the call of `AlgoExecuteOrder` is not a no-op that leaves the service as
it was: it is undefined, as every call is, because it reads the destroyed
`BidOffer` before it compares the spread with the threshold. -/
theorem algo_execution_off_threshold_is_undefined :
    tieBook.GetBestBidOffer.map
        (fun r => (r.object.offerOrder.price - r.object.bidOrder.price, r.alive)) =
        some (1, false) ∧
      ({ AlgoExecutionService.new with listeners := [3, 5] }).AlgoExecuteOrder tieBook "A1" ≠
        some { service := { AlgoExecutionService.new with listeners := [3, 5] },
               generated := none, calls := [] } := by
  refine ⟨?_, ?_⟩
  · rw [tieBook_best]
    simp only [Option.map_some', Option.some.injEq, Prod.mk.injEq, and_true]
    norm_num
  · rw [AlgoExecuteOrder_undefined]
    exact fun h => Option.noConfusion h

/-- C8, the code: no call of `AlgoExecuteOrder` generates an execution order,
whatever the service, the order book and the toggle: the call is undefined
before the order is built. So it is on a fresh service for `ladderBook`, where
a MARKET order at the best bid would be expected. -/
theorem algo_execution_generates_no_order (s : AlgoExecutionService) (data : OrderBook)
    (newId : String) :
    (s.AlgoExecuteOrder data newId).bind (fun r => r.generated) = none ∧
      (AlgoExecutionService.new.AlgoExecuteOrder ladderBook "A1").bind
        (fun r => r.generated) = none := by
  rw [AlgoExecuteOrder_undefined, AlgoExecuteOrder_undefined]
  exact ⟨rfl, rfl⟩

/-! ## MarketData: the best bid and offer are returned by a dead reference -/

/-- C9, the code: for every order book the caller of `GetBestBidOffer` reads no
`BidOffer`. With an empty stack the call is undefined; otherwise the method
returns a reference to the temporary of its `return` statement, destroyed when
the method returns. For `ladderBook` that temporary held the maximum bid price
99 + 1/2 and the minimum offer price 99 + 65/128. -/
theorem best_bid_offer_is_never_read (ob : OrderBook) :
    ob.GetBestBidOffer.bind Reference.read = none ∧
      ladderBook.GetBestBidOffer.map
        (fun r => (r.object.bidOrder.price, r.object.offerOrder.price, r.alive)) =
        some (99 + 1 / 2, 99 + 65 / 128, false) := by
  refine ⟨GetBestBidOffer_read ob, ?_⟩
  rw [ladderBook_best]
  rfl

/-- C10, the code: in `tieBook` two bids share the maximum price 100 and two
offers the minimum price 101. The caller of `GetBestBidOffer` reads neither the
first nor the last of them: the reference returned is to a destroyed object.
The object the method had built held the bid of quantity 2 and the offer of
quantity 4, the last of each tie, as the tests `>=` and `<=` of the two loops
leave them. -/
theorem tie_break_is_never_read :
    tieBook.bidStack.map (fun x => (x.price, x.quantity)) = [(100, 1), (100, 2), (99, 5)] ∧
      tieBook.offerStack.map (fun x => (x.price, x.quantity)) = [(101, 3), (101, 4), (102, 6)] ∧
      tieBook.GetBestBidOffer.bind Reference.read = none ∧
      tieBook.GetBestBidOffer.map
        (fun r => (r.object.bidOrder.quantity, r.object.offerOrder.quantity, r.alive)) =
        some (2, 4, false) := by
  refine ⟨by simp [tieBook], by simp [tieBook], GetBestBidOffer_read tieBook, ?_⟩
  rw [tieBook_best]
  rfl

/-! ## AlgoStreaming: the alternating quote size and the quoted prices -/

/-- C11: for every sequence of prices passed to `PublishPrice`, from any state
of the service and whatever the tickers, every call returns with a stream; the
visible quantity of each stream (the same on its bid and offer order) is
10,000,000 or 20,000,000, and the visible quantities of two consecutive calls
differ. -/
theorem algo_streaming_visible_alternates (s : AlgoStreamingService) (prices : List Price) :
    ∃ s' gens, s.publishAll prices = some (s', gens) ∧ gens.length = prices.length ∧
      (∀ g ∈ gens, (g.bidVisible = some 10000000 ∨ g.bidVisible = some 20000000) ∧
        g.offerVisible = g.bidVisible) ∧
      List.Chain' (fun a b => a.bidVisible ≠ b.bidVisible) gens := by
  obtain ⟨s', gens, hrun, hlen, hall, hchain, _⟩ := publishAll_visible s prices
  exact ⟨s', gens, hrun, hlen, hall, hchain⟩

/-- C11 at three prices on two tickers. -/
theorem algo_streaming_visible_alternates_witness :
    ∃ s' gens,
      AlgoStreamingService.new.publishAll [samplePrice, samplePrice30, samplePrice] =
        some (s', gens) ∧
      gens.length = [samplePrice, samplePrice30, samplePrice].length ∧
      (∀ g ∈ gens, (g.bidVisible = some 10000000 ∨ g.bidVisible = some 20000000) ∧
        g.offerVisible = g.bidVisible) ∧
      List.Chain' (fun a b => a.bidVisible ≠ b.bidVisible) gens :=
  algo_streaming_visible_alternates AlgoStreamingService.new
    [samplePrice, samplePrice30, samplePrice]

/-- C12, the code at a fresh service: the toggle `VisibleS1M` is true, and the
first price published carries visible quantity 20,000,000 and hidden quantity
40,000,000 on both orders (`(VisibleS1M + 1) * 10000000` is 2 x 10,000,000 when
the toggle is true); the second carries 10,000,000 and 20,000,000. -/
theorem fresh_service_first_quote_is_twenty_million :
    AlgoStreamingService.new.VisibleS1M = true ∧
      (AlgoStreamingService.new.publishAll [samplePrice, samplePrice]).map
        (fun r => r.2.map (fun g => g.priceStream.map (fun ps =>
          (ps.bidOrder.visibleQuantity, ps.bidOrder.hiddenQuantity,
            ps.offerOrder.visibleQuantity, ps.offerOrder.hiddenQuantity)))) =
        some [some (20000000, 40000000, 20000000, 40000000),
              some (10000000, 20000000, 10000000, 20000000)] := by
  refine ⟨rfl, ?_⟩
  simp [AlgoStreamingService.publishAll, PublishPrice_eq, AlgoStreamingService.new]

/-- C13: for every price published by `PublishPrice`, the stream generated has
a bid order of side BID and an offer order of side OFFER with the same visible
quantity and the same hidden quantity, and the hidden quantity is twice the
visible quantity. -/
theorem algo_streaming_hidden_is_twice_visible (s : AlgoStreamingService) (p : Price) :
    ∃ r ps, s.PublishPrice p = some r ∧ r.generated.GetPriceStream = some ps ∧
      ps.GetBidOrder.side = PricingSide.BID ∧
      ps.GetOfferOrder.side = PricingSide.OFFER ∧
      ps.GetBidOrder.GetVisibleQuantity = ps.GetOfferOrder.GetVisibleQuantity ∧
      ps.GetBidOrder.GetHiddenQuantity = ps.GetOfferOrder.GetHiddenQuantity ∧
      ps.GetBidOrder.GetHiddenQuantity = 2 * ps.GetBidOrder.GetVisibleQuantity ∧
      ps.GetOfferOrder.GetHiddenQuantity = 2 * ps.GetOfferOrder.GetVisibleQuantity := by
  refine ⟨_, _, PublishPrice_eq s p, rfl, rfl, rfl, rfl, rfl, ?_, ?_⟩ <;>
    simp only [PriceStream.GetBidOrder, PriceStream.GetOfferOrder,
      PriceStreamOrder.GetHiddenQuantity, PriceStreamOrder.GetVisibleQuantity] <;>
    ring

/-- C14: for every price `p` with mid `m` and spread `s`, the stream that
`PublishPrice` generates has `p`'s product, bid price `m - s/2` and offer price
`m + s/2`, so that offer minus bid is `s` and their average is `m`; the
`AlgoStream` holding it is what `GetData` of `p`'s ticker returns afterwards
and what each listener is called with, once, in registration order. -/
theorem algo_streaming_quotes_mid_plus_minus_half_spread (s : AlgoStreamingService)
    (p : Price) :
    ∃ r ps, s.PublishPrice p = some r ∧ r.generated.GetPriceStream = some ps ∧
      ps.GetProduct = p.GetProduct ∧
      ps.GetBidOrder.GetPrice = p.GetMid - p.GetBidOfferSpread / 2 ∧
      ps.GetOfferOrder.GetPrice = p.GetMid + p.GetBidOfferSpread / 2 ∧
      ps.GetOfferOrder.GetPrice - ps.GetBidOrder.GetPrice = p.GetBidOfferSpread ∧
      (ps.GetBidOrder.GetPrice + ps.GetOfferOrder.GetPrice) / 2 = p.GetMid ∧
      (r.service.GetData p.GetProduct.GetTicker).1 = r.generated ∧
      r.calls = s.listeners.map (fun l => (l, r.generated)) := by
  refine ⟨_, _, PublishPrice_eq s p, rfl, rfl, rfl, rfl, ?_, ?_, ?_, rfl⟩
  · simp only [PriceStream.GetBidOrder, PriceStream.GetOfferOrder, PriceStreamOrder.GetPrice,
      Price.GetMid, Price.GetBidOfferSpread]
    ring
  · simp only [PriceStream.GetBidOrder, PriceStream.GetOfferOrder, PriceStreamOrder.GetPrice,
      Price.GetMid, Price.GetBidOfferSpread]
    ring
  · simp [AlgoStreamingService.GetData, mapIndex_fst, mapFind_mapAssign, Price.GetProduct]

/-! ## Execution: the venue is set and nothing else changes -/

/-- C15: for every `AlgoExecution` that wraps an order `e`, `ProcessAdd` of
the execution listener returns; the order stored by the execution service
under the ticker of the product and the order each listener is called with
(once, in registration order) are `e` with market CME: product, side, order
id, order type, price, visible and hidden quantity, parent id and child flag
are those of `e`. -/
theorem execution_sets_market_only (es : ExecutionService) (a : AlgoExecution)
    (e : ExecutionOrder) (h : a.GetExecutionOrder = some e) :
    ∃ r, EListener.ProcessAdd es a = some r ∧
      (r.service.GetData e.GetProduct.GetTicker).1 = { e with market := some Market.CME } ∧
      r.calls = es.listeners.map (fun l => (l, { e with market := some Market.CME })) ∧
      r.order = { e with market := some Market.CME } := by
  refine ⟨es.ExecuteOrder e Market.CME, ?_, ?_, rfl, rfl⟩
  · simp only [EListener.ProcessAdd, h]
  · simp [ExecutionService.ExecuteOrder, ExecutionService.OnMessage, ExecutionService.GetData,
      ExecutionOrder.setMarket, ExecutionOrder.GetProduct, mapIndex_fst, mapFind_mapAssign]

/-- C15 at `sampleExecution` on a service with two listeners. -/
theorem execution_sets_market_only_witness :
    ∃ r, EListener.ProcessAdd { ExecutionService.new with listeners := [4, 9] }
        sampleExecution = some r ∧
      (r.service.GetData "T2Y").1 =
        { product := GetBond "T2Y", side := PricingSide.BID, orderId := "A1",
          orderType := OrderType.MARKET, price := 99 + 1 / 2, visibleQuantity := 2000000,
          hiddenQuantity := 0, parentOrderId := "", isChildOrder := false,
          market := some Market.CME } ∧
      r.calls = [4, 9].map (fun l => (l,
        { product := GetBond "T2Y", side := PricingSide.BID, orderId := "A1",
          orderType := OrderType.MARKET, price := 99 + 1 / 2, visibleQuantity := 2000000,
          hiddenQuantity := 0, parentOrderId := "", isChildOrder := false,
          market := some Market.CME })) ∧
      r.order =
        { product := GetBond "T2Y", side := PricingSide.BID, orderId := "A1",
          orderType := OrderType.MARKET, price := 99 + 1 / 2, visibleQuantity := 2000000,
          hiddenQuantity := 0, parentOrderId := "", isChildOrder := false,
          market := some Market.CME } :=
  execution_sets_market_only { ExecutionService.new with listeners := [4, 9] }
    sampleExecution
    { product := GetBond "T2Y", side := PricingSide.BID, orderId := "A1",
      orderType := OrderType.MARKET, price := 99 + 1 / 2, visibleQuantity := 2000000,
      hiddenQuantity := 0, parentOrderId := "", isChildOrder := false, market := none }
    (by simp [sampleExecution, AlgoExecution.new, AlgoExecution.GetExecutionOrder,
      ExecutionOrder.new])

/-! ## Risk: the PV01 of a position and of its bucket -/

/-- C16: for every position `p` passed to `AddPosition`, the record built has
`p`'s product, quantity `p`'s aggregate position and pv01 `GetPV01(ticker)`
times that aggregate; each listener is called with it once, in registration
order; and the same value is stored as the PV01 of the ticker, as `GetData`
reads it afterwards. -/
theorem risk_record_is_unit_pv01_times_aggregate (s : RiskService) (p : Position) :
    (s.AddPosition p).emitted.GetProduct = p.product ∧
      (s.AddPosition p).emitted.GetQuantity = p.GetAggregatePosition ∧
      (s.AddPosition p).emitted.GetPV01 =
        GetPV01 p.product.GetTicker * p.GetAggregatePosition ∧
      (s.AddPosition p).calls = s.listeners.map (fun l => (l, (s.AddPosition p).emitted)) ∧
      (s.AddPosition p).service.storedPV01 p.product.GetTicker =
        GetPV01 p.product.GetTicker * p.GetAggregatePosition ∧
      ((s.AddPosition p).service.GetData p.product.GetTicker).1.GetPV01 =
        GetPV01 p.product.GetTicker * p.GetAggregatePosition := by
  have hst := AddPosition_stored s p p.product.GetTicker
  simp only [if_true] at hst
  refine ⟨?_, ?_, ?_, rfl, hst, ?_⟩
  · rw [AddPosition_emitted]; rfl
  · rw [AddPosition_emitted]; rfl
  · rw [AddPosition_emitted]; rfl
  · simp only [RiskService.GetData, PV01.GetPV01, PV01.new, mapIndex_fst]
    exact hst

/-- C17: after any sequence of positions `ps` passed to a fresh `RiskService`
(with any listeners), when a position `p` of a ticker `t` among T2Y, T3Y, T5Y,
T7Y, T10Y, T20Y, T30Y comes next, the record built for it is the last of the
run; its bucket name is the first entry of `GetBucket t`, and its bucket PV01
is the sum, over the tickers `m` listed after the name (each once, `t` among
them), of `GetPV01 m` times the aggregate position of the most recent position
received for `m`, 0 if there was none. -/
theorem risk_bucket_pv01_is_sum_over_members (ls : List ListenerId) (ps : List Position)
    (p : Position) (t : String)
    (ht : t ∈ ["T2Y", "T3Y", "T5Y", "T7Y", "T10Y", "T20Y", "T30Y"])
    (hp : p.product.GetTicker = t) :
    ∃ rec, (({ RiskService.new with listeners := ls }).addPositions (ps ++ [p])).2.getLast? =
        some rec ∧
      rec = ((({ RiskService.new with listeners := ls }).addPositions ps).1.AddPosition
        p).emitted ∧
      rec.GetBucketName = (GetBucket t).getD 0 "" ∧
      rec.GetBucketPV01 =
        some (((GetBucket t).drop 1).map
          (fun m => GetPV01 m * lastAggregate (ps ++ [p]) m)).sum ∧
      t ∈ (GetBucket t).drop 1 ∧
      ((GetBucket t).drop 1).Nodup := by
  refine ⟨_, ?_, rfl, ?_, ?_, ?_, ?_⟩
  · rw [addPositions_snoc]
    simp
  · rw [AddPosition_emitted, hp]
    rfl
  · rw [AddPosition_emitted, hp]
    simp only [PV01.GetBucketPV01, Option.some.injEq]
    congr 1
    apply List.map_congr_left
    intro m _
    have h := addPositions_stored ls (ps ++ [p]) m
    rw [addPositions_snoc] at h
    exact h
  · simp only [List.mem_cons, List.mem_singleton, List.not_mem_nil, or_false] at ht
    rcases ht with h | h | h | h | h | h | h <;> subst h <;> decide
  · simp only [List.mem_cons, List.mem_singleton, List.not_mem_nil, or_false] at ht
    rcases ht with h | h | h | h | h | h | h <;> subst h <;> decide

/-- C17 at a T2Y position that follows a T2Y and a T3Y position. -/
theorem risk_bucket_pv01_is_sum_over_members_witness :
    ∃ rec, (({ RiskService.new with listeners := [2] }).addPositions
          ([positionT2Y, positionT3Y] ++ [positionT2Y])).2.getLast? = some rec ∧
      rec = ((({ RiskService.new with listeners := [2] }).addPositions
        [positionT2Y, positionT3Y]).1.AddPosition positionT2Y).emitted ∧
      rec.GetBucketName = (GetBucket "T2Y").getD 0 "" ∧
      rec.GetBucketPV01 =
        some (((GetBucket "T2Y").drop 1).map
          (fun m => GetPV01 m * lastAggregate ([positionT2Y, positionT3Y] ++ [positionT2Y])
            m)).sum ∧
      "T2Y" ∈ (GetBucket "T2Y").drop 1 ∧
      ((GetBucket "T2Y").drop 1).Nodup :=
  risk_bucket_pv01_is_sum_over_members [2] [positionT2Y, positionT3Y] positionT2Y "T2Y"
    (by decide) rfl

/-! ## Inquiry: the auto-quote cascade -/

/-- C19: for every inquiry `q` in state RECEIVED passed to `OnMessage` from
outside the service, the call returns (the nested calls go two deep); the
inquiry stored under `q`'s id afterwards is `q` with price 100 and state DONE
(id, product, side and quantity are those of `q`), and each registered listener
has received one `ProcessAdd`, in registration order, with that inquiry. -/
theorem received_inquiry_ends_done_at_100 (fuel : Nat) (s : InquiryService) (q : Inquiry)
    (h : q.GetState = InquiryState.RECEIVED) :
    ∃ w, InquiryService.ingest (fuel + 2) s q = some w ∧
      (w.service.GetData q.GetInquiryId).1 =
        { q with price := 100, state := InquiryState.DONE } ∧
      w.calls = s.listeners.map
        (fun l => (l, { q with price := 100, state := InquiryState.DONE })) ∧
      w.service.listeners = s.listeners := by
  obtain ⟨w, hw, hfind, hcalls, hls, _⟩ := ingest_received fuel s q h
  refine ⟨w, hw, ?_, hcalls, hls⟩
  simp [InquiryService.GetData, mapIndex_fst, hfind]

/-- C19 at `sampleInquiry` on a service with two listeners. -/
theorem received_inquiry_ends_done_at_100_witness :
    ∃ w, InquiryService.ingest 2 { InquiryService.new with listeners := [1, 2] }
        sampleInquiry = some w ∧
      (w.service.GetData "I1").1 =
        { inquiryId := "I1", product := GetBond "T2Y", side := Side.SELL, quantity := 1000000,
          price := 100, state := InquiryState.DONE } ∧
      w.calls = [1, 2].map
        (fun l => (l, { inquiryId := "I1", product := GetBond "T2Y", side := Side.SELL,
                        quantity := 1000000, price := 100, state := InquiryState.DONE })) ∧
      w.service.listeners = [1, 2] :=
  received_inquiry_ends_done_at_100 0 { InquiryService.new with listeners := [1, 2] }
    sampleInquiry rfl

/-- C20: for every inquiry `q` in state QUOTED passed to `OnMessage` from
outside the service, the call returns and each registered listener receives
one `ProcessAdd`, in registration order, with an inquiry in state DONE whose
id, product, side, quantity and price are those of `q`. -/
theorem quoted_inquiry_is_published_done (fuel : Nat) (s : InquiryService) (q : Inquiry)
    (h : q.GetState = InquiryState.QUOTED) :
    ∃ w, InquiryService.ingest (fuel + 1) s q = some w ∧
      w.calls = s.listeners.map (fun l => (l, { q with state := InquiryState.DONE })) :=
  ⟨_, ingest_quoted fuel s q h, rfl⟩

/-- C20 at `sampleQuoted` on a service with two listeners. -/
theorem quoted_inquiry_is_published_done_witness :
    ∃ w, InquiryService.ingest 1 { InquiryService.new with listeners := [1, 2] }
        sampleQuoted = some w ∧
      w.calls = [1, 2].map
        (fun l => (l, { inquiryId := "I2", product := GetBond "T2Y", side := Side.BUY,
                        quantity := 2000000, price := 99 + 1 / 2,
                        state := InquiryState.DONE })) :=
  quoted_inquiry_is_published_done 0 { InquiryService.new with listeners := [1, 2] }
    sampleQuoted rfl

/-! ## Inquiry: what the map holds after an ingestion, and rejection -/

/-- C21, the code at a QUOTED inquiry ingested from outside the cascade: the
listeners are called with state DONE, but the inquiry stored under the id, as
`GetData` returns it, has state QUOTED (the copy is stored before
`setState(DONE)` is applied to the argument). -/
theorem quoted_from_outside_is_stored_quoted :
    (InquiryService.ingest 1 { InquiryService.new with listeners := [1, 2] }
        sampleQuoted).map
      (fun w => ((w.service.GetData "I2").1.GetState, w.calls.map (fun c => c.2.GetState))) =
      some (InquiryState.QUOTED, [InquiryState.DONE, InquiryState.DONE]) := by
  rw [ingest_quoted 0 _ sampleQuoted rfl]
  simp [InquiryService.GetData, mapIndex_fst, mapFind_mapAssign, sampleQuoted,
    Inquiry.GetInquiryId, Inquiry.GetState, fanOut, InquiryService.new]

/-- C22: for every service state and id, after `RejectInquiry(id)` the inquiry
stored under the id is the one that was there (the value-initialised inquiry
if there was none) with state REJECTED and every other member unchanged; the
inquiries stored under other ids and the listeners are unchanged. The method
makes no call to a listener. -/
theorem reject_sets_rejected_only (s : InquiryService) (id : String) :
    ((s.RejectInquiry id).GetData id).1 =
        { (s.GetData id).1 with state := InquiryState.REJECTED } ∧
      (∀ k, mapFind (s.RejectInquiry id).inquiries k =
        if id = k then some { (s.GetData id).1 with state := InquiryState.REJECTED }
        else mapFind s.inquiries k) ∧
      (s.RejectInquiry id).listeners = s.listeners := by
  refine ⟨?_, mapFind_RejectInquiry s id, rfl⟩
  simp only [InquiryService.GetData, mapIndex_fst, mapFind_RejectInquiry, if_true,
    Option.getD_some]

/-- C23 as stated fails: after the cascade of `sampleInquiry` the inquiry
stored under "I1" has state DONE; `RejectInquiry("I1")` then leaves it in state
REJECTED, and the ingestion of an inquiry with the same id in state
CUSTOMER_REJECTED leaves it in that state. -/
theorem done_is_not_terminal :
    (InquiryService.ingest 2 InquiryService.new sampleInquiry).map
        (fun w => (w.service.GetData "I1").1.GetState) = some InquiryState.DONE ∧
      (InquiryService.ingest 2 InquiryService.new sampleInquiry).map
        (fun w => ((w.service.RejectInquiry "I1").GetData "I1").1.GetState) =
        some InquiryState.REJECTED ∧
      ((InquiryService.ingest 2 InquiryService.new sampleInquiry).bind
        (fun w => InquiryService.ingest 2 w.service
          { sampleInquiry with state := InquiryState.CUSTOMER_REJECTED })).map
        (fun w => (w.service.GetData "I1").1.GetState) =
        some InquiryState.CUSTOMER_REJECTED := by
  refine ⟨by decide, by decide, by decide⟩

/-- C23, as the code has it: an inquiry `d` stored under its own id in state
DONE is still there, unchanged, after the ingestion of any inquiry with
another id and after `RejectInquiry` of another id; and `SendQuote` for its id
changes its price only, the state stored being DONE again. -/
theorem done_survives_other_ids_and_requote (fuel : Nat) (s : InquiryService)
    (id id' : String) (d q : Inquiry) (p : ℚ)
    (hd : mapFind s.inquiries id = some d) (hst : d.GetState = InquiryState.DONE)
    (hid : d.GetInquiryId = id) (hq : q.GetInquiryId ≠ id) (hid' : id' ≠ id) :
    (∃ w, InquiryService.ingest (fuel + 2) s q = some w ∧
        (w.service.GetData id).1 = d ∧
        (w.service.GetData id).1.GetState = InquiryState.DONE) ∧
      ((s.RejectInquiry id').GetData id).1 = d ∧
      (∃ w, InquiryService.sendQuote (fuel + 1) s id p = some w ∧
        (w.service.GetData id).1 = { d with price := p } ∧
        (w.service.GetData id).1.GetState = InquiryState.DONE) := by
  refine ⟨?_, ?_, ?_⟩
  · obtain ⟨w, hw, hframe, _, _⟩ := ingest_outcome fuel s q
    have h := hframe id
    simp only [hq, if_false] at h
    refine ⟨w, hw, ?_, ?_⟩ <;>
      simp [InquiryService.GetData, mapIndex_fst, h, hd, hst]
  · simp [InquiryService.GetData, mapIndex_fst, mapFind_RejectInquiry, hid', hd]
  · obtain ⟨w, hw, hfind, _⟩ := sendQuote_own_id fuel s id d p hd hid
    simp only [Inquiry.GetState] at hst
    refine ⟨w, hw, ?_, ?_⟩
    · simp [InquiryService.GetData, mapIndex_fst, hfind, ← hst]
    · simp [InquiryService.GetData, mapIndex_fst, hfind, Inquiry.GetState]

/-- C23 amended, at `doneService`: the DONE inquiry under "I1" survives the
ingestion of `sampleQuoted` (id "I2") and `RejectInquiry("I2")`, and
`SendQuote("I1", 101)` leaves it DONE with price 101. -/
theorem done_survives_other_ids_and_requote_witness :
    (∃ w, InquiryService.ingest 2 doneService sampleQuoted = some w ∧
        (w.service.GetData "I1").1 =
          { sampleInquiry with price := 100, state := InquiryState.DONE } ∧
        (w.service.GetData "I1").1.GetState = InquiryState.DONE) ∧
      ((doneService.RejectInquiry "I2").GetData "I1").1 =
        { sampleInquiry with price := 100, state := InquiryState.DONE } ∧
      (∃ w, InquiryService.sendQuote 1 doneService "I1" 101 = some w ∧
        (w.service.GetData "I1").1 =
          { sampleInquiry with price := 101, state := InquiryState.DONE } ∧
        (w.service.GetData "I1").1.GetState = InquiryState.DONE) :=
  done_survives_other_ids_and_requote 0 doneService "I1" "I2"
    { sampleInquiry with price := 100, state := InquiryState.DONE } sampleQuoted 101
    rfl rfl rfl (by decide) (by decide)

/-- C24: for any two service states with the same listeners and any inquiry
`q`, the ingestion of `q` from outside returns in both, with the same calls to
the listeners and the same inquiry stored under `q`'s id afterwards, whatever
the two maps held before. -/
theorem ingestion_is_driven_by_the_event (fuel : Nat) (s1 s2 : InquiryService) (q : Inquiry)
    (h : s1.listeners = s2.listeners) :
    ∃ w1 w2, InquiryService.ingest (fuel + 2) s1 q = some w1 ∧
      InquiryService.ingest (fuel + 2) s2 q = some w2 ∧
      w1.calls = w2.calls ∧
      (w1.service.GetData q.GetInquiryId).1 = (w2.service.GetData q.GetInquiryId).1 := by
  obtain ⟨w1, hw1, hf1, hc1, _⟩ := ingest_outcome fuel s1 q
  obtain ⟨w2, hw2, hf2, hc2, _⟩ := ingest_outcome fuel s2 q
  refine ⟨w1, w2, hw1, hw2, ?_, ?_⟩
  · rw [hc1, hc2, h]
  · have h1 := hf1 q.GetInquiryId
    have h2 := hf2 q.GetInquiryId
    simp only [if_true] at h1 h2
    simp only [InquiryService.GetData, mapIndex_fst, h1, h2]

/-- C24 at a fresh service and at `doneService`, which already holds an
inquiry under the id of `sampleInquiry`. -/
theorem ingestion_is_driven_by_the_event_witness :
    ∃ w1 w2, InquiryService.ingest 2 InquiryService.new sampleInquiry = some w1 ∧
      InquiryService.ingest 2 doneService sampleInquiry = some w2 ∧
      w1.calls = w2.calls ∧
      (w1.service.GetData sampleInquiry.GetInquiryId).1 =
        (w2.service.GetData sampleInquiry.GetInquiryId).1 :=
  ingestion_is_driven_by_the_event 0 InquiryService.new doneService sampleInquiry rfl

/-! ## The service framework: registration, fan-out, `GetData` and `OnMessage` -/

/-- C26 as stated fails for `RiskService`: on a fresh service `GetData("T2Y")`
returns a `PV01` whose product is the reference bond T2Y and whose quantity is
1, not a value with empty strings and zero numeric fields. -/
theorem risk_getData_is_not_a_default_value :
    (RiskService.new.GetData "T2Y").1.GetQuantity = 1 ∧
      (RiskService.new.GetData "T2Y").1.GetProduct.GetTicker = "T2Y" ∧
      (RiskService.new.GetData "T2Y").1.GetProduct.maturityDate = "11/30/2024" ∧
      (RiskService.new.GetData "T2Y").1.GetPV01 = 0 := by
  refine ⟨rfl, by decide, by decide, ?_⟩
  simp [RiskService.GetData, RiskService.new, PV01.GetPV01, PV01.new, mapIndex_fst, mapFind]
  rfl

/-- C26, as the code has it. `GetData` never fails. In every service other
than `RiskService`, and on every state, `GetData(k)` returns the value stored
under `k`, and the value-initialised value of the value type when nothing is
stored under `k`; the value-initialised values have zero numeric members, empty
strings and collections and a null pointer, and the empty position has
aggregate 0. In `PricingService`, `MarketDataService`, `TradeBookingService`,
`ExecutionService`, `StreamingService`, `GUIService` and
`HistoricalDataService`, after any sequence of ingestions on a fresh service
`GetData(k)` returns the value of the most recent ingestion with key `k`. In
`AlgoStreamingService` it returns the stream just ingested, in
`PositionService` the position that the most recent `AddTrade` for the ticker
delivered to the listeners, in `InquiryService` the inquiry as its ingestion
left it (price 100 and state DONE for one ingested RECEIVED, the inquiry itself
otherwise). `RiskService::GetData(k)` returns a new
`PV01(GetBond(k), pv01s[k], 1)`: the reference bond of `k`, the PV01 stored for
`k` (0 if there is none) and quantity 1. -/
theorem getData_returns_last_ingested_or_default {V : Type} [Inhabited V] (k : String)
    (prices : List Price) (books : List OrderBook) (trades : List Trade)
    (orders : List ExecutionOrder) (streams : List PriceStream) (d : Int)
    (guiPrices : List Price) (ticker : V → String) (file : String) (records : List V)
    (ps : PricingService) (mds : MarketDataService) (tbs : TradeBookingService)
    (es : ExecutionService) (ss : StreamingService) (guis : GUIService)
    (hds : HistoricalDataService V) (ass : AlgoStreamingService) (aes : AlgoExecutionService)
    (poss : PositionService) (iqs : InquiryService) (rs : RiskService)
    (stream : PriceStream) (trade : Trade) (q : Inquiry) :
    ((prices.foldl (fun s v => (s.OnMessage v).1) PricingService.new).GetData k).1 =
        (lastWithKey (fun v => v.GetProduct.GetTicker) prices k).getD default ∧
      ((books.foldl (fun s v => (s.OnMessage v).1) MarketDataService.new).GetData k).1 =
        (lastWithKey (fun v => v.product.GetTicker) books k).getD default ∧
      ((trades.foldl (fun s v => (s.BookTrade v).1) TradeBookingService.new).GetData k).1 =
        (lastWithKey (fun v => v.tradeId) trades k).getD default ∧
      ((orders.foldl ExecutionService.OnMessage ExecutionService.new).GetData k).1 =
        (lastWithKey (fun v => v.GetProduct.GetTicker) orders k).getD default ∧
      ((streams.foldl StreamingService.OnMessage StreamingService.new).GetData k).1 =
        (lastWithKey (fun v => v.GetProduct.GetTicker) streams k).getD default ∧
      ((guiPrices.foldl GUIService.OnMessage (GUIService.new d)).GetData k).1 =
        (lastWithKey (fun v => v.GetProduct.GetTicker) guiPrices k).getD default ∧
      ((records.foldl (HistoricalDataService.OnMessage ticker)
          (HistoricalDataService.new file)).GetData k).1 =
        (lastWithKey ticker records k).getD default ∧
      (ps.GetData k).1 = (mapFind ps.prices k).getD default ∧
      (mds.GetData k).1 = (mapFind mds.orderBooks k).getD default ∧
      (tbs.GetData k).1 = (mapFind tbs.trades k).getD default ∧
      (es.GetData k).1 = (mapFind es.executionOrders k).getD default ∧
      (ss.GetData k).1 = (mapFind ss.priceStreams k).getD default ∧
      (guis.GetData k).1 = (mapFind guis.prices k).getD default ∧
      (hds.GetData k).1 = (mapFind hds.Datas k).getD default ∧
      (ass.GetData k).1 = (mapFind ass.algoStreams k).getD default ∧
      (aes.GetData k).1 = (mapFind aes.algoExecutions k).getD default ∧
      (poss.GetData k).1 = (mapFind poss.positions k).getD default ∧
      (iqs.GetData k).1 = (mapFind iqs.inquiries k).getD default ∧
      (ass.OnMessage { priceStream := some stream }).map
          (fun s => (s.GetData stream.GetProduct.GetTicker).1) =
        some { priceStream := some stream } ∧
      (poss.AddTrade trade).2 =
        fanOut poss.listeners ((poss.AddTrade trade).1.GetData trade.product.GetTicker).1 ∧
      (∃ w, InquiryService.ingest 2 iqs q = some w ∧
        (w.service.GetData q.GetInquiryId).1 =
          (match q.GetState with
            | InquiryState.RECEIVED => { q with price := 100, state := InquiryState.DONE }
            | _ => q)) ∧
      (AlgoStreamingService.new.GetData k).1 = { priceStream := none } ∧
      (AlgoExecutionService.new.GetData k).1 = { executionOrder := none } ∧
      (PositionService.new.GetData k).1 = { product := default, positions := [] } ∧
      (PositionService.new.GetData k).1.GetAggregatePosition = 0 ∧
      (InquiryService.new.GetData k).1 =
        { inquiryId := "", product := default, side := Side.BUY, quantity := 0, price := 0,
          state := InquiryState.RECEIVED } ∧
      (default : AlgoStream) = { priceStream := none } ∧
      (default : AlgoExecution) = { executionOrder := none } ∧
      (default : Position) = { product := default, positions := [] } ∧
      (default : Position).GetAggregatePosition = 0 ∧
      (default : Inquiry) =
        { inquiryId := "", product := default, side := Side.BUY, quantity := 0, price := 0,
          state := InquiryState.RECEIVED } ∧
      (default : Bond) =
        { productId := "", productType := ProductType.IRSWAP, bondIdType := BondIdType.CUSIP,
          ticker := "", coupon := 0, maturityDate := "" } ∧
      (default : Price) = { product := default, mid := 0, bidOfferSpread := 0 } ∧
      (default : OrderBook) = { product := default, bidStack := [], offerStack := [] } ∧
      (default : Trade) =
        { product := default, tradeId := "", price := 0, book := "", quantity := 0,
          side := Side.BUY } ∧
      (default : ExecutionOrder) =
        { product := default, side := PricingSide.BID, orderId := "",
          orderType := OrderType.FOK, price := 0, visibleQuantity := 0, hiddenQuantity := 0,
          parentOrderId := "", isChildOrder := false, market := some Market.BROKERTEC } ∧
      (default : PriceStream) =
        { product := default,
          bidOrder := { price := 0, visibleQuantity := 0, hiddenQuantity := 0,
                        side := PricingSide.BID },
          offerOrder := { price := 0, visibleQuantity := 0, hiddenQuantity := 0,
                          side := PricingSide.BID } } ∧
      (rs.GetData k).1 = PV01.new (GetBond k) (rs.storedPV01 k) 1 := by
  refine ⟨?_, ?_, ?_, ?_, ?_, ?_, ?_, mapIndex_fst _ _, mapIndex_fst _ _, mapIndex_fst _ _,
    mapIndex_fst _ _, mapIndex_fst _ _, mapIndex_fst _ _, mapIndex_fst _ _, mapIndex_fst _ _,
    mapIndex_fst _ _, mapIndex_fst _ _, mapIndex_fst _ _, ?_, AddTrade_calls poss trade, ?_,
    rfl, rfl, rfl, rfl, rfl, rfl, rfl, rfl, rfl, rfl, rfl, rfl, rfl, rfl, rfl, rfl, ?_⟩
  · exact mapIndex_foldl_store (fun s v => (PricingService.OnMessage s v).1)
      (fun s => s.prices) (fun v => v.GetProduct.GetTicker) (fun _ _ => rfl)
      PricingService.new rfl prices k
  · exact mapIndex_foldl_store (fun s v => (MarketDataService.OnMessage s v).1)
      (fun s => s.orderBooks) (fun v => v.product.GetTicker) (fun _ _ => rfl)
      MarketDataService.new rfl books k
  · exact mapIndex_foldl_store (fun s v => (TradeBookingService.BookTrade s v).1)
      (fun s => s.trades) (fun v => v.tradeId) (fun _ _ => rfl)
      TradeBookingService.new rfl trades k
  · exact mapIndex_foldl_store ExecutionService.OnMessage
      (fun s => s.executionOrders) (fun v => v.GetProduct.GetTicker) (fun _ _ => rfl)
      ExecutionService.new rfl orders k
  · exact mapIndex_foldl_store StreamingService.OnMessage
      (fun s => s.priceStreams) (fun v => v.GetProduct.GetTicker) (fun _ _ => rfl)
      StreamingService.new rfl streams k
  · exact mapIndex_foldl_store GUIService.OnMessage
      (fun s => s.prices) (fun v => v.GetProduct.GetTicker) (fun _ _ => rfl)
      (GUIService.new d) rfl guiPrices k
  · exact mapIndex_foldl_store (HistoricalDataService.OnMessage ticker)
      (fun s => s.Datas) ticker (fun _ _ => rfl)
      (HistoricalDataService.new file) rfl records k
  · simp [AlgoStreamingService.OnMessage, AlgoStream.GetPriceStream,
      AlgoStreamingService.GetData, mapIndex_fst, mapFind_mapAssign]
  · obtain ⟨w, hw, hmap, _, _⟩ := ingest_outcome 0 iqs q
    refine ⟨w, hw, ?_⟩
    simp only [InquiryService.GetData, mapIndex_fst, hmap q.GetInquiryId, if_true,
      Option.getD_some]
  · simp only [RiskService.GetData, RiskService.storedPV01, mapIndex_fst]
    rfl

/-- C27 as stated fails for the three services whose `OnMessage` has an empty
body: after `OnMessage` of a T2Y position, a T2Y execution or a T2Y risk record
on a fresh service, `GetData("T2Y")` returns the value-initialised position,
the null execution and a record of pv01 0, not the value passed. -/
theorem empty_onMessage_stores_nothing :
    ((PositionService.new.OnMessage positionT2Y).GetData "T2Y").1.positions = [] ∧
      positionT2Y.positions = [("TRSY1", 1000)] ∧
      ((AlgoExecutionService.new.OnMessage sampleExecution).GetData "T2Y").1.GetExecutionOrder =
        none ∧
      sampleExecution.GetExecutionOrder.isSome = true ∧
      ((RiskService.new.OnMessage (PV01.new (GetBond "T2Y") (1879 / 100) 1000)).GetData
        "T2Y").1.GetPV01 = 0 := by
  refine ⟨rfl, rfl, rfl, rfl, ?_⟩
  simp [RiskService.OnMessage, RiskService.GetData, RiskService.new, PV01.GetPV01, PV01.new,
    mapIndex_fst, mapFind]
  rfl

/-- C27, as the code has it: in `PricingService`, `AlgoStreamingService` (for
an `AlgoStream` that points to a stream), `StreamingService`,
`MarketDataService`, `ExecutionService` and `TradeBookingService`, after
`OnMessage(v)` `GetData` of `v`'s key returns `v`; `OnMessage` of
`AlgoExecutionService`, `PositionService` and `RiskService` leaves the service
as it was. -/
theorem onMessage_stores_where_it_has_a_body (s1 : PricingService) (p : Price)
    (s2 : AlgoStreamingService) (a : AlgoStream) (ps : PriceStream)
    (h : a.GetPriceStream = some ps)
    (s3 : StreamingService) (st : PriceStream) (s4 : MarketDataService) (ob : OrderBook)
    (s5 : ExecutionService) (e : ExecutionOrder) (s6 : TradeBookingService) (t : Trade)
    (s7 : AlgoExecutionService) (ae : AlgoExecution) (s8 : PositionService) (pos : Position)
    (s9 : RiskService) (v : PV01 Bond) :
    ((s1.OnMessage p).1.GetData p.GetProduct.GetTicker).1 = p ∧
      (∃ s2', s2.OnMessage a = some s2' ∧ (s2'.GetData ps.GetProduct.GetTicker).1 = a) ∧
      ((s3.OnMessage st).GetData st.GetProduct.GetTicker).1 = st ∧
      ((s4.OnMessage ob).1.GetData ob.product.GetTicker).1 = ob ∧
      ((s5.OnMessage e).GetData e.GetProduct.GetTicker).1 = e ∧
      ((s6.OnMessage t).1.GetData t.tradeId).1 = t ∧
      s7.OnMessage ae = s7 ∧
      s8.OnMessage pos = s8 ∧
      s9.OnMessage v = s9 := by
  refine ⟨?_, ?_, ?_, ?_, ?_, ?_, rfl, rfl, rfl⟩
  · simp [PricingService.OnMessage, PricingService.GetData, mapIndex_fst, mapFind_mapAssign]
  · refine ⟨{ s2 with algoStreams := mapAssign s2.algoStreams ps.GetProduct.GetTicker a },
      by simp only [AlgoStreamingService.OnMessage, h], ?_⟩
    simp [AlgoStreamingService.GetData, mapIndex_fst, mapFind_mapAssign]
  · simp [StreamingService.OnMessage, StreamingService.GetData, mapIndex_fst,
      mapFind_mapAssign]
  · simp [MarketDataService.OnMessage, MarketDataService.GetData, mapIndex_fst,
      mapFind_mapAssign]
  · simp [ExecutionService.OnMessage, ExecutionService.GetData, mapIndex_fst,
      mapFind_mapAssign]
  · simp [TradeBookingService.OnMessage, TradeBookingService.GetData, mapIndex_fst,
      mapFind_mapAssign]

/-- C27 amended, at fresh services and the sample values. -/
theorem onMessage_stores_where_it_has_a_body_witness :
    ((PricingService.new.OnMessage samplePrice).1.GetData
        samplePrice.GetProduct.GetTicker).1 = samplePrice ∧
      (∃ s2', AlgoStreamingService.new.OnMessage { priceStream := some sampleStream } =
          some s2' ∧
        (s2'.GetData sampleStream.GetProduct.GetTicker).1 =
          { priceStream := some sampleStream }) ∧
      ((StreamingService.new.OnMessage sampleStream).GetData
        sampleStream.GetProduct.GetTicker).1 = sampleStream ∧
      ((MarketDataService.new.OnMessage ladderBook).1.GetData
        ladderBook.product.GetTicker).1 = ladderBook ∧
      ((ExecutionService.new.OnMessage default).GetData
        (default : ExecutionOrder).GetProduct.GetTicker).1 = default ∧
      ((TradeBookingService.new.OnMessage sampleTrade).1.GetData sampleTrade.tradeId).1 =
        sampleTrade ∧
      AlgoExecutionService.new.OnMessage sampleExecution = AlgoExecutionService.new ∧
      PositionService.new.OnMessage positionT2Y = PositionService.new ∧
      RiskService.new.OnMessage (PV01.new (GetBond "T2Y") (1879 / 100) 1000) =
        RiskService.new :=
  onMessage_stores_where_it_has_a_body PricingService.new samplePrice AlgoStreamingService.new
    { priceStream := some sampleStream } sampleStream rfl StreamingService.new sampleStream
    MarketDataService.new ladderBook ExecutionService.new default TradeBookingService.new
    sampleTrade AlgoExecutionService.new sampleExecution PositionService.new positionT2Y
    RiskService.new (PV01.new (GetBond "T2Y") (1879 / 100) 1000)

/-- C28 as stated fails on the quantity: after `AddPosition` of a T2Y position
of aggregate 1000 on a fresh service, the record delivered has quantity 1000
but `GetData("T2Y")` returns quantity 1. -/
theorem risk_getData_quantity_is_one :
    positionT2Y.GetAggregatePosition = 1000 ∧
      (RiskService.new.AddPosition positionT2Y).emitted.GetQuantity = 1000 ∧
      ((RiskService.new.AddPosition positionT2Y).service.GetData "T2Y").1.GetQuantity = 1 := by
  refine ⟨by decide, ?_, rfl⟩
  rw [AddPosition_emitted]
  decide

/-- C28, as the code has it: after `AddPosition(p)` for a position of ticker
`t`, `GetData(t)` returns a new `PV01` made of the reference bond of `t`, the
PV01 stored for `t`, which is `GetPV01(t)` times `p`'s aggregate position as in
the record delivered to the listeners, and quantity 1. -/
theorem risk_getData_returns_stored_pv01 (s : RiskService) (p : Position) :
    ((s.AddPosition p).service.GetData p.product.GetTicker).1 =
        PV01.new (GetBond p.product.GetTicker)
          (GetPV01 p.product.GetTicker * p.GetAggregatePosition) 1 ∧
      ((s.AddPosition p).service.GetData p.product.GetTicker).1.GetPV01 =
        (s.AddPosition p).emitted.GetPV01 ∧
      ((s.AddPosition p).service.GetData p.product.GetTicker).1.GetQuantity = 1 := by
  have hst := AddPosition_stored s p p.product.GetTicker
  simp only [if_true, RiskService.storedPV01] at hst
  refine ⟨?_, ?_, rfl⟩
  · simp only [RiskService.GetData, mapIndex_fst]
    have hd : (default : ℚ) = 0 := rfl
    rw [hd, hst]
  · rw [AddPosition_emitted]
    simp only [RiskService.GetData, mapIndex_fst, PV01.GetPV01, PV01.new]
    have hd : (default : ℚ) = 0 := rfl
    rw [hd, hst]

/-! ## The handle notation of prices -/

/-- C29 as stated fails from `n = 2 ^ 31` on: for `x = 2147483648 + 132/256`
the conversion of `floor(x)` to `int` in `PriceDTS` is undefined, so there is
no string from which `PriceSTD` could read `x` back. -/
theorem price_beyond_int_has_no_handle :
    PriceDTS (((2147483648 : Nat) : ℚ) + ((132 : Nat) : ℚ) / 256) = none :=
  PriceDTS_overflow 2147483648 132 (by norm_num) (by norm_num)

/-- C29, as the code has it: for every price `x = n + k/256` with `n < 2 ^ 31`
(the range of the `int` that holds the whole part) and `k < 256`, `PriceDTS x`
is a string `s` and `PriceSTD s` returns `x`. When `k mod 8 = 4` the string
ends in `+`, and otherwise it does not. -/
theorem price_fraction_round_trip (n k : Nat) (hn : n < 2 ^ 31) (hk : k < 256) :
    ∃ s, PriceDTS ((n : ℚ) + (k : ℚ) / 256) = some s ∧
      PriceSTD s = Outcome.value ((n : ℚ) + (k : ℚ) / 256) ∧
      (if k % 8 = 4 then s.data.getLast? = some '+' else s.data.getLast? ≠ some '+') := by
  obtain ⟨s, hs, hread⟩ := PriceSTD_PriceDTS n k hn hk
  refine ⟨s, hs, hread, ?_⟩
  rw [PriceDTS_eq n k hn hk] at hs
  simp only [Option.some.injEq] at hs
  rw [← hs]
  by_cases h4 : k % 8 = 4
  · simp only [h4, if_true]
    exact getLast?_append_singleton _ '+'
  · have hl := last_spec ⟨k % 8, Nat.mod_lt _ (by omega)⟩
    obtain ⟨c, hc⟩ := List.length_eq_one.1 hl.1
    simp only [h4, if_false] at hc ⊢
    rw [hc, getLast?_append_singleton]
    intro hcp
    have hd := (toDigits_spec (k % 8)).2.2
    rw [hc] at hd
    simp only [Option.some.injEq] at hcp
    have hplus : digitsValue 0 ['+'] = none := by decide
    rw [hcp, hplus] at hd
    exact Option.noConfusion hd

/-- C29 at `100 + 132/256`, whose handle is `100-16+`. -/
theorem price_fraction_round_trip_witness :
    ∃ s, PriceDTS (((100 : Nat) : ℚ) + ((132 : Nat) : ℚ) / 256) = some s ∧
      PriceSTD s = Outcome.value (((100 : Nat) : ℚ) + ((132 : Nat) : ℚ) / 256) ∧
      (if 132 % 8 = 4 then s.data.getLast? = some '+' else s.data.getLast? ≠ some '+') :=
  price_fraction_round_trip 100 132 (by norm_num) (by decide)

/-- C31, the code: on the services as `main` constructs and wires them, the
ingestion of an order book is undefined, whatever the book. `MarketDataService`
stores the book and calls the listener of `AlgoExecutionService`, whose
`AlgoExecuteOrder` reads the destroyed `BidOffer` behind the reference of
`GetBestBidOffer`: no execution order with side BID and market CME is
produced, no trade is booked and no position is changed. So it is for
`ladderBook`, whose best offer is 1/128 above its best bid. -/
theorem order_book_ingestion_is_undefined (ob : OrderBook) (newId : String) :
    (TradingSystem.wired.MDS.OnMessage ob).2 = [(listenerAES, ob)] ∧
      TradingSystem.wired.ingestOrderBook ob newId = none ∧
      TradingSystem.wired.ingestOrderBook ladderBook "E1" = none := by
  have h : ∀ (b : OrderBook) (i : String), TradingSystem.wired.ingestOrderBook b i = none := by
    intro b i
    simp [TradingSystem.ingestOrderBook, TradingSystem.wired, MarketDataService.OnMessage,
      MarketDataService.AddListener, MarketDataService.new, fanOut,
      TradingSystem.processOrderBook, AlgoExecuteOrder_undefined]
  exact ⟨rfl, h ob newId, h _ _⟩

/-! ## GUI: the throttle and the first hundred records -/

/-- C32: with the clock as an input of each call, for every listener, service
and sequence of calls of `GUIListener.ProcessAdd`, two updates passed to
`GUIService.OnMessage` one after the other have clock values at least the
throttle apart; and a further update whose clock value is less than the
throttle after the last one passed on is dropped: the call leaves the listener
and the service as they are and does not call `OnMessage`. -/
theorem gui_throttle_spaces_forwarded_updates (l : GUIListener) (guis : GUIService)
    (updates : List (Price × Int)) (data : Price) (now : Int) :
    List.Chain' (fun a b : Price × Int => b.2 - a.2 ≥ guis.GetThrottle)
        (l.processAll guis updates).2.2 ∧
      (∀ u ∈ (l.processAll guis updates).2.2.getLast?, now - u.2 < guis.GetThrottle →
        (l.processAll guis updates).1.ProcessAdd (l.processAll guis updates).2.1 data now =
          { listener := (l.processAll guis updates).1,
            service := (l.processAll guis updates).2.1, forwarded := false }) := by
  obtain ⟨h1, _, h3, h4⟩ := processAll_spec updates l guis
  refine ⟨h3, ?_⟩
  intro u hu hlate
  simp only [Option.mem_def] at hu
  rw [hu] at h4
  simp only [Option.map_some', Option.getD_some] at h4
  have hno : ¬ (now - (l.processAll guis updates).1.time ≥
      (l.processAll guis updates).2.1.throttle) := by
    rw [h4, h1]
    simp only [GUIService.GetThrottle] at hlate
    omega
  simp only [GUIListener.ProcessAdd, GUIService.GetThrottle, hno, if_false]

/-- C33: on a service as its constructor leaves it, after `OnMessage` was
called with each of the prices in turn, the records `GUIConnector.Publish` has
written are the first 100 of them, in order; their number and the counter are
the minimum of the number of prices and 100; and once 100 prices were accepted,
a further `OnMessage` leaves the connector as it is. -/
theorem gui_writes_the_first_hundred_updates (d : Int) (prices : List Price) (p : Price) :
    ((GUIService.new d).onMessages prices).connector.written = prices.take 100 ∧
      ((GUIService.new d).onMessages prices).connector.written.length =
        min prices.length 100 ∧
      ((GUIService.new d).onMessages prices).connector.cnt =
        ((min prices.length 100 : Nat) : Int) ∧
      ((GUIService.new d).onMessages prices).connector.cnt ≤ 100 ∧
      (100 ≤ prices.length →
        (((GUIService.new d).onMessages prices).OnMessage p).connector =
          ((GUIService.new d).onMessages prices).connector) := by
  obtain ⟨h1, h2⟩ := onMessages_connector prices (GUIService.new d) 0 rfl (by omega)
  have he : (GUIService.new d).connector.written = [] := rfl
  rw [he] at h1
  simp only [List.nil_append, Nat.sub_zero, Nat.zero_add] at h1 h2
  refine ⟨h1, ?_, h2, ?_, ?_⟩
  · rw [h1, List.length_take]
    exact Nat.min_comm _ _
  · rw [h2]
    have : min prices.length 100 ≤ 100 := Nat.min_le_right _ _
    exact_mod_cast this
  · intro hlen
    have hc : ((GUIService.new d).onMessages prices).connector.cnt = 100 := by
      rw [h2, Nat.min_eq_right hlen]
      rfl
    simp [GUIService.OnMessage, GUIConnector.Publish, hc]

/-! ## Position: the product of a position comes from the reference table -/

/-- C34, as the code has it: on a service that only `AddTrade` has written,
the position delivered to the listeners is the one `GetData` returns for the
trade's ticker `t`, and its product is `GetBond t`: its ticker is `t` when `t`
is one of the seven tickers of the reference table and the empty ticker of
`Bond()` otherwise, and `RiskService.AddPosition` stores the PV01 of the
position under that ticker. -/
theorem position_product_is_the_reference_bond (ls : List ListenerId) (trades : List Trade)
    (tr : Trade) (rs : RiskService) :
    (((PositionService.addTrades { positions := [], listeners := ls } trades).AddTrade tr).2 =
        fanOut ls
          ((((PositionService.addTrades { positions := [], listeners := ls } trades).AddTrade
            tr).1.GetData tr.product.GetTicker).1)) ∧
      ((((PositionService.addTrades { positions := [], listeners := ls } trades).AddTrade
        tr).1.GetData tr.product.GetTicker).1.product = GetBond tr.product.GetTicker) ∧
      ((((PositionService.addTrades { positions := [], listeners := ls } trades).AddTrade
        tr).1.GetData tr.product.GetTicker).1.product.GetTicker =
          if tr.product.GetTicker ∈ ["T2Y", "T3Y", "T5Y", "T7Y", "T10Y", "T20Y", "T30Y"]
          then tr.product.GetTicker else "") ∧
      ((rs.AddPosition
          (((PositionService.addTrades { positions := [], listeners := ls } trades).AddTrade
            tr).1.GetData tr.product.GetTicker).1).service.storedPV01
            (GetBond tr.product.GetTicker).GetTicker =
        GetPV01 (GetBond tr.product.GetTicker).GetTicker *
          ((((PositionService.addTrades { positions := [], listeners := ls } trades).AddTrade
            tr).1.GetData tr.product.GetTicker).1.GetAggregatePosition : Int)) := by
  have hcalls := AddTrade_calls
    (PositionService.addTrades { positions := [], listeners := ls } trades) tr
  rw [addTrades_listeners] at hcalls
  have hinv := AddTrade_product
    (PositionService.addTrades { positions := [], listeners := ls } trades) tr
    (addTrades_product trades { positions := [], listeners := ls }
      (by intro k p hp; exact absurd hp (by simp [mapFind])))
  have hfind := mapFind_AddTrade
    (PositionService.addTrades { positions := [], listeners := ls } trades) tr
    tr.product.GetTicker
  simp only [if_true] at hfind
  have hprod : (((PositionService.addTrades { positions := [], listeners := ls }
      trades).AddTrade tr).1.GetData tr.product.GetTicker).1.product =
      GetBond tr.product.GetTicker := by
    apply hinv tr.product.GetTicker
    simp only [PositionService.GetData, mapIndex_fst, hfind, Option.getD_some]
  refine ⟨hcalls, hprod, ?_, ?_⟩
  · rw [hprod, GetBond_ticker]
  · rw [AddPosition_stored, hprod, if_pos rfl]

/-- C34 fails for a ticker outside the reference table: the trade `unknownTrade`
has ticker T1Y, and on a fresh service the position delivered to the listener
and returned by `GetData "T1Y"` has the empty ticker; a fresh `RiskService`
then stores the PV01 of that position under the empty ticker and nothing under
T1Y. -/
theorem unknown_ticker_position_has_empty_ticker :
    unknownTrade.product.GetTicker = "T1Y" ∧
      ((PositionService.new.AddListener listenerRS).AddTrade unknownTrade).2.map
        (fun c => c.2.product.GetTicker) = [""] ∧
      ((((PositionService.new.AddListener listenerRS).AddTrade unknownTrade).1.GetData
        "T1Y").1.product.GetTicker = "") ∧
      mapFind (RiskService.new.AddPosition
        ((((PositionService.new.AddListener listenerRS).AddTrade unknownTrade).1.GetData
          "T1Y").1)).service.pv01s "T1Y" = none ∧
      (RiskService.new.AddPosition
        ((((PositionService.new.AddListener listenerRS).AddTrade unknownTrade).1.GetData
          "T1Y").1)).service.storedPV01 "" = 1000000 := by
  refine ⟨rfl, rfl, rfl, rfl, ?_⟩
  rw [AddPosition_stored]
  simp [GetPV01]
  rfl

/-! ## Inquiry: ingestions that only store, and the depth of the cascade -/

/-- C35: the ingestion of an inquiry in state DONE, REJECTED or
CUSTOMER_REJECTED, from outside the service and with any depth bound of at
least 1, returns; afterwards `GetData` returns that inquiry, unchanged, for its
id, whatever was stored under it; no listener was called; the caller's object
and the listeners are as before; and every other key of the map holds what it
held. -/
theorem closed_inquiry_is_only_stored (fuel : Nat) (s : InquiryService) (q : Inquiry)
    (h : q.GetState = InquiryState.DONE ∨ q.GetState = InquiryState.REJECTED ∨
      q.GetState = InquiryState.CUSTOMER_REJECTED) :
    ∃ w, InquiryService.ingest (fuel + 1) s q = some w ∧
      (w.service.GetData q.GetInquiryId).1 = q ∧
      w.calls = [] ∧ w.caller = q ∧ w.service.listeners = s.listeners ∧
      ∀ k, k ≠ q.GetInquiryId → mapFind w.service.inquiries k = mapFind s.inquiries k := by
  have h1 : q.GetState ≠ InquiryState.RECEIVED := by
    rcases h with h | h | h <;> simp [h]
  have h2 : q.GetState ≠ InquiryState.QUOTED := by
    rcases h with h | h | h <;> simp [h]
  refine ⟨_, ingest_other fuel s q h1 h2, ?_, rfl, rfl, rfl, ?_⟩
  · simp [InquiryService.GetData, mapIndex_fst, mapFind_mapAssign]
  · intro k hk
    simp only [mapFind_mapAssign]
    rw [if_neg (fun e => hk e.symm)]

/-- C35 at an inquiry in state REJECTED that carries the id of the inquiry
`doneService` holds. -/
theorem closed_inquiry_is_only_stored_witness :
    ∃ w, InquiryService.ingest (0 + 1) doneService
        { sampleInquiry with state := InquiryState.REJECTED } = some w ∧
      (w.service.GetData
        (Inquiry.GetInquiryId { sampleInquiry with state := InquiryState.REJECTED })).1 =
          { sampleInquiry with state := InquiryState.REJECTED } ∧
      w.calls = [] ∧ w.caller = { sampleInquiry with state := InquiryState.REJECTED } ∧
      w.service.listeners = doneService.listeners ∧
      ∀ k, k ≠ Inquiry.GetInquiryId { sampleInquiry with state := InquiryState.REJECTED } →
        mapFind w.service.inquiries k = mapFind doneService.inquiries k :=
  closed_inquiry_is_only_stored 0 doneService
    { sampleInquiry with state := InquiryState.REJECTED } (Or.inr (Or.inl rfl))

/-- C36: `OnMessage` returns for every memory and every inquiry referred to,
as soon as the depth bound is 2, and a larger bound gives the same result. When
the inquiry is in state RECEIVED, depth 1 is not enough, and with any bound the
result of the call is the result of one nested call of `OnMessage`, made on the
element stored under the inquiry's id, which is then in state QUOTED; that
nested call returns with depth 1. When the inquiry is in any other state the
call returns with depth 1: it makes no nested call. -/
theorem inquiry_onMessage_returns_within_depth_two (n : Nat) (w : InquiryWorld)
    (data : InquiryRef) :
    (InquiryService.OnMessage (n + 2) w data).isSome = true ∧
      InquiryService.OnMessage (n + 2) w data = InquiryService.OnMessage 2 w data ∧
      ((w.read data).GetState = InquiryState.RECEIVED →
        InquiryService.OnMessage 1 w data = none ∧
        ∃ w1, (∀ m, InquiryService.OnMessage (m + 1) w data =
            InquiryService.OnMessage m w1 (InquiryRef.stored (w.read data).GetInquiryId)) ∧
          (w1.read (InquiryRef.stored (w.read data).GetInquiryId)).GetState =
            InquiryState.QUOTED ∧
          (InquiryService.OnMessage 1 w1
            (InquiryRef.stored (w.read data).GetInquiryId)).isSome = true) ∧
      ((w.read data).GetState ≠ InquiryState.RECEIVED →
        (InquiryService.OnMessage 1 w data).isSome = true) := by
  refine ⟨(OnMessage_depth_two n w data).1, (OnMessage_depth_two n w data).2, ?_, ?_⟩
  · intro h
    refine ⟨?_, _, fun m => OnMessage_received_step m w data h, ?_, ?_⟩
    · rw [OnMessage_received_step 0 w data h]
      rfl
    · simp [InquiryWorld.read, mapIndex_fst, mapFind_mapAssign, Inquiry.GetState,
        Inquiry.GetInquiryId]
    · exact (OnMessage_not_received 0 _ _ (by
        simp [InquiryWorld.read, mapIndex_fst, mapFind_mapAssign, Inquiry.GetState,
          Inquiry.GetInquiryId])).1
  · intro h
    exact (OnMessage_not_received 0 w data h).1

/-! ## MarketData: the reference returned is never to a live object -/

/-- C37, the code: for no order book does `GetBestBidOffer` return a reference
to a live `BidOffer`. With non-empty stacks, as in `tieBook`, the indexed
reads are in range, but the object returned by reference is the temporary of
the `return` statement, destroyed when the method returns: the caller's read
of the bid and offer orders is a read of freed storage, not of entries of the
stacks. -/
theorem best_bid_offer_reference_is_never_alive (ob : OrderBook) :
    ob.GetBestBidOffer.map Reference.alive ≠ some true ∧
      tieBook.bidStack ≠ [] ∧ tieBook.offerStack ≠ [] ∧
      tieBook.GetBestBidOffer.map Reference.alive = some false := by
  refine ⟨?_, by simp [tieBook], by simp [tieBook], ?_⟩
  · cases h : ob.GetBestBidOffer with
    | none => simp
    | some r => simp [GetBestBidOffer_alive ob r h]
  · rw [tieBook_best]
    rfl

/-! ## Position: the order of booking does not matter -/

/-- C38: for two sequences of trades that are permutations of each other,
`AddTrade` over either, from a fresh service, gives the same quantity for
every ticker and every book, and the same aggregate position for every
ticker. -/
theorem positions_do_not_depend_on_booking_order (trades1 trades2 : List Trade)
    (hperm : trades1.Perm trades2) (t b : String) :
    (((PositionService.new.addTrades trades1).GetData t).1.GetPosition b).1 =
        (((PositionService.new.addTrades trades2).GetData t).1.GetPosition b).1 ∧
      ((PositionService.new.addTrades trades1).GetData t).1.GetAggregatePosition =
        ((PositionService.new.addTrades trades2).GetData t).1.GetAggregatePosition := by
  rw [addTrades_position, addTrades_position, addTrades_aggregate, addTrades_aggregate]
  refine ⟨?_, ?_⟩
  · rw [((hperm.filter _).map signedQuantity).sum_eq]
  · rw [((hperm.filter _).map signedQuantity).sum_eq]

/-- C38 at two trades booked in either order. -/
theorem positions_do_not_depend_on_booking_order_witness :
    (((PositionService.new.addTrades [sampleTrade, unknownTrade]).GetData "T2Y").1.GetPosition
        "TRSY1").1 =
        (((PositionService.new.addTrades [unknownTrade, sampleTrade]).GetData
          "T2Y").1.GetPosition "TRSY1").1 ∧
      ((PositionService.new.addTrades [sampleTrade, unknownTrade]).GetData
        "T2Y").1.GetAggregatePosition =
        ((PositionService.new.addTrades [unknownTrade, sampleTrade]).GetData
          "T2Y").1.GetAggregatePosition :=
  positions_do_not_depend_on_booking_order [sampleTrade, unknownTrade]
    [unknownTrade, sampleTrade] (List.Perm.swap _ _ _) "T2Y" "TRSY1"

/-! ## The price feed: mid and spread give back the bid and the offer -/

/-- C39: for a line of the price feed whose second and third blocks `PriceSTD`
reads as the bid price `b` and the offer price `o`, the connector builds a
price with mid `(b + o) / 2` and spread `o - b`, and `PublishPrice` on that
price returns a stream whose bid order has price `b` and whose offer order has
price `o`, the prices being exact rationals. -/
theorem price_feed_encoding_is_undone (s : AlgoStreamingService) (ticker sb so : String)
    (more : List String) (b o : ℚ) (hb : PriceSTD sb = Outcome.value b)
    (ho : PriceSTD so = Outcome.value o) :
    ∃ p r ps, PSConnector.buildPrice (ticker :: sb :: so :: more) = Outcome.value p ∧
      p.GetMid = (b + o) / 2 ∧ p.GetBidOfferSpread = o - b ∧
      s.PublishPrice p = some r ∧ r.generated.GetPriceStream = some ps ∧
      ps.GetBidOrder.GetPrice = b ∧ ps.GetOfferOrder.GetPrice = o := by
  refine ⟨{ product := GetBond ticker, mid := (b + o) / 2, bidOfferSpread := o - b }, _, _,
    ?_, rfl, rfl, PublishPrice_eq s _, rfl, ?_, ?_⟩
  · simp [PSConnector.buildPrice, hb, ho]
  · show (b + o) / 2 - (o - b) / 2 = b
    ring
  · show (b + o) / 2 + (o - b) / 2 = o
    ring

/-- C39 at the line `T2Y,99-160,99-162`. -/
theorem price_feed_encoding_is_undone_witness :
    ∃ p r ps, PSConnector.buildPrice ("T2Y" :: "99-160" :: "99-162" :: []) =
        Outcome.value p ∧
      p.GetMid = ((99 + 1 / 2) + (99 + 65 / 128)) / 2 ∧
      p.GetBidOfferSpread = (99 + 65 / 128) - (99 + 1 / 2) ∧
      AlgoStreamingService.new.PublishPrice p = some r ∧
      r.generated.GetPriceStream = some ps ∧
      ps.GetBidOrder.GetPrice = 99 + 1 / 2 ∧ ps.GetOfferOrder.GetPrice = 99 + 65 / 128 :=
  price_feed_encoding_is_undone AlgoStreamingService.new "T2Y" "99-160" "99-162" []
    (99 + 1 / 2) (99 + 65 / 128) PriceSTD_sample_bid PriceSTD_sample_offer

/-! ## The handle notation: canonical strings -/

/-- C40 as stated fails from `N = 2 ^ 31` on: the canonical string
`3000000000-000` is read by `PriceSTD` as 3000000000, for which `PriceDTS` has
no string, the conversion of the whole part to `int` being undefined. -/
theorem canonical_handle_beyond_int_is_not_printed_back :
    PriceSTD "3000000000-000" = Outcome.value 3000000000 ∧
      PriceDTS 3000000000 = none := by
  constructor
  · have hs : ("3000000000-000" : String) =
        String.mk (['3', '0', '0', '0', '0', '0', '0', '0', '0', '0'] ++ ['-'] ++ ['0', '0'] ++
          ['0']) := by decide
    rw [hs, PriceSTD_fields _ ['0', '0'] ['0'] (by decide) rfl rfl,
      stod_of_digitsValue ['3', '0', '0', '0', '0', '0', '0', '0', '0', '0'] 3000000000
        (by simp) (by decide) (by norm_num),
      stod_of_digitsValue ['0', '0'] 0 (by simp) (by decide) (by norm_num),
      stod_of_digitsValue (if ['0'] = ['+'] then ['4'] else ['0']) 0 (by decide) (by decide)
        (by norm_num)]
    simp only [Outcome.value.injEq]
    norm_num
  · have h := PriceDTS_overflow 3000000000 0 (by norm_num) (by norm_num)
    simpa using h

/-- C40, as the code has it: a string made of a non-empty run `ns` of decimal
digits without a leading zero (the run `0` apart) and of value `N < 2 ^ 31`, a
`-`, two decimal digits `f1 f2` of value at most 31 and a last character `d`
among 0, 1, 2, 3, +, 5, 6, 7 is read by `PriceSTD`, and `PriceDTS` prints the
number read as that same string; and for every `n < 2 ^ 31` and `k < 256`
`PriceDTS (n + k/256)` is a string of that shape, whose run of digits has the
value `n`. -/
theorem canonical_handle_round_trip (ns : List Char) (f1 f2 d : Char) (N n k : Nat)
    (hne : ns ≠ []) (hN : digitsValue 0 ns = some N) (hNb : N < 2 ^ 31)
    (hlead : ns.head? = some '0' → ns = ['0'])
    (h1 : f1.isDigit = true) (h2 : f2.isDigit = true)
    (hff : 10 * (f1.toNat - '0'.toNat) + (f2.toNat - '0'.toNat) ≤ 31)
    (hd : d ∈ ['0', '1', '2', '3', '+', '5', '6', '7']) (hn : n < 2 ^ 31) (hk : k < 256) :
    (∃ x, PriceSTD (String.mk (ns ++ ['-', f1, f2, d])) = Outcome.value x ∧
        PriceDTS x = some (String.mk (ns ++ ['-', f1, f2, d]))) ∧
      ∃ ms g1 g2 e, PriceDTS ((n : ℚ) + (k : ℚ) / 256) =
          some (String.mk (ms ++ ['-', g1, g2, e])) ∧
        ms ≠ [] ∧ digitsValue 0 ms = some n ∧ (ms.head? = some '0' → ms = ['0']) ∧
        g1.isDigit = true ∧ g2.isDigit = true ∧
        10 * (g1.toNat - '0'.toNat) + (g2.toNat - '0'.toNat) ≤ 31 ∧
        e ∈ ['0', '1', '2', '3', '+', '5', '6', '7'] := by
  constructor
  · have hns : ∀ c ∈ ns, c.isDigit = true := digitsValue_isDigit ns 0 N hN
    obtain ⟨N', hN', htd⟩ := toDigits_digitsValue ns hne hns hlead
    rw [hN] at hN'
    simp only [Option.some.injEq] at hN'
    subst hN'
    obtain ⟨ha, hca⟩ := isDigit_digitChar f1 h1
    obtain ⟨hb, hcb⟩ := isDigit_digitChar f2 h2
    obtain ⟨hD8, hDval, hDprint⟩ := last_char_value d hd
    generalize hA : f1.toNat - '0'.toNat = a at ha hca hff
    generalize hB : f2.toNat - '0'.toNat = b at hb hcb hff
    generalize hDD : (if d = '+' then 4 else d.toNat - '0'.toNat) = D at hD8 hDval hDprint
    have hminus : ∀ x ∈ ns, x ≠ '-' := fun x hx => isDigit_ne_minus x (hns x hx)
    have hsplit : ns ++ ['-', f1, f2, d] = ns ++ ['-'] ++ [f1, f2] ++ [d] := by simp
    have hFF : digitsValue 0 [f1, f2] = some (10 * a + b) := by
      simp only [digitsValue, h1, h2, if_true, Option.some.injEq, hA, hB]
      ring
    have hDne : (if [d] = ['+'] then ['4'] else [d]) ≠ [] := by
      split <;> simp
    have hread : PriceSTD (String.mk (ns ++ ['-', f1, f2, d])) =
        Outcome.value ((N : ℚ) + ((8 * (10 * a + b) + D : Nat) : ℚ) / 256) := by
      rw [hsplit, PriceSTD_fields ns [f1, f2] [d] hminus rfl rfl,
        stod_of_digitsValue ns N hne hN (le_two_pow_53 hNb (by norm_num)),
        stod_of_digitsValue [f1, f2] _ (by simp) hFF
          (le_two_pow_53 (show 10 * a + b < 32 by omega) (by norm_num)),
        stod_of_digitsValue _ _ hDne hDval (le_two_pow_53 hD8 (by norm_num))]
      simp only [Outcome.value.injEq]
      push_cast
      ring
    refine ⟨_, hread, ?_⟩
    have hk' : 8 * (10 * a + b) + D < 256 := by omega
    have hq : (8 * (10 * a + b) + D) / 8 = 10 * a + b := by omega
    have hr : (8 * (10 * a + b) + D) % 8 = D := by omega
    have hpad := pad_digits ⟨10 * a + b, by omega⟩
    have hq10 : (10 * a + b) / 10 = a := by omega
    have hr10 : (10 * a + b) % 10 = b := by omega
    simp only [hq10, hr10, hca, hcb] at hpad
    rw [PriceDTS_eq N _ hNb hk', hq, hr, hpad, hDprint, htd, hsplit]
  · have hp := pad_digits ⟨k / 8, by omega⟩
    have hl := last_digit ⟨k % 8, Nat.mod_lt _ (by omega)⟩
    have hg1 := digitChar_spec (k / 8 / 10) (by omega)
    have hg2 := digitChar_spec (k / 8 % 10) (Nat.mod_lt _ (by omega))
    simp only at hp hl
    refine ⟨Nat.toDigits 10 n, Nat.digitChar (k / 8 / 10), Nat.digitChar (k / 8 % 10),
      (if k % 8 = 4 then '+' else Nat.digitChar (k % 8)), ?_, (toDigits_spec n).1,
      (toDigits_spec n).2.2, (toDigits_canonical n).2, hg1.1, hg2.1, ?_, hl.2⟩
    · rw [PriceDTS_eq n k hn hk, hp, hl.1]
      simp
    · rw [hg1.2.1, hg2.2.1]
      omega

/-- C40 at the string `99-31+` and the number `100 + 132/256`. -/
theorem canonical_handle_round_trip_witness :
    (∃ x, PriceSTD (String.mk (['9', '9'] ++ ['-', '3', '1', '+'])) = Outcome.value x ∧
        PriceDTS x = some (String.mk (['9', '9'] ++ ['-', '3', '1', '+']))) ∧
      ∃ ms g1 g2 e, PriceDTS (((100 : Nat) : ℚ) + ((132 : Nat) : ℚ) / 256) =
          some (String.mk (ms ++ ['-', g1, g2, e])) ∧
        ms ≠ [] ∧ digitsValue 0 ms = some 100 ∧ (ms.head? = some '0' → ms = ['0']) ∧
        g1.isDigit = true ∧ g2.isDigit = true ∧
        10 * (g1.toNat - '0'.toNat) + (g2.toNat - '0'.toNat) ≤ 31 ∧
        e ∈ ['0', '1', '2', '3', '+', '5', '6', '7'] :=
  canonical_handle_round_trip ['9', '9'] '3' '1' '+' 99 100 132 (by simp) (by decide)
    (by norm_num) (by decide) (by decide) (by decide) (by decide) (by decide) (by norm_num)
    (by decide)

end FinalProject
